import Mathlib

/-! mod-host `atom-writer.c`: bounded sink, JSON escaping and atom serialisation

A shallow embedding of `src/atom-writer.c`.

* Bytes are natural numbers; a C string is the list of bytes that starts at the
  pointer, the end of the list standing for the terminating NUL (a 0 byte met
  earlier ends the string there, as `strlen` and `strcspn` would see it).
* The output array `buf` of the writer is a map from index to byte together
  with its size `cap` (`sizeof(writer->buf)`, declared in `atom-writer.h`).
  Indices at and beyond `cap` stand for the memory that follows the array, so
  that a write past the end would be visible.
* The atom body handed to `serialize_atom` is the list of bytes readable from
  the `body` pointer.  Reading outside it is `Outcome.bad_read`; a failed
  `assert` is `Outcome.assert_failed`; loops and recursion are driven by a fuel
  counter and report `Outcome.no_fuel` when it runs out.
-/

namespace ModHost

/-! ## Outcomes -/

/-- Result of running a piece of the C code. -/
inductive Outcome (α : Type) where
  | ok (a : α)
  | assert_failed
  | bad_read
  | no_fuel
  deriving DecidableEq

namespace Outcome

/-- Sequencing: continue with `f` after a normal return. -/
def bind {α β : Type} : Outcome α → (α → Outcome β) → Outcome β
  | ok a, f => f a
  | assert_failed, _ => assert_failed
  | bad_read, _ => bad_read
  | no_fuel, _ => no_fuel

/-- Apply `f` to the value of a normal return. -/
def map {α β : Type} (f : α → β) : Outcome α → Outcome β
  | ok a => ok (f a)
  | assert_failed => assert_failed
  | bad_read => bad_read
  | no_fuel => no_fuel

/-- Turn a memory read into an outcome: a read outside the readable bytes
is `bad_read`. -/
def ofRead {α : Type} : Option α → Outcome α
  | some a => ok a
  | none => bad_read

/-- The code returned normally. -/
def isOk {α : Type} : Outcome α → Bool
  | ok _ => true
  | _ => false

/-- The fuel of the model ran out before the code returned. -/
def isNoFuel {α : Type} : Outcome α → Bool
  | no_fuel => true
  | _ => false

end Outcome

/-! ## Data model -/

/-- The URID fields of `LV2_Atom_Forge` that `atom-writer.c` reads. -/
structure Forge where
  Blank : Nat
  Bool : Nat
  Double : Nat
  Float : Nat
  Int : Nat
  Long : Nat
  Object : Nat
  Path : Nat
  Resource : Nat
  String : Nat
  URI : Nat
  URID : Nat
  Vector : Nat

/-- The `AtomWriter` record.  `unmap` is the `LV2_URID_Unmap` service: it
returns `none` for a NULL pointer and `some s` for the C string `s`.
`cap` is `sizeof(buf)`. -/
structure AtomWriter where
  unmap : Nat → Option (List Nat)
  forge : Forge
  cap : Nat
  buf : Nat → Nat
  len : Nat
  overflow : Bool

/-- The text held by the sink: the first `len` bytes of `buf`. -/
def contents (w : AtomWriter) : List Nat :=
  (List.range w.len).map w.buf

/-! ## libc helpers -/

/-- `memcpy(&dst[pos], src, src.length)` on a byte map. -/
def memcpy (dst : Nat → Nat) (pos : Nat) (src : List Nat) : Nat → Nat :=
  fun i => if pos ≤ i ∧ i < pos + src.length then src.getD (i - pos) 0 else dst i

/-- `dst[pos] = v` on a byte map. -/
def store (dst : Nat → Nat) (pos v : Nat) : Nat → Nat :=
  fun i => if i = pos then v else dst i

/-- The bytes of the C string at `s`, up to its terminator. -/
def cstr (s : List Nat) : List Nat :=
  s.takeWhile (fun c => decide (c ≠ 0))

/-- `strlen(s)`. -/
def strlen (s : List Nat) : Nat :=
  (cstr s).length

/-- `strcspn(s, reject)`: length of the initial segment of `s` free of the
bytes of `reject`. -/
def strcspn (s reject : List Nat) : Nat :=
  (s.takeWhile (fun c => decide (c ≠ 0) && !(reject.contains c))).length

/-- `*pos` for a C string. -/
def deref (pos : List Nat) : Nat :=
  pos.headD 0

/-- Bytes of an ASCII literal. -/
def lit (s : String) : List Nat :=
  s.toList.map Char.toNat

/-! ## The bounded sink -/

/-- `sink(writer, buf, len)`; `bytes` are the `len` bytes at `buf`. -/
def sink (w : AtomWriter) (bytes : List Nat) : AtomWriter :=
  if w.overflow || bytes.length == 0 then w
  else if w.len + bytes.length ≥ w.cap then { w with overflow := true }
  else
    { w with
      buf := store (memcpy w.buf w.len bytes) (w.len + bytes.length) 0
      len := w.len + bytes.length }

/-- `sink_string(w, str)`. -/
def sink_string (w : AtomWriter) (str : List Nat) : AtomWriter :=
  sink w (str.take (strlen str))

/-- The `do ... while (*pos)` loop of `sink_escape`. -/
def sink_escape_loop : Nat → AtomWriter → List Nat → Outcome AtomWriter
  | 0, _, _ => .no_fuel
  | k + 1, w, pos =>
    let off := strcspn pos [34, 92]
    let w1 := sink w (pos.take off)
    if off = strlen pos then .ok w1
    else
      let w2 := sink w1 [92]
      let w3 := sink w2 ((pos.drop off).take 1)
      let pos1 := pos.drop (off + 1)
      if deref pos1 ≠ 0 then sink_escape_loop k w3 pos1 else .ok w3

/-- `sink_escape(w, str)`: `str` is `none` for a NULL pointer. -/
def sink_escape (w : AtomWriter) (str : Option (List Nat)) : Outcome AtomWriter :=
  match str with
  | none => .assert_failed
  | some s =>
    (sink_escape_loop (s.length + 1) (sink w [34]) s).bind
      (fun w1 => .ok (sink w1 [34]))

/-- `sink_begin_object(w, name)`. -/
def sink_begin_object (w : AtomWriter) (name : Option (List Nat)) : Outcome AtomWriter :=
  (sink_escape (sink w [123]) name).bind (fun w1 => .ok (sink w1 [58]))

/-- `sink_end_object(w)`. -/
def sink_end_object (w : AtomWriter) : AtomWriter :=
  sink w [125]

/-! ## Number formatting (`snprintf`) -/

/-- Decimal digits of `n`, most significant first, put in front of `acc`;
the first argument bounds the number of digits. -/
def put_digits : Nat → Nat → List Nat → List Nat
  | 0, _, acc => acc
  | f + 1, n, acc =>
    if n < 10 then (48 + n) :: acc
    else put_digits f (n / 10) ((48 + n % 10) :: acc)

/-- Text of `%u`: the decimal digits of `n`. -/
def fmt_u (n : Nat) : List Nat :=
  put_digits (n + 1) n []

/-- Text of `%d` (`PRId32`, `PRId64`). -/
def fmt_d (v : Int) : List Nat :=
  if v < 0 then 45 :: fmt_u v.natAbs else fmt_u v.natAbs

/-- Six decimal digits of `n % 10^6`, zero padded. -/
def pad6 (n : Nat) : List Nat :=
  [48 + n / 100000 % 10, 48 + n / 10000 % 10, 48 + n / 1000 % 10,
   48 + n / 100 % 10, 48 + n / 10 % 10, 48 + n % 10]

/-- Text of `%f` for the non-negative rational `num / den` with the given sign:
rounded to six decimals, ties to even. -/
def fmt_fixed6 (neg : Bool) (num den : Nat) : List Nat :=
  let q := num * 1000000 / den
  let r := num * 1000000 % den
  let n := if 2 * r > den ∨ (2 * r = den ∧ q % 2 = 1) then q + 1 else q
  (if neg then [45] else []) ++ fmt_u (n / 1000000) ++ [46] ++ pad6 (n % 1000000)

/-- Text of `%f` for the IEEE-754 value with `ebits` exponent bits and `mbits`
fraction bits whose bit pattern is `bits`. -/
def fmt_f (ebits mbits bits : Nat) : List Nat :=
  let neg := decide (bits / 2 ^ (ebits + mbits) % 2 = 1)
  let e := bits / 2 ^ mbits % 2 ^ ebits
  let m := bits % 2 ^ mbits
  let bias := 2 ^ (ebits - 1) - 1
  if e = 2 ^ ebits - 1 then
    (if neg then [45] else []) ++ (if m = 0 then lit "inf" else lit "nan")
  else
    let mant := if e = 0 then m else m + 2 ^ mbits
    let ex := if e = 0 then 1 else e
    if bias + mbits ≤ ex then fmt_fixed6 neg (mant * 2 ^ (ex - (bias + mbits))) 1
    else fmt_fixed6 neg mant (2 ^ (bias + mbits - ex))

/-- What `snprintf(buf, 64, ...)` leaves in `char buf[64]` for the text `t`. -/
def snprintf64 (t : List Nat) : List Nat :=
  t.take 63

/-! ## Reading the atom body -/

/-- `*(const uint32_t*)(mem + off)`, little endian. -/
def load32 (mem : List Nat) (off : Nat) : Option Nat :=
  match mem.drop off with
  | b0 :: b1 :: b2 :: b3 :: _ =>
    some ((b0 + 256 * b1 + 65536 * b2 + 16777216 * b3) % 2 ^ 32)
  | _ => none

/-- `*(const uint64_t*)(mem + off)`, little endian. -/
def load64 (mem : List Nat) (off : Nat) : Option Nat :=
  match load32 mem off, load32 mem (off + 4) with
  | some lo, some hi => some (lo + 2 ^ 32 * hi)
  | _, _ => none

/-- Two's complement reading of a 32-bit word. -/
def to_int32 (n : Nat) : Int :=
  if n < 2 ^ 31 then (n : Int) else (n : Int) - 2 ^ 32

/-- Two's complement reading of a 64-bit word. -/
def to_int64 (n : Nat) : Int :=
  if n < 2 ^ 63 then (n : Int) else (n : Int) - 2 ^ 64

/-- `SSTR(body)` used as a C string: the terminator has to be among the
readable bytes. -/
def body_string (body : List Nat) : Outcome (Option (List Nat)) :=
  if body.contains 0 then .ok (some body) else .bad_read

/-! ## LV2 helpers (`lv2/atom/util.h`, `lv2/atom/forge.h`) -/

/-- `lv2_atom_pad_size(size)`: `(size + 7U) & (~7U)` on `uint32_t`. -/
def lv2_atom_pad_size (size : Nat) : Nat :=
  (size + 7) % 2 ^ 32 / 8 * 8

/-- `lv2_atom_forge_is_object_type(forge, type)`. -/
def lv2_atom_forge_is_object_type (forge : Forge) (type : Nat) : Bool :=
  type == forge.Object || type == forge.Blank || type == forge.Resource

/-- `lv2_atom_forge_is_blank(forge, type, body)`; `body->id` is read only when
the type is `forge->Object`. -/
def lv2_atom_forge_is_blank (forge : Forge) (type : Nat) (body : List Nat) :
    Outcome Bool :=
  if type = forge.Blank then .ok true
  else if type = forge.Object then (Outcome.ofRead (load32 body 0)).map (fun id => id == 0)
  else .ok false

/-! ## The atom encoder -/

/-- The `for` loop of the Vector arm of `serialize_atom`; `ser` is the
recursive call, `i` the offset of the element from `body`. -/
def vector_loop (ser : AtomWriter → Nat → Nat → List Nat → Outcome AtomWriter)
    (body : List Nat) (size : Nat) : Nat → Nat → Bool → AtomWriter → Outcome AtomWriter
  | 0, _, _, _ => .no_fuel
  | k + 1, i, first, w =>
    if i < size then
      let w1 := if first then w else sink w [44]
      (Outcome.ofRead (load32 body 4)).bind fun child_type =>
      (Outcome.ofRead (load32 body 0)).bind fun child_size =>
      (ser w1 child_type child_size (body.drop i)).bind fun w2 =>
      vector_loop ser body size k (i + child_size) false w2
    else .ok w

/-- The `LV2_ATOM_OBJECT_BODY_FOREACH` loop of the object arm of
`serialize_atom`; `i` is the offset of the property from `body`. -/
def object_loop (ser : AtomWriter → Nat → Nat → List Nat → Outcome AtomWriter)
    (body : List Nat) (size : Nat) : Nat → Nat → AtomWriter → Outcome AtomWriter
  | 0, _, _ => .no_fuel
  | k + 1, i, w =>
    if i ≥ size then .ok w
    else
      (Outcome.ofRead (load32 body i)).bind fun key =>
      let w1 := sink w [44]
      (sink_escape w1 (w.unmap key)).bind fun w2 =>
      let w3 := sink w2 [58]
      (Outcome.ofRead (load32 body (i + 12))).bind fun vtype =>
      (Outcome.ofRead (load32 body (i + 8))).bind fun vsize =>
      (ser w3 vtype vsize (body.drop (i + 16))).bind fun w4 =>
      object_loop ser body size k (i + lv2_atom_pad_size ((16 + vsize) % 2 ^ 32)) w4

/-- `serialize_atom(writer, type_urid, size, body)`. -/
def serialize_atom : Nat → AtomWriter → Nat → Nat → List Nat → Outcome AtomWriter
  | 0, _, _, _, _ => .no_fuel
  | fuel + 1, w, type_urid, size, body =>
    if type_urid = 0 ∧ size = 0 then
      .ok (sink_string w (lit "null"))
    else if type_urid = w.forge.String then
      (body_string body).bind fun s => sink_escape w s
    else if type_urid = w.forge.URID then
      (Outcome.ofRead (load32 body 0)).bind fun urid =>
      sink_escape w (w.unmap urid)
    else if type_urid = w.forge.URI then
      (body_string body).bind fun s => sink_escape w s
    else if type_urid = w.forge.Int then
      (Outcome.ofRead (load32 body 0)).bind fun v =>
      .ok (sink_string w (snprintf64 (fmt_d (to_int32 v))))
    else if type_urid = w.forge.Long then
      (Outcome.ofRead (load64 body 0)).bind fun v =>
      .ok (sink_string w (snprintf64 (fmt_d (to_int64 v))))
    else if type_urid = w.forge.Float then
      (Outcome.ofRead (load32 body 0)).bind fun v =>
      .ok (sink_string w (snprintf64 (fmt_f 8 23 v)))
    else if type_urid = w.forge.Double then
      (Outcome.ofRead (load64 body 0)).bind fun v =>
      .ok (sink_string w (snprintf64 (fmt_f 11 52 v)))
    else if type_urid = w.forge.Bool then
      (Outcome.ofRead (load32 body 0)).bind fun val =>
      .ok (sink_string w (if to_int32 val ≠ 0 then lit "true" else lit "false"))
    else if type_urid = w.forge.Vector then
      let w1 := sink w [91]
      (vector_loop (serialize_atom fuel) body size fuel 8 true w1).bind fun w2 =>
      .ok (sink w2 [93])
    else if lv2_atom_forge_is_object_type w.forge type_urid then
      (Outcome.ofRead (load32 body 4)).bind fun otype =>
      (sink_begin_object w (w.unmap otype)).bind fun w1 =>
      let w2 := sink w1 [123]
      (lv2_atom_forge_is_blank w.forge type_urid body).bind fun blank =>
      (if blank then .ok (sink_string w2 (lit "\"#type\":null"))
       else
        let w3 := sink_string w2 (lit "\"#type\":")
        (Outcome.ofRead (load32 body 0)).bind fun id =>
        sink_escape w3 (w.unmap id)).bind fun w4 =>
      (object_loop (serialize_atom fuel) body size fuel 8 w4).bind fun w5 =>
      let w6 := sink w5 [125]
      .ok (sink_end_object w6)
    else if type_urid = w.forge.Path then
      (sink_begin_object w (some (lit "#path"))).bind fun w1 =>
      (body_string body).bind fun s =>
      (sink_escape w1 s).bind fun w2 =>
      .ok (sink_end_object w2)
    else
      .ok (sink_string w (lit "null"))

/-! ## Global functions -/

/-- `atom_writer_init(w, forge, unmap)`.  The scratch buffer handed to
`lv2_atom_forge_set_buffer` is not read by the writer and is left out. -/
def atom_writer_init (w : AtomWriter) (forge : Forge)
    (unmap : Nat → Option (List Nat)) : AtomWriter :=
  { w with unmap := unmap, forge := forge, overflow := false, len := 0,
           buf := store w.buf 0 0 }

/-- The text `snprintf(hdr, 256, "atom %d %s ", instance, symbol)` leaves in
`char hdr[256]`. -/
def header (inst : Int) (symbol : List Nat) : List Nat :=
  (lit "atom " ++ fmt_d inst ++ [32] ++ cstr symbol ++ [32]).take 255

/-- `atom_writer_format(w, instance, symbol, type_urid, size, body)`: the
writer afterwards and the returned status. -/
def atom_writer_format (fuel : Nat) (w : AtomWriter) (inst : Int) (symbol : List Nat)
    (type_urid size : Nat) (body : List Nat) : Outcome (AtomWriter × Int) :=
  let w1 := sink_string w (header inst symbol)
  (sink_begin_object w1 (some symbol)).bind fun w2 =>
  (serialize_atom fuel w2 type_urid size body).bind fun w3 =>
  let w4 := sink_end_object w3
  let w5 := sink w4 [10]
  .ok (w5, if w5.overflow then -1 else 0)

/-! ## The sequence of pieces handed to the sink

Every function above changes the writer only through `sink`.  The definitions
below give, for each of them, the list of byte strings it passes to `sink`, in
order; their concatenation is the text an unbounded sink would receive. -/

/-- Feed the pieces `ps` to the sink, in order. -/
def sink_all (w : AtomWriter) (ps : List (List Nat)) : AtomWriter :=
  ps.foldl sink w

/-- Pieces of `sink_string`. -/
def string_pieces (str : List Nat) : List (List Nat) :=
  [str.take (strlen str)]

/-- Pieces of `sink_escape_loop`. -/
def escape_loop_pieces : Nat → List Nat → Outcome (List (List Nat))
  | 0, _ => .no_fuel
  | k + 1, pos =>
    let off := strcspn pos [34, 92]
    if off = strlen pos then .ok [pos.take off]
    else
      let pos1 := pos.drop (off + 1)
      if deref pos1 ≠ 0 then
        (escape_loop_pieces k pos1).map fun r =>
          pos.take off :: [92] :: (pos.drop off).take 1 :: r
      else .ok [pos.take off, [92], (pos.drop off).take 1]

/-- Pieces of `sink_escape`. -/
def escape_pieces (str : Option (List Nat)) : Outcome (List (List Nat)) :=
  match str with
  | none => .assert_failed
  | some s => (escape_loop_pieces (s.length + 1) s).map fun r => [34] :: (r ++ [[34]])

/-- Pieces of `sink_begin_object`. -/
def begin_object_pieces (name : Option (List Nat)) : Outcome (List (List Nat)) :=
  (escape_pieces name).map fun r => [123] :: (r ++ [[58]])

/-- Pieces of `vector_loop`. -/
def vector_pieces (serp : Nat → Nat → List Nat → Outcome (List (List Nat)))
    (body : List Nat) (size : Nat) : Nat → Nat → Bool → Outcome (List (List Nat))
  | 0, _, _ => .no_fuel
  | k + 1, i, first =>
    if i < size then
      (Outcome.ofRead (load32 body 4)).bind fun child_type =>
      (Outcome.ofRead (load32 body 0)).bind fun child_size =>
      (serp child_type child_size (body.drop i)).bind fun p =>
      (vector_pieces serp body size k (i + child_size) false).map fun r =>
        (if first then [] else [[44]]) ++ (p ++ r)
    else .ok []

/-- Pieces of `object_loop`. -/
def object_pieces (unmap : Nat → Option (List Nat))
    (serp : Nat → Nat → List Nat → Outcome (List (List Nat)))
    (body : List Nat) (size : Nat) : Nat → Nat → Outcome (List (List Nat))
  | 0, _ => .no_fuel
  | k + 1, i =>
    if i ≥ size then .ok []
    else
      (Outcome.ofRead (load32 body i)).bind fun key =>
      (escape_pieces (unmap key)).bind fun pk =>
      (Outcome.ofRead (load32 body (i + 12))).bind fun vtype =>
      (Outcome.ofRead (load32 body (i + 8))).bind fun vsize =>
      (serp vtype vsize (body.drop (i + 16))).bind fun pv =>
      (object_pieces unmap serp body size k
          (i + lv2_atom_pad_size ((16 + vsize) % 2 ^ 32))).map fun r =>
        [44] :: (pk ++ ([58] :: (pv ++ r)))

/-- Pieces of `serialize_atom` for a writer with the given forge and unmap. -/
def atom_pieces (forge : Forge) (unmap : Nat → Option (List Nat)) :
    Nat → Nat → Nat → List Nat → Outcome (List (List Nat))
  | 0, _, _, _ => .no_fuel
  | fuel + 1, type_urid, size, body =>
    if type_urid = 0 ∧ size = 0 then
      .ok (string_pieces (lit "null"))
    else if type_urid = forge.String then
      (body_string body).bind fun s => escape_pieces s
    else if type_urid = forge.URID then
      (Outcome.ofRead (load32 body 0)).bind fun urid => escape_pieces (unmap urid)
    else if type_urid = forge.URI then
      (body_string body).bind fun s => escape_pieces s
    else if type_urid = forge.Int then
      (Outcome.ofRead (load32 body 0)).bind fun v =>
      .ok (string_pieces (snprintf64 (fmt_d (to_int32 v))))
    else if type_urid = forge.Long then
      (Outcome.ofRead (load64 body 0)).bind fun v =>
      .ok (string_pieces (snprintf64 (fmt_d (to_int64 v))))
    else if type_urid = forge.Float then
      (Outcome.ofRead (load32 body 0)).bind fun v =>
      .ok (string_pieces (snprintf64 (fmt_f 8 23 v)))
    else if type_urid = forge.Double then
      (Outcome.ofRead (load64 body 0)).bind fun v =>
      .ok (string_pieces (snprintf64 (fmt_f 11 52 v)))
    else if type_urid = forge.Bool then
      (Outcome.ofRead (load32 body 0)).bind fun val =>
      .ok (string_pieces (if to_int32 val ≠ 0 then lit "true" else lit "false"))
    else if type_urid = forge.Vector then
      (vector_pieces (atom_pieces forge unmap fuel) body size fuel 8 true).map fun r =>
        [91] :: (r ++ [[93]])
    else if lv2_atom_forge_is_object_type forge type_urid then
      (Outcome.ofRead (load32 body 4)).bind fun otype =>
      (begin_object_pieces (unmap otype)).bind fun p1 =>
      (lv2_atom_forge_is_blank forge type_urid body).bind fun blank =>
      (if blank then .ok (string_pieces (lit "\"#type\":null"))
       else
        (Outcome.ofRead (load32 body 0)).bind fun id =>
        (escape_pieces (unmap id)).map fun r =>
          string_pieces (lit "\"#type\":") ++ r).bind fun p4 =>
      (object_pieces unmap (atom_pieces forge unmap fuel) body size fuel 8).map fun p5 =>
        p1 ++ ([123] :: (p4 ++ (p5 ++ [[125], [125]])))
    else if type_urid = forge.Path then
      (begin_object_pieces (some (lit "#path"))).bind fun p1 =>
      (body_string body).bind fun s =>
      (escape_pieces s).map fun p2 => p1 ++ (p2 ++ [[125]])
    else
      .ok (string_pieces (lit "null"))

/-- Pieces of `atom_writer_format`. -/
def format_pieces (forge : Forge) (unmap : Nat → Option (List Nat)) (fuel : Nat)
    (inst : Int) (symbol : List Nat) (type_urid size : Nat) (body : List Nat) :
    Outcome (List (List Nat)) :=
  (begin_object_pieces (some symbol)).bind fun p2 =>
  (atom_pieces forge unmap fuel type_urid size body).map fun p3 =>
    string_pieces (header inst symbol) ++ (p2 ++ (p3 ++ [[125], [10]]))

/-- Text `serialize_atom` writes to an unbounded sink. -/
def atom_text (forge : Forge) (unmap : Nat → Option (List Nat)) (fuel : Nat)
    (type_urid size : Nat) (body : List Nat) : Outcome (List Nat) :=
  (atom_pieces forge unmap fuel type_urid size body).map List.flatten

/-- Text `sink_escape` writes to an unbounded sink. -/
def escape_text (str : Option (List Nat)) : Outcome (List Nat) :=
  (escape_pieces str).map List.flatten

/-- Text `atom_writer_format` writes to an unbounded sink. -/
def format_text (forge : Forge) (unmap : Nat → Option (List Nat)) (fuel : Nat)
    (inst : Int) (symbol : List Nat) (type_urid size : Nat) (body : List Nat) :
    Outcome (List Nat) :=
  (format_pieces forge unmap fuel inst symbol type_urid size body).map List.flatten

/-! ## Specification-level notions -/

/-- The sink invariant: room for the terminator, and the terminator in place. -/
def Inv (w : AtomWriter) : Prop :=
  w.len < w.cap ∧ w.buf w.len = 0

/-- No NUL among the first `len` bytes: with `Inv`, `buf` is a C string of
exactly `len` bytes. -/
def NulFree (w : AtomWriter) : Prop :=
  ∀ i, i < w.len → w.buf i ≠ 0


/-- What the escaping does to one byte. -/
def escape_byte (c : Nat) : List Nat :=
  if c = 34 ∨ c = 92 then [92, c] else [c]

/-- A quoted JSON string as the spec describes it: `"` and `\` get a
backslash in front, every other byte is copied. -/
def escaped (s : List Nat) : List Nat :=
  34 :: (s.flatMap escape_byte ++ [34])

/-- A property `P w w'` of the writer before and after holds for every call of
`sink_string`, `sink_escape`, `serialize_atom` and `atom_writer_format` that
returns. -/
def string_operations (P : AtomWriter → AtomWriter → Prop) : Prop :=
  (∀ w str, P w (sink_string w str)) ∧
  (∀ w str w', sink_escape w str = .ok w' → P w w') ∧
  (∀ fuel w type_urid size body w',
      serialize_atom fuel w type_urid size body = .ok w' → P w w') ∧
  (∀ fuel w inst symbol type_urid size body w' r,
      atom_writer_format fuel w inst symbol type_urid size body = .ok (w', r) → P w w')

/-- A property `P w w'` of the writer before and after holds for every
operation other than `atom_writer_init`. -/
def all_operations (P : AtomWriter → AtomWriter → Prop) : Prop :=
  (∀ w bytes, P w (sink w bytes)) ∧ string_operations P

/-- No piece holds a NUL byte. -/
def Clean (ps : List (List Nat)) : Prop :=
  ∀ p, p ∈ ps → ∀ b, b ∈ p → b ≠ 0

/-- Value of a string of decimal digits. -/
def parse_digits (ds : List Nat) : Nat :=
  ds.foldl (fun acc d => 10 * acc + (d - 48)) 0

/-- Value of a signed decimal text: an optional `-` followed by digits. -/
def parse_int (t : List Nat) : Int :=
  match t with
  | 45 :: ds => -(parse_digits ds : Int)
  | ds => (parse_digits ds : Int)

/-- The four bytes of the 32-bit two's complement word holding `v`, in memory
order (little endian). -/
def int32_bytes (v : Int) : List Nat :=
  let u := (v % 4294967296).toNat
  [u % 256, u / 256 % 256, u / 65536 % 256, u / 16777216 % 256]

/-- The eight bytes of the 64-bit two's complement word holding `v`, in memory
order (little endian). -/
def int64_bytes (v : Int) : List Nat :=
  let u := (v % 18446744073709551616).toNat
  [u % 256, u / 256 % 256, u / 65536 % 256, u / 16777216 % 256,
   u / 4294967296 % 256, u / 1099511627776 % 256, u / 281474976710656 % 256,
   u / 72057594037927936 % 256]

/-- The record the spec describes: header, wrapper object keyed by the escaped
symbol around the encoding `enc` of the atom, newline. -/
def record (inst : Int) (symbol enc : List Nat) : List Nat :=
  lit "atom " ++ fmt_d inst ++ [32] ++ symbol ++ [32] ++ [123] ++ escaped symbol ++ [58]
    ++ enc ++ [125] ++ [10]

/-! ## Loops that advance -/

/-- Every element the Vector loop visits is reached with a nonzero
`child_size`, and `chk` holds for the element.  The first number bounds the
elements looked at. -/
def vector_strides (chk : Nat → Nat → List Nat → Bool) (body : List Nat) (size : Nat) :
    Nat → Nat → Bool
  | 0, _ => true
  | k + 1, i =>
    if i < size then
      match load32 body 4, load32 body 0 with
      | some child_type, some child_size =>
        decide (child_size ≠ 0) && chk child_type child_size (body.drop i)
          && vector_strides chk body size k (i + child_size)
      | _, _ => true
    else true

/-- Every property the object loop visits has a nonzero padded size, and `chk`
holds for its value.  The first number bounds the properties looked at. -/
def object_strides (chk : Nat → Nat → List Nat → Bool) (body : List Nat) (size : Nat) :
    Nat → Nat → Bool
  | 0, _ => true
  | k + 1, i =>
    if i ≥ size then true
    else
      match load32 body (i + 12), load32 body (i + 8) with
      | some vtype, some vsize =>
        decide (lv2_atom_pad_size ((16 + vsize) % 2 ^ 32) ≠ 0)
          && chk vtype vsize (body.drop (i + 16))
          && object_strides chk body size k (i + lv2_atom_pad_size ((16 + vsize) % 2 ^ 32))
      | _, _ => true

/-- In the atom and in the atoms nested in it down to depth `d`, every vector
has a nonzero child stride and every property a nonzero padded size. -/
def strides_ok (forge : Forge) : Nat → Nat → Nat → List Nat → Bool
  | 0, _, _, _ => true
  | d + 1, type_urid, size, body =>
    (decide (type_urid ≠ forge.Vector)
      || vector_strides (strides_ok forge d) body size size 8)
    && (!(lv2_atom_forge_is_object_type forge type_urid)
      || object_strides (strides_ok forge d) body size size 8)

/-! ## Notions used to state the encodings -/

/-- The tags of the forge that the encoder compares the type with. -/
def forge_tags (forge : Forge) : List Nat :=
  [forge.String, forge.URID, forge.URI, forge.Int, forge.Long, forge.Float, forge.Double,
   forge.Bool, forge.Vector, forge.Object, forge.Blank, forge.Resource, forge.Path]

/-- The forge maps its types to distinct, nonzero URIDs. -/
def distinct_tags (forge : Forge) : Prop :=
  (forge_tags forge).Nodup ∧ 0 ∉ forge_tags forge

/-- Texts joined by single commas, none at the end. -/
def join_commas : List (List Nat) → List Nat
  | [] => []
  | [e] => e
  | e :: es => e ++ 44 :: join_commas es

/-- A JSON array of the element texts `es`. -/
def array_text (es : List (List Nat)) : List Nat :=
  [91] ++ join_commas es ++ [93]

/-- One property of an object as the encoder meets it: key, type and size of
the value, the name the key resolves to and the text of the value. -/
structure Member where
  key : Nat
  vtype : Nat
  vsize : Nat
  name : List Nat
  text : List Nat

/-- The properties stored in the object body from offset `i` on are, in
on-disk order, `ms`: each `LV2_Atom_Property_Body` holds the key, the value
type and the value size, the key resolves to the name, the value body follows
the 16-byte property header and has the text, and the next property starts at
the padded end of this one; after the last one the offset has reached `size`. -/
def members_at (forge : Forge) (unmap : Nat → Option (List Nat)) (f : Nat)
    (body : List Nat) (size : Nat) : Nat → List Member → Prop
  | i, [] => size ≤ i
  | i, m :: rest =>
    i < size ∧ load32 body i = some m.key ∧ load32 body (i + 12) = some m.vtype ∧
    load32 body (i + 8) = some m.vsize ∧ unmap m.key = some m.name ∧
    atom_text forge unmap f m.vtype m.vsize (body.drop (i + 16)) = .ok m.text ∧
    members_at forge unmap f body size (i + lv2_atom_pad_size ((16 + m.vsize) % 2 ^ 32)) rest

/-- Text of one property: comma, escaped name, colon, value. -/
def member_text (m : Member) : List Nat :=
  [44] ++ escaped (cstr m.name) ++ [58] ++ m.text

/-- Text of an object whose type resolves to `tname`, with the `#type` entry
`x` and the properties `ms`. -/
def object_text (tname x : List Nat) (ms : List Member) : List Nat :=
  [123] ++ escaped (cstr tname) ++ [58, 123] ++ lit "\"#type\":" ++ x
    ++ ms.flatMap member_text ++ [125, 125]

/-- The header text before `snprintf` cuts it: `atom <instance> <symbol> `. -/
def full_header (inst : Int) (symbol : List Nat) : List Nat :=
  lit "atom " ++ fmt_d inst ++ [32] ++ symbol ++ [32]

/-- The writer `w'` holds what `w` held followed by an initial part of `txt`:
the old bytes are untouched, the length has grown by the part appended, and the
part is all of `txt` when the overflow flag of `w'` is clear. -/
def appends_part (w w' : AtomWriter) (txt : List Nat) : Prop :=
  ∃ t, t <+: txt ∧ contents w' = contents w ++ t ∧ w'.len = w.len + t.length ∧
    (∀ i, i < w.len → w'.buf i = w.buf i) ∧ (w'.overflow = false → t = txt)

/-- Undo the escaping: scanning from the left, every two-byte sequence `\` `c`
becomes `c`. -/
def unescape : List Nat → List Nat
  | [] => []
  | [c] => [c]
  | c :: d :: rest => if c = 92 then d :: unescape rest else c :: unescape (d :: rest)

/-- Read a JSON string after its opening quote, scanning from the left: a `\`
takes the next byte with it, the first quote met otherwise ends the string.
The result is the string read and the text after the closing quote. -/
def read_string : List Nat → Option (List Nat × List Nat)
  | [] => none
  | [c] => if c = 34 then some ([], []) else none
  | c :: d :: rest =>
    if c = 34 then some ([], d :: rest)
    else if c = 92 then (read_string rest).map (fun p => (d :: p.1, p.2))
    else (read_string (d :: rest)).map (fun p => (c :: p.1, p.2))

/-! ## Sample data -/

/-- A forge with the tags 1 to 13 in the order of the fields. -/
def sample_forge : Forge :=
  ⟨1, 2, 3, 4, 5, 6, 7, 8, 9, 10, 11, 12, 13⟩

/-- A resolution service: 100 is `Foo`, 101 is `bar`, 0 is NULL, every other
identifier the empty string. -/
def sample_unmap : Nat → Option (List Nat) :=
  fun n => if n = 100 then some (lit "Foo") else if n = 101 then some (lit "bar")
    else if n = 0 then none else some []

/-- A writer of capacity `cap`, freshly initialised. -/
def sample_writer (cap : Nat) : AtomWriter :=
  atom_writer_init ⟨sample_unmap, sample_forge, cap, fun _ => 255, 7, true⟩
    sample_forge sample_unmap

/-- A writer of capacity `cap` holding `abc` whose overflow flag is set. -/
def overflowed_writer (cap : Nat) : AtomWriter :=
  { sink (sample_writer cap) [97, 98, 99] with overflow := true }

/-- A resolution service that never returns NULL: 100 is `Foo`, 101 is `bar`,
every other identifier the empty string. -/
def named_unmap : Nat → Option (List Nat) :=
  fun n => if n = 100 then some (lit "Foo") else if n = 101 then some (lit "bar") else some []

/-- A freshly initialised writer of capacity `cap` over `named_unmap`. -/
def named_writer (cap : Nat) : AtomWriter :=
  atom_writer_init ⟨named_unmap, sample_forge, cap, fun _ => 255, 7, true⟩
    sample_forge named_unmap

/-- Body of a vector atom with child type 0 and child stride 0. -/
def zero_stride_vector : List Nat :=
  [0, 0, 0, 0, 0, 0, 0, 0]

/-- Body of an object atom (anonymous, type 100) with one property (key 101)
whose value declares type 0 and size `0xFFFFFFF0`. -/
def zero_step_object : List Nat :=
  [0, 0, 0, 0, 100, 0, 0, 0, 101, 0, 0, 0, 0, 0, 0, 0, 240, 255, 255, 255, 0, 0, 0, 0]

/-- Body of a vector atom holding the Int children 1, 2, 3 with stride 4. -/
def int_vector : List Nat :=
  [4, 0, 0, 0, 5, 0, 0, 0, 1, 0, 0, 0, 2, 0, 0, 0, 3, 0, 0, 0]

/-- Body of an object atom: instance 0, type 100 (`Foo`), one property with
key 101 (`bar`) whose value is the Int 7. -/
def foo_object : List Nat :=
  [0, 0, 0, 0, 100, 0, 0, 0, 101, 0, 0, 0, 0, 0, 0, 0, 4, 0, 0, 0, 5, 0, 0, 0, 7, 0, 0, 0]

end ModHost

/-! # Theorems -/

namespace ModHost

/-! ## Outcomes -/

namespace Outcome

@[simp] theorem bind_ok {α β : Type} (a : α) (f : α → Outcome β) : (ok a).bind f = f a := rfl
@[simp] theorem bind_assert_failed {α β : Type} (f : α → Outcome β) :
    (assert_failed : Outcome α).bind f = assert_failed := rfl
@[simp] theorem bind_bad_read {α β : Type} (f : α → Outcome β) :
    (bad_read : Outcome α).bind f = bad_read := rfl
@[simp] theorem bind_no_fuel {α β : Type} (f : α → Outcome β) :
    (no_fuel : Outcome α).bind f = no_fuel := rfl
@[simp] theorem map_ok {α β : Type} (a : α) (f : α → β) : (ok a).map f = ok (f a) := rfl
@[simp] theorem map_assert_failed {α β : Type} (f : α → β) :
    (assert_failed : Outcome α).map f = assert_failed := rfl
@[simp] theorem map_bad_read {α β : Type} (f : α → β) :
    (bad_read : Outcome α).map f = bad_read := rfl
@[simp] theorem map_no_fuel {α β : Type} (f : α → β) :
    (no_fuel : Outcome α).map f = no_fuel := rfl

theorem map_map {α β γ : Type} (o : Outcome α) (f : α → β) (g : β → γ) :
    (o.map f).map g = o.map (fun a => g (f a)) := by
  cases o <;> rfl

theorem bind_map {α β γ : Type} (o : Outcome α) (f : α → β) (g : β → Outcome γ) :
    (o.map f).bind g = o.bind (fun a => g (f a)) := by
  cases o <;> rfl

theorem map_bind {α β γ : Type} (o : Outcome α) (f : α → Outcome β) (g : β → γ) :
    (o.bind f).map g = o.bind (fun a => (f a).map g) := by
  cases o <;> rfl

theorem bind_congr {α β : Type} (o : Outcome α) (f g : α → Outcome β)
    (h : ∀ a, f a = g a) : o.bind f = o.bind g := by
  cases o <;> simp [h]

theorem map_congr {α β : Type} (o : Outcome α) (f g : α → β)
    (h : ∀ a, f a = g a) : o.map f = o.map g := by
  cases o <;> simp [h]

theorem map_eq_ok {α β : Type} {o : Outcome α} {f : α → β} {b : β}
    (h : o.map f = ok b) : ∃ a, o = ok a ∧ f a = b := by
  cases o <;> simp_all

theorem bind_eq_ok {α β : Type} {o : Outcome α} {f : α → Outcome β} {b : β}
    (h : o.bind f = ok b) : ∃ a, o = ok a ∧ f a = ok b := by
  cases o <;> simp_all

end Outcome

/-! ## The sink -/

@[simp] theorem sink_unmap (w : AtomWriter) (bs : List Nat) : (sink w bs).unmap = w.unmap := by
  unfold sink; split_ifs <;> rfl

@[simp] theorem sink_forge (w : AtomWriter) (bs : List Nat) : (sink w bs).forge = w.forge := by
  unfold sink; split_ifs <;> rfl

@[simp] theorem sink_cap (w : AtomWriter) (bs : List Nat) : (sink w bs).cap = w.cap := by
  unfold sink; split_ifs <;> rfl

theorem sink_of_overflow (w : AtomWriter) (bs : List Nat) (h : w.overflow = true) :
    sink w bs = w := by
  simp [sink, h]

@[simp] theorem sink_nil (w : AtomWriter) : sink w [] = w := by
  simp [sink]

theorem sink_full (w : AtomWriter) (bs : List Nat) (ho : w.overflow = false)
    (hn : bs ≠ []) (hc : w.cap ≤ w.len + bs.length) :
    sink w bs = { w with overflow := true } := by
  simp [sink, ho, hn, hc]

theorem sink_fits (w : AtomWriter) (bs : List Nat) (ho : w.overflow = false)
    (hn : bs ≠ []) (hc : w.len + bs.length < w.cap) :
    sink w bs = { w with buf := store (memcpy w.buf w.len bs) (w.len + bs.length) 0,
                         len := w.len + bs.length } := by
  simp [sink, ho, hn, Nat.not_le.mpr hc]

/-! ## Running a list of pieces through the sink -/

@[simp] theorem sink_all_nil (w : AtomWriter) : sink_all w [] = w := rfl

@[simp] theorem sink_all_cons (w : AtomWriter) (p : List Nat) (ps : List (List Nat)) :
    sink_all w (p :: ps) = sink_all (sink w p) ps := rfl

theorem sink_all_append (w : AtomWriter) (ps qs : List (List Nat)) :
    sink_all w (ps ++ qs) = sink_all (sink_all w ps) qs := by
  simp [sink_all, List.foldl_append]

@[simp] theorem sink_all_unmap (w : AtomWriter) (ps : List (List Nat)) :
    (sink_all w ps).unmap = w.unmap := by
  induction ps generalizing w with
  | nil => rfl
  | cons p ps ih => simp [ih]

@[simp] theorem sink_all_forge (w : AtomWriter) (ps : List (List Nat)) :
    (sink_all w ps).forge = w.forge := by
  induction ps generalizing w with
  | nil => rfl
  | cons p ps ih => simp [ih]

@[simp] theorem sink_all_cap (w : AtomWriter) (ps : List (List Nat)) :
    (sink_all w ps).cap = w.cap := by
  induction ps generalizing w with
  | nil => rfl
  | cons p ps ih => simp [ih]

theorem sink_all_of_overflow (w : AtomWriter) (ps : List (List Nat))
    (h : w.overflow = true) : sink_all w ps = w := by
  induction ps with
  | nil => rfl
  | cons p ps ih => simp [sink_of_overflow w p h, ih]

/-! ## Each function is `sink_all` of its pieces -/

theorem sink_string_eq (w : AtomWriter) (str : List Nat) :
    sink_string w str = sink_all w (string_pieces str) := rfl

theorem sink_end_object_eq (w : AtomWriter) : sink_end_object w = sink_all w [[125]] := rfl

theorem sink_escape_loop_eq (k : Nat) (w : AtomWriter) (pos : List Nat) :
    sink_escape_loop k w pos = (escape_loop_pieces k pos).map (sink_all w) := by
  induction k generalizing w pos with
  | zero => rfl
  | succ k ih =>
    unfold sink_escape_loop escape_loop_pieces
    by_cases h1 : strcspn pos [34, 92] = strlen pos
    · simp [h1]
    · by_cases h2 : deref (pos.drop (strcspn pos [34, 92] + 1)) = 0
      · simp [h1, h2]
      · simp [h1, h2, ih, Outcome.map_map]

theorem sink_escape_eq (w : AtomWriter) (str : Option (List Nat)) :
    sink_escape w str = (escape_pieces str).map (sink_all w) := by
  cases str with
  | none => rfl
  | some s =>
    simp only [sink_escape, escape_pieces, sink_escape_loop_eq, Outcome.map_map,
      Outcome.bind_map]
    cases escape_loop_pieces (s.length + 1) s <;> simp [sink_all_append]

theorem sink_begin_object_eq (w : AtomWriter) (name : Option (List Nat)) :
    sink_begin_object w name = (begin_object_pieces name).map (sink_all w) := by
  simp only [sink_begin_object, begin_object_pieces, sink_escape_eq, Outcome.map_map,
    Outcome.bind_map]
  cases escape_pieces name <;> simp [sink_all_append]

theorem vector_loop_eq (forge : Forge) (unmap : Nat → Option (List Nat))
    (ser : AtomWriter → Nat → Nat → List Nat → Outcome AtomWriter)
    (serp : Nat → Nat → List Nat → Outcome (List (List Nat)))
    (H : ∀ w t s b, w.forge = forge → w.unmap = unmap →
      ser w t s b = (serp t s b).map (sink_all w))
    (body : List Nat) (size k i : Nat) (first : Bool) (w : AtomWriter)
    (hf : w.forge = forge) (hu : w.unmap = unmap) :
    vector_loop ser body size k i first w
      = (vector_pieces serp body size k i first).map (sink_all w) := by
  induction k generalizing i first w with
  | zero => rfl
  | succ k ih =>
    unfold vector_loop vector_pieces
    by_cases h1 : i < size
    · simp only [h1, if_true]
      cases load32 body 4 with
      | none => rfl
      | some ct =>
        cases load32 body 0 with
        | none => rfl
        | some cs =>
          simp only [Outcome.ofRead, Outcome.bind_ok]
          rw [H _ ct cs _ (by cases first <;> simp [hf]) (by cases first <;> simp [hu])]
          cases serp ct cs (body.drop i) with
          | ok p =>
            simp only [Outcome.map_ok, Outcome.bind_ok]
            rw [ih _ _ _ (by cases first <;> simp [hf]) (by cases first <;> simp [hu]),
              Outcome.map_map]
            apply Outcome.map_congr
            intro r
            cases first <;> simp [sink_all_append]
          | _ => rfl
    · simp [h1]

theorem object_loop_eq (forge : Forge) (unmap : Nat → Option (List Nat))
    (ser : AtomWriter → Nat → Nat → List Nat → Outcome AtomWriter)
    (serp : Nat → Nat → List Nat → Outcome (List (List Nat)))
    (H : ∀ w t s b, w.forge = forge → w.unmap = unmap →
      ser w t s b = (serp t s b).map (sink_all w))
    (body : List Nat) (size k i : Nat) (w : AtomWriter)
    (hf : w.forge = forge) (hu : w.unmap = unmap) :
    object_loop ser body size k i w
      = (object_pieces unmap serp body size k i).map (sink_all w) := by
  induction k generalizing i w with
  | zero => rfl
  | succ k ih =>
    unfold object_loop object_pieces
    by_cases h1 : i ≥ size
    · simp [h1]
    · simp only [h1, if_false]
      cases load32 body i with
      | none => rfl
      | some key =>
        simp only [Outcome.ofRead, Outcome.bind_ok, sink_escape_eq, hu]
        cases escape_pieces (unmap key) with
        | ok pk =>
          simp only [Outcome.map_ok, Outcome.bind_ok]
          cases load32 body (i + 12) with
          | none => rfl
          | some vt =>
            cases load32 body (i + 8) with
            | none => rfl
            | some vs =>
              simp only [Outcome.bind_ok]
              rw [H _ vt vs _ (by simp [hf]) (by simp [hu])]
              cases serp vt vs (body.drop (i + 16)) with
              | ok pv =>
                simp only [Outcome.map_ok, Outcome.bind_ok]
                rw [ih _ _ (by simp [hf]) (by simp [hu]), Outcome.map_map]
                apply Outcome.map_congr
                intro r
                simp [sink_all_append]
              | _ => rfl
        | _ => rfl

theorem serialize_atom_eq (fuel : Nat) (w : AtomWriter) (type_urid size : Nat)
    (body : List Nat) :
    serialize_atom fuel w type_urid size body
      = (atom_pieces w.forge w.unmap fuel type_urid size body).map (sink_all w) := by
  induction fuel generalizing w type_urid size body with
  | zero => rfl
  | succ fuel ih =>
    have H : ∀ (w' : AtomWriter) (t s : Nat) (b : List Nat), w'.forge = w.forge →
        w'.unmap = w.unmap → serialize_atom fuel w' t s b
          = (atom_pieces w.forge w.unmap fuel t s b).map (sink_all w') := by
      intro w' t s b hf hu
      rw [ih, hf, hu]
    unfold serialize_atom atom_pieces
    by_cases c1 : type_urid = 0 ∧ size = 0
    · simp only [if_pos c1]; rfl
    simp only [if_neg c1]
    by_cases c2 : type_urid = w.forge.String
    · simp only [if_pos c2]
      cases body_string body <;> simp [sink_escape_eq]
    simp only [if_neg c2]
    by_cases c3 : type_urid = w.forge.URID
    · simp only [if_pos c3]
      cases load32 body 0 <;> simp [Outcome.ofRead, sink_escape_eq]
    simp only [if_neg c3]
    by_cases c4 : type_urid = w.forge.URI
    · simp only [if_pos c4]
      cases body_string body <;> simp [sink_escape_eq]
    simp only [if_neg c4]
    by_cases c5 : type_urid = w.forge.Int
    · simp only [if_pos c5]
      cases load32 body 0 <;> simp [Outcome.ofRead, sink_string_eq]
    simp only [if_neg c5]
    by_cases c6 : type_urid = w.forge.Long
    · simp only [if_pos c6]
      cases load64 body 0 <;> simp [Outcome.ofRead, sink_string_eq]
    simp only [if_neg c6]
    by_cases c7 : type_urid = w.forge.Float
    · simp only [if_pos c7]
      cases load32 body 0 <;> simp [Outcome.ofRead, sink_string_eq]
    simp only [if_neg c7]
    by_cases c8 : type_urid = w.forge.Double
    · simp only [if_pos c8]
      cases load64 body 0 <;> simp [Outcome.ofRead, sink_string_eq]
    simp only [if_neg c8]
    by_cases c9 : type_urid = w.forge.Bool
    · simp only [if_pos c9]
      cases load32 body 0 <;> simp [Outcome.ofRead, sink_string_eq]
    simp only [if_neg c9]
    by_cases c10 : type_urid = w.forge.Vector
    · simp only [if_pos c10]
      simp only [vector_loop_eq w.forge w.unmap _ _ H body size fuel 8 true _
        (sink_forge w _) (sink_unmap w _), Outcome.map_map, Outcome.bind_map]
      cases vector_pieces (atom_pieces w.forge w.unmap fuel) body size fuel 8 true <;>
        simp [sink_all_append]
    simp only [if_neg c10]
    by_cases c11 : lv2_atom_forge_is_object_type w.forge type_urid = true
    · simp only [if_pos c11]
      cases load32 body 4 with
      | none => rfl
      | some otype =>
        simp only [Outcome.ofRead, Outcome.bind_ok, sink_begin_object_eq]
        cases begin_object_pieces (w.unmap otype) with
        | ok p1 =>
          simp only [Outcome.map_ok, Outcome.bind_ok]
          cases lv2_atom_forge_is_blank w.forge type_urid body with
          | ok blank =>
            simp only [Outcome.bind_ok]
            cases blank with
            | true =>
              simp only [if_true, Outcome.bind_ok, sink_string_eq]
              rw [object_loop_eq w.forge w.unmap _ _ H body size fuel 8 _
                (by simp) (by simp)]
              cases object_pieces w.unmap (atom_pieces w.forge w.unmap fuel) body size fuel 8 <;>
                simp [sink_all_append, sink_end_object_eq]
            | false =>
              simp only [Bool.false_eq_true, if_false]
              cases load32 body 0 with
              | none => rfl
              | some id =>
                simp only [Outcome.bind_ok, sink_escape_eq, sink_string_eq, sink_all_unmap,
                  sink_unmap]
                cases escape_pieces (w.unmap id) with
                | ok r =>
                  simp only [Outcome.map_ok, Outcome.bind_ok]
                  rw [object_loop_eq w.forge w.unmap _ _ H body size fuel 8 _
                    (by simp) (by simp)]
                  cases object_pieces w.unmap (atom_pieces w.forge w.unmap fuel) body size
                    fuel 8 <;> simp [sink_all_append, sink_end_object_eq]
                | _ => rfl
          | _ => rfl
        | _ => rfl
    simp only [if_neg c11]
    by_cases c12 : type_urid = w.forge.Path
    · simp only [if_pos c12, sink_begin_object_eq]
      cases begin_object_pieces (some (lit "#path")) with
      | ok p1 =>
        simp only [Outcome.map_ok, Outcome.bind_ok]
        cases body_string body with
        | ok s =>
          simp only [Outcome.bind_ok, sink_escape_eq]
          cases escape_pieces s <;> simp [sink_all_append, sink_end_object_eq]
        | _ => rfl
      | _ => rfl
    simp only [if_neg c12]
    rfl

theorem atom_writer_format_eq (fuel : Nat) (w : AtomWriter) (inst : Int) (symbol : List Nat)
    (type_urid size : Nat) (body : List Nat) :
    atom_writer_format fuel w inst symbol type_urid size body
      = (format_pieces w.forge w.unmap fuel inst symbol type_urid size body).map
          (fun ps => (sink_all w ps, if (sink_all w ps).overflow then -1 else 0)) := by
  unfold atom_writer_format format_pieces
  simp only [sink_begin_object_eq]
  cases begin_object_pieces (some symbol) with
  | ok p2 =>
    simp only [Outcome.map_ok, Outcome.bind_ok, serialize_atom_eq, sink_all_forge,
      sink_all_unmap, sink_string_eq]
    simp only [string_pieces, sink_all_cons, sink_all_nil, sink_forge, sink_unmap]
    cases atom_pieces w.forge w.unmap fuel type_urid size body <;>
      simp [sink_all_append, sink_end_object_eq]
  | _ => rfl

/-! ## Escaping always returns -/

theorem strcspn_le_length (pos reject : List Nat) : strcspn pos reject ≤ pos.length :=
  (List.takeWhile_sublist _).length_le

theorem strlen_le_length (pos : List Nat) : strlen pos ≤ pos.length :=
  (List.takeWhile_sublist _).length_le

theorem escape_loop_pieces_isOk (k : Nat) (pos : List Nat) (h : pos.length < k) :
    ∃ ps, escape_loop_pieces k pos = .ok ps := by
  induction k generalizing pos with
  | zero => omega
  | succ k ih =>
    unfold escape_loop_pieces
    by_cases h1 : strcspn pos [34, 92] = strlen pos
    · simp [h1]
    · by_cases h2 : deref (pos.drop (strcspn pos [34, 92] + 1)) = 0
      · simp [h1, h2]
      · have hl : (pos.drop (strcspn pos [34, 92] + 1)).length < k := by
          have := strcspn_le_length pos [34, 92]
          have h3 : pos.drop (strcspn pos [34, 92] + 1) ≠ [] := by
            intro h0; simp [h0, deref] at h2
          have h4 : 0 < (pos.drop (strcspn pos [34, 92] + 1)).length :=
            List.length_pos.mpr h3
          simp only [List.length_drop] at h4 ⊢
          omega
        obtain ⟨ps, hps⟩ := ih _ hl
        simp [h1, h2, hps]

theorem escape_pieces_isOk (s : List Nat) : ∃ ps, escape_pieces (some s) = .ok ps := by
  obtain ⟨ps, hps⟩ := escape_loop_pieces_isOk (s.length + 1) s (Nat.lt_succ_self _)
  simp [escape_pieces, hps]

/-! ## A property of `sink_all` holds for every operation -/

theorem string_operations_of_sink_all (P : AtomWriter → AtomWriter → Prop)
    (h : ∀ w ps, P w (sink_all w ps)) : string_operations P := by
  refine ⟨?_, ?_, ?_, ?_⟩
  · intro w str
    exact h w (string_pieces str)
  · intro w str w' hw
    rw [sink_escape_eq] at hw
    obtain ⟨ps, -, rfl⟩ := Outcome.map_eq_ok hw
    exact h w ps
  · intro fuel w t size body w' hw
    rw [serialize_atom_eq] at hw
    obtain ⟨ps, -, rfl⟩ := Outcome.map_eq_ok hw
    exact h w ps
  · intro fuel w inst symbol t size body w' r hw
    rw [atom_writer_format_eq] at hw
    obtain ⟨ps, -, hps⟩ := Outcome.map_eq_ok hw
    have : sink_all w ps = w' := congrArg Prod.fst hps
    rw [← this]
    exact h w ps

theorem all_operations_of_sink_all (P : AtomWriter → AtomWriter → Prop)
    (h : ∀ w ps, P w (sink_all w ps)) : all_operations P :=
  ⟨fun w bytes => h w [bytes], string_operations_of_sink_all P h⟩

/-! ## C1: sticky overflow -/

/-- C1. Once the overflow flag is set, every operation other than
`atom_writer_init` (`sink`, `sink_string`, `sink_escape`, `serialize_atom`,
`atom_writer_format`, on any arguments) leaves the whole writer, hence the
buffer, the length and the set flag, as it was; `sink`, `sink_string` and
`sink_escape` of a string do return. -/
theorem sticky_overflow :
    all_operations (fun w w' => w.overflow = true → w' = w) ∧
    (∀ w s, w.overflow = true → sink_escape w (some s) = .ok w) := by
  refine ⟨all_operations_of_sink_all _ (fun w ps h => sink_all_of_overflow w ps h), ?_⟩
  intro w s h
  obtain ⟨ps, hps⟩ := escape_pieces_isOk s
  rw [sink_escape_eq, hps, Outcome.map_ok, sink_all_of_overflow w ps h]

/-- Witness for C1: a writer of capacity 100 that holds three bytes and has
overflowed is left unchanged by a one-byte `sink`, by `sink_escape` and by the
encoding of an Int atom, although all of these would fit. -/
theorem sticky_overflow_witness :
    (overflowed_writer 100).overflow = true ∧
    (overflowed_writer 100).len + 11 < (overflowed_writer 100).cap ∧
    sink (overflowed_writer 100) [65] = overflowed_writer 100 ∧
    sink_escape (overflowed_writer 100) (some [65]) = .ok (overflowed_writer 100) ∧
    (serialize_atom 1 (overflowed_writer 100) 5 4 [10, 0, 0, 0]).isOk = true ∧
    (∀ w', serialize_atom 1 (overflowed_writer 100) 5 4 [10, 0, 0, 0] = .ok w' →
      w' = overflowed_writer 100) :=
  ⟨rfl, by decide, sticky_overflow.1.1 _ _ rfl, sticky_overflow.2 _ _ rfl, by rfl,
    fun w' h => sticky_overflow.1.2.2.2.1 1 _ 5 4 _ w' h rfl⟩

/-! ## C2: an append is all or nothing -/

theorem map_getD_range (bs : List Nat) (pos : Nat) (f : Nat → Nat)
    (h : ∀ j, j < bs.length → f (pos + j) = bs.getD j 0) :
    (List.range bs.length).map (fun j => f (pos + j)) = bs := by
  apply List.ext_getElem
  · simp
  · intro n h1 h2
    simp only [List.length_map, List.length_range] at h1
    simp only [List.getElem_map, List.getElem_range]
    rw [h n h1, List.getD_eq_getElem _ _ h1]

theorem contents_append (w w' : AtomWriter) (bs : List Nat)
    (hlen : w'.len = w.len + bs.length)
    (hlow : ∀ i, i < w.len → w'.buf i = w.buf i)
    (hnew : ∀ j, j < bs.length → w'.buf (w.len + j) = bs.getD j 0) :
    contents w' = contents w ++ bs := by
  unfold contents
  rw [hlen, List.range_add, List.map_append, List.map_map]
  congr 1
  · apply List.map_congr_left
    intro i hi
    exact hlow i (List.mem_range.mp hi)
  · exact map_getD_range bs w.len w'.buf hnew

theorem sink_fits_buf_low (w : AtomWriter) (bs : List Nat) (i : Nat) (hi : i < w.len) :
    (sink w bs).buf i = w.buf i := by
  unfold sink
  split_ifs
  · rfl
  · rfl
  · have h1 : i ≠ w.len + bs.length := by omega
    have h2 : ¬ (w.len ≤ i ∧ i < w.len + bs.length) := by omega
    simp [store, memcpy, h1, h2]

theorem sink_fits_buf_new (w : AtomWriter) (bs : List Nat) (ho : w.overflow = false)
    (hc : w.len + bs.length < w.cap) (j : Nat) (hj : j < bs.length) :
    (sink w bs).buf (w.len + j) = bs.getD j 0 := by
  have hn : bs ≠ [] := by
    intro h0; simp [h0] at hj
  rw [sink_fits w bs ho hn hc]
  have h1 : w.len + j ≠ w.len + bs.length := by omega
  have h2 : w.len ≤ w.len + j ∧ w.len + j < w.len + bs.length := by omega
  simp [store, memcpy, h1, hj]

theorem sink_fits_len (w : AtomWriter) (bs : List Nat) (ho : w.overflow = false)
    (hc : w.len + bs.length < w.cap) : (sink w bs).len = w.len + bs.length := by
  by_cases hn : bs = []
  · simp [hn]
  · rw [sink_fits w bs ho hn hc]

theorem sink_fits_overflow (w : AtomWriter) (bs : List Nat) (ho : w.overflow = false)
    (hc : w.len + bs.length < w.cap) : (sink w bs).overflow = false := by
  by_cases hn : bs = []
  · simp [hn, ho]
  · rw [sink_fits w bs ho hn hc]
    exact ho

theorem sink_fits_contents (w : AtomWriter) (bs : List Nat) (ho : w.overflow = false)
    (hc : w.len + bs.length < w.cap) : contents (sink w bs) = contents w ++ bs :=
  contents_append w (sink w bs) bs (sink_fits_len w bs ho hc)
    (fun i hi => sink_fits_buf_low w bs i hi)
    (fun j hj => sink_fits_buf_new w bs ho hc j hj)

/-- C2. `sink` does nothing when the overflow flag is set or the input is
empty; otherwise, when `len + n ≥ cap`, it sets the flag and leaves buffer and
length alone; otherwise it keeps the first `len` bytes, copies the `n` bytes to
`len .. len+n-1`, makes the length `len + n`, writes a 0 at `len + n` and
leaves the flag clear.  Afterwards the text is the old text or the old text
plus the whole input, never a part of it. -/
theorem sink_all_or_nothing (w : AtomWriter) (bytes : List Nat) :
    ((w.overflow = true ∨ bytes.length = 0) → sink w bytes = w) ∧
    (w.overflow = false → bytes.length ≠ 0 → w.cap ≤ w.len + bytes.length →
      (sink w bytes).overflow = true ∧ (sink w bytes).buf = w.buf ∧
      (sink w bytes).len = w.len) ∧
    (w.overflow = false → bytes.length ≠ 0 → w.len + bytes.length < w.cap →
      (∀ i, i < w.len → (sink w bytes).buf i = w.buf i) ∧
      (∀ i (h : i < bytes.length), (sink w bytes).buf (w.len + i) = bytes.get ⟨i, h⟩) ∧
      (sink w bytes).len = w.len + bytes.length ∧
      (sink w bytes).buf (w.len + bytes.length) = 0 ∧
      (sink w bytes).overflow = false) ∧
    ((contents (sink w bytes) = contents w ∧ (sink w bytes).len = w.len) ∨
     (contents (sink w bytes) = contents w ++ bytes ∧
      (sink w bytes).len = w.len + bytes.length)) := by
  refine ⟨?_, ?_, ?_, ?_⟩
  · rintro (h | h)
    · exact sink_of_overflow w bytes h
    · rw [List.length_eq_zero.mp h]
      exact sink_nil w
  · intro ho hn hc
    have hne : bytes ≠ [] := fun h0 => hn (by simp [h0])
    rw [sink_full w bytes ho hne hc]
    exact ⟨rfl, rfl, rfl⟩
  · intro ho hn hc
    have hne : bytes ≠ [] := fun h0 => hn (by simp [h0])
    refine ⟨fun i hi => sink_fits_buf_low w bytes i hi, ?_, sink_fits_len w bytes ho hc, ?_,
      sink_fits_overflow w bytes ho hc⟩
    · intro i h
      rw [sink_fits_buf_new w bytes ho hc i h, List.getD_eq_getElem _ _ h]
      rfl
    · rw [sink_fits w bytes ho hne hc]
      simp [store]
  · by_cases ho : w.overflow = true
    · left
      rw [sink_of_overflow w bytes ho]
      exact ⟨rfl, rfl⟩
    · have ho' : w.overflow = false := by simpa using ho
      by_cases hc : w.len + bytes.length < w.cap
      · right
        exact ⟨sink_fits_contents w bytes ho' hc, sink_fits_len w bytes ho' hc⟩
      · by_cases hne : bytes = []
        · left
          rw [hne, sink_nil]
          exact ⟨rfl, rfl⟩
        · left
          rw [sink_full w bytes ho' hne (Nat.le_of_not_lt hc)]
          exact ⟨rfl, rfl⟩

/-- Witness for C2: on a fresh writer of capacity 4, three bytes are appended
whole and terminated, four bytes are refused whole. -/
theorem sink_all_or_nothing_witness :
    (sample_writer 4).overflow = false ∧ (sample_writer 4).len = 0 ∧
    ((sink (sample_writer 4) [65, 66, 67]).len = 0 + 3 ∧
      (sink (sample_writer 4) [65, 66, 67]).buf (0 + 3) = 0 ∧
      (sink (sample_writer 4) [65, 66, 67]).overflow = false) ∧
    contents (sink (sample_writer 4) [65, 66, 67]) = [65, 66, 67] ∧
    ((sink (sample_writer 4) [65, 66, 67, 68]).overflow = true ∧
      (sink (sample_writer 4) [65, 66, 67, 68]).buf = (sample_writer 4).buf ∧
      (sink (sample_writer 4) [65, 66, 67, 68]).len = (sample_writer 4).len) ∧
    sink (overflowed_writer 4) [65] = overflowed_writer 4 :=
  ⟨rfl, rfl,
    ((sink_all_or_nothing (sample_writer 4) [65, 66, 67]).2.2.1 rfl (by decide)
      (by decide)).2.2,
    by decide,
    (sink_all_or_nothing (sample_writer 4) [65, 66, 67, 68]).2.1 rfl (by decide) (by decide),
    (sink_all_or_nothing (overflowed_writer 4) [65]).1 (Or.inl rfl)⟩

/-! ## C strings -/

theorem take_strlen (s : List Nat) : s.take (strlen s) = cstr s := by
  unfold strlen cstr
  exact (List.prefix_iff_eq_take.mp (List.takeWhile_prefix _)).symm

theorem cstr_nul_free (s : List Nat) : ∀ b, b ∈ cstr s → b ≠ 0 := by
  intro b hb
  have := List.mem_takeWhile_imp hb
  simpa using this

theorem cstr_of_nul_free (s : List Nat) (h : ∀ b, b ∈ s → b ≠ 0) : cstr s = s := by
  unfold cstr
  rw [List.takeWhile_eq_self_iff]
  intro b hb
  simpa using h b hb

theorem take_strcspn_nul_free (pos reject : List Nat) :
    ∀ b, b ∈ pos.take (strcspn pos reject) → b ≠ 0 := by
  intro b hb
  have h1 : pos.take (strcspn pos reject)
      = pos.takeWhile (fun c => decide (c ≠ 0) && !(reject.contains c)) :=
    (List.prefix_iff_eq_take.mp (List.takeWhile_prefix _)).symm
  rw [h1] at hb
  have := List.mem_takeWhile_imp hb
  simp only [Bool.and_eq_true, decide_eq_true_eq] at this
  exact this.1

theorem take_strcspn_not_reject (pos reject : List Nat) :
    ∀ b, b ∈ pos.take (strcspn pos reject) → reject.contains b = false := by
  intro b hb
  have h1 : pos.take (strcspn pos reject)
      = pos.takeWhile (fun c => decide (c ≠ 0) && !(reject.contains c)) :=
    (List.prefix_iff_eq_take.mp (List.takeWhile_prefix _)).symm
  rw [h1] at hb
  have := List.mem_takeWhile_imp hb
  simp only [Bool.and_eq_true, Bool.not_eq_true'] at this
  exact this.2

/-- When `strcspn` stops before the end of the string, it stops at a byte of
`reject`, and the string goes on after it. -/
theorem strcspn_cons_stop (x : Nat) (xs reject : List Nat)
    (h : (decide (x ≠ 0) && !(reject.contains x)) = false) :
    strcspn (x :: xs) reject = 0 := by
  simp only [strcspn, List.takeWhile_cons, h, Bool.false_eq_true, if_false, List.length_nil]

theorem strcspn_cons_go (x : Nat) (xs reject : List Nat)
    (h : (decide (x ≠ 0) && !(reject.contains x)) = true) :
    strcspn (x :: xs) reject = strcspn xs reject + 1 := by
  simp only [strcspn, List.takeWhile_cons, h, if_true, List.length_cons]

theorem cstr_cons (x : Nat) (xs : List Nat) (h : x ≠ 0) : cstr (x :: xs) = x :: cstr xs := by
  simp [cstr, h]

theorem cstr_cons_zero (xs : List Nat) : cstr (0 :: xs) = [] := by
  simp [cstr]

theorem strcspn_stop (pos reject : List Nat) (h : strcspn pos reject ≠ strlen pos) :
    ∃ c, pos.drop (strcspn pos reject) = c :: pos.drop (strcspn pos reject + 1) ∧
      c ≠ 0 ∧ reject.contains c = true ∧
      cstr pos = pos.take (strcspn pos reject)
        ++ c :: cstr (pos.drop (strcspn pos reject + 1)) := by
  induction pos with
  | nil => exact absurd rfl h
  | cons x xs ih =>
    by_cases hx : x = 0
    · subst hx
      have e1 : strcspn (0 :: xs) reject = 0 := strcspn_cons_stop 0 xs reject (by simp)
      exact absurd (by rw [e1, strlen, cstr_cons_zero]; rfl) h
    · by_cases hr : reject.contains x = true
      · have e1 : strcspn (x :: xs) reject = 0 :=
          strcspn_cons_stop x xs reject (by rw [hr]; simp)
        refine ⟨x, ?_, hx, hr, ?_⟩
        · rw [e1]; rfl
        · rw [e1, cstr_cons x xs hx]; rfl
      · have hr' : reject.contains x = false := by simpa using hr
        have e1 : strcspn (x :: xs) reject = strcspn xs reject + 1 :=
          strcspn_cons_go x xs reject (by rw [hr']; simp [hx])
        have e2 : strlen (x :: xs) = strlen xs + 1 := by
          rw [strlen, cstr_cons x xs hx]; rfl
        have h' : strcspn xs reject ≠ strlen xs := by
          intro h0; apply h; rw [e1, e2, h0]
        obtain ⟨c, hc1, hc2, hc3, hc4⟩ := ih h'
        refine ⟨c, ?_, hc2, hc3, ?_⟩
        · rw [e1]; simpa using hc1
        · rw [e1, cstr_cons x xs hx, hc4]
          simp

/-- When `strcspn` reaches the end of the string, the segment is the string. -/
theorem strcspn_end (pos reject : List Nat) (h : strcspn pos reject = strlen pos) :
    cstr pos = pos.take (strcspn pos reject) := by
  rw [h, take_strlen]

theorem cstr_of_deref (pos : List Nat) (h : deref pos = 0) : cstr pos = [] := by
  cases pos with
  | nil => rfl
  | cons x xs =>
    simp only [deref, List.headD_cons] at h
    simp [cstr, h]

/-! ## The pieces never hold a NUL byte -/

@[simp] theorem clean_nil : Clean [] := by
  intro p hp; cases hp

@[simp] theorem clean_cons (p : List Nat) (ps : List (List Nat)) :
    Clean (p :: ps) ↔ (∀ b, b ∈ p → b ≠ 0) ∧ Clean ps := by
  simp [Clean]

@[simp] theorem clean_append (ps qs : List (List Nat)) :
    Clean (ps ++ qs) ↔ Clean ps ∧ Clean qs := by
  simp only [Clean, List.mem_append]
  constructor
  · intro h
    exact ⟨fun p hp => h p (Or.inl hp), fun p hp => h p (Or.inr hp)⟩
  · rintro ⟨h1, h2⟩ p (hp | hp)
    · exact h1 p hp
    · exact h2 p hp

theorem string_pieces_clean (str : List Nat) : Clean (string_pieces str) := by
  simp only [string_pieces, clean_cons, clean_nil, and_true, take_strlen]
  exact cstr_nul_free str

theorem escape_loop_pieces_clean (k : Nat) (pos : List Nat) (ps : List (List Nat))
    (h : escape_loop_pieces k pos = .ok ps) : Clean ps := by
  induction k generalizing pos ps with
  | zero => cases h
  | succ k ih =>
    unfold escape_loop_pieces at h
    by_cases h1 : strcspn pos [34, 92] = strlen pos
    · simp only [h1, if_true, Outcome.ok.injEq] at h
      subst h
      simp only [clean_cons, clean_nil, and_true]
      rw [← h1]
      exact take_strcspn_nul_free pos [34, 92]
    · obtain ⟨c, hc1, hc2, -, -⟩ := strcspn_stop pos [34, 92] h1
      have hc : ∀ b, b ∈ (pos.drop (strcspn pos [34, 92])).take 1 → b ≠ 0 := by
        intro b hb
        rw [hc1] at hb
        simp only [List.take_succ_cons, List.take_zero, List.mem_singleton] at hb
        rw [hb]; exact hc2
      by_cases h2 : deref (pos.drop (strcspn pos [34, 92] + 1)) = 0
      · simp only [h1, h2, if_false, ne_eq, not_true_eq_false, Outcome.ok.injEq] at h
        subst h
        simp only [clean_cons, clean_nil, and_true]
        exact ⟨take_strcspn_nul_free pos [34, 92], by simp, hc⟩
      · simp only [h1, h2, if_false, ne_eq, not_false_eq_true, if_true] at h
        obtain ⟨r, hr, rfl⟩ := Outcome.map_eq_ok h
        simp only [clean_cons]
        exact ⟨take_strcspn_nul_free pos [34, 92], by simp, hc, ih _ _ hr⟩

theorem escape_pieces_clean (str : Option (List Nat)) (ps : List (List Nat))
    (h : escape_pieces str = .ok ps) : Clean ps := by
  cases str with
  | none => cases h
  | some s =>
    obtain ⟨r, hr, rfl⟩ := Outcome.map_eq_ok h
    simp only [clean_cons, clean_append, clean_nil, and_true]
    exact ⟨by simp, escape_loop_pieces_clean _ _ _ hr, by simp⟩

theorem begin_object_pieces_clean (name : Option (List Nat)) (ps : List (List Nat))
    (h : begin_object_pieces name = .ok ps) : Clean ps := by
  obtain ⟨r, hr, rfl⟩ := Outcome.map_eq_ok h
  simp only [clean_cons, clean_append, clean_nil, and_true]
  exact ⟨by simp, escape_pieces_clean _ _ hr, by simp⟩

theorem vector_pieces_clean (serp : Nat → Nat → List Nat → Outcome (List (List Nat)))
    (H : ∀ t s b ps, serp t s b = .ok ps → Clean ps)
    (body : List Nat) (size k i : Nat) (first : Bool) (ps : List (List Nat))
    (h : vector_pieces serp body size k i first = .ok ps) : Clean ps := by
  induction k generalizing i first ps with
  | zero => cases h
  | succ k ih =>
    unfold vector_pieces at h
    by_cases h1 : i < size
    · simp only [h1, if_true] at h
      obtain ⟨ct, -, h⟩ := Outcome.bind_eq_ok h
      obtain ⟨cs, -, h⟩ := Outcome.bind_eq_ok h
      obtain ⟨p, hp, h⟩ := Outcome.bind_eq_ok h
      obtain ⟨r, hr, rfl⟩ := Outcome.map_eq_ok h
      simp only [clean_append]
      exact ⟨by cases first <;> simp, H _ _ _ _ hp, ih _ _ _ hr⟩
    · simp only [h1, if_false, Outcome.ok.injEq] at h
      subst h; exact clean_nil

theorem object_pieces_clean (unmap : Nat → Option (List Nat))
    (serp : Nat → Nat → List Nat → Outcome (List (List Nat)))
    (H : ∀ t s b ps, serp t s b = .ok ps → Clean ps)
    (body : List Nat) (size k i : Nat) (ps : List (List Nat))
    (h : object_pieces unmap serp body size k i = .ok ps) : Clean ps := by
  induction k generalizing i ps with
  | zero => cases h
  | succ k ih =>
    unfold object_pieces at h
    by_cases h1 : i ≥ size
    · simp only [h1, if_true, Outcome.ok.injEq] at h
      subst h; exact clean_nil
    · simp only [h1, if_false] at h
      obtain ⟨key, -, h⟩ := Outcome.bind_eq_ok h
      obtain ⟨pk, hpk, h⟩ := Outcome.bind_eq_ok h
      obtain ⟨vt, -, h⟩ := Outcome.bind_eq_ok h
      obtain ⟨vs, -, h⟩ := Outcome.bind_eq_ok h
      obtain ⟨pv, hpv, h⟩ := Outcome.bind_eq_ok h
      obtain ⟨r, hr, rfl⟩ := Outcome.map_eq_ok h
      simp only [clean_cons, clean_append]
      exact ⟨by simp, escape_pieces_clean _ _ hpk, by simp, H _ _ _ _ hpv, ih _ _ hr⟩

theorem ok_string_pieces_clean (str : List Nat) (ps : List (List Nat))
    (h : (Outcome.ok (string_pieces str) : Outcome (List (List Nat))) = .ok ps) : Clean ps := by
  simp only [Outcome.ok.injEq] at h
  subst h; exact string_pieces_clean str

theorem atom_pieces_clean (forge : Forge) (unmap : Nat → Option (List Nat)) (fuel : Nat)
    (type_urid size : Nat) (body : List Nat) (ps : List (List Nat))
    (h : atom_pieces forge unmap fuel type_urid size body = .ok ps) : Clean ps := by
  induction fuel generalizing type_urid size body ps with
  | zero => cases h
  | succ fuel ih =>
    unfold atom_pieces at h
    by_cases c1 : type_urid = 0 ∧ size = 0
    · simp only [if_pos c1] at h
      exact ok_string_pieces_clean _ _ h
    simp only [if_neg c1] at h
    by_cases c2 : type_urid = forge.String
    · simp only [if_pos c2] at h
      obtain ⟨s, -, h⟩ := Outcome.bind_eq_ok h
      exact escape_pieces_clean _ _ h
    simp only [if_neg c2] at h
    by_cases c3 : type_urid = forge.URID
    · simp only [if_pos c3] at h
      obtain ⟨s, -, h⟩ := Outcome.bind_eq_ok h
      exact escape_pieces_clean _ _ h
    simp only [if_neg c3] at h
    by_cases c4 : type_urid = forge.URI
    · simp only [if_pos c4] at h
      obtain ⟨s, -, h⟩ := Outcome.bind_eq_ok h
      exact escape_pieces_clean _ _ h
    simp only [if_neg c4] at h
    by_cases c5 : type_urid = forge.Int
    · simp only [if_pos c5] at h
      obtain ⟨v, -, h⟩ := Outcome.bind_eq_ok h
      exact ok_string_pieces_clean _ _ h
    simp only [if_neg c5] at h
    by_cases c6 : type_urid = forge.Long
    · simp only [if_pos c6] at h
      obtain ⟨v, -, h⟩ := Outcome.bind_eq_ok h
      exact ok_string_pieces_clean _ _ h
    simp only [if_neg c6] at h
    by_cases c7 : type_urid = forge.Float
    · simp only [if_pos c7] at h
      obtain ⟨v, -, h⟩ := Outcome.bind_eq_ok h
      exact ok_string_pieces_clean _ _ h
    simp only [if_neg c7] at h
    by_cases c8 : type_urid = forge.Double
    · simp only [if_pos c8] at h
      obtain ⟨v, -, h⟩ := Outcome.bind_eq_ok h
      exact ok_string_pieces_clean _ _ h
    simp only [if_neg c8] at h
    by_cases c9 : type_urid = forge.Bool
    · simp only [if_pos c9] at h
      obtain ⟨v, -, h⟩ := Outcome.bind_eq_ok h
      exact ok_string_pieces_clean _ _ h
    simp only [if_neg c9] at h
    by_cases c10 : type_urid = forge.Vector
    · simp only [if_pos c10] at h
      obtain ⟨r, hr, rfl⟩ := Outcome.map_eq_ok h
      simp only [clean_cons, clean_append, clean_nil, and_true]
      exact ⟨by simp, vector_pieces_clean _ ih _ _ _ _ _ _ hr, by simp⟩
    simp only [if_neg c10] at h
    by_cases c11 : lv2_atom_forge_is_object_type forge type_urid = true
    · simp only [if_pos c11] at h
      obtain ⟨otype, -, h⟩ := Outcome.bind_eq_ok h
      obtain ⟨p1, hp1, h⟩ := Outcome.bind_eq_ok h
      obtain ⟨blank, -, h⟩ := Outcome.bind_eq_ok h
      obtain ⟨p4, hp4, h⟩ := Outcome.bind_eq_ok h
      obtain ⟨p5, hp5, rfl⟩ := Outcome.map_eq_ok h
      have c4 : Clean p4 := by
        cases blank with
        | true => exact ok_string_pieces_clean _ _ hp4
        | false =>
          simp only [Bool.false_eq_true, if_false] at hp4
          obtain ⟨id, -, hp4⟩ := Outcome.bind_eq_ok hp4
          obtain ⟨r, hr, rfl⟩ := Outcome.map_eq_ok hp4
          exact (clean_append _ _).mpr ⟨string_pieces_clean _, escape_pieces_clean _ _ hr⟩
      simp only [clean_cons, clean_append, clean_nil, and_true]
      exact ⟨begin_object_pieces_clean _ _ hp1, by simp, c4,
        object_pieces_clean _ _ ih _ _ _ _ _ hp5, by simp, by simp⟩
    simp only [if_neg c11] at h
    by_cases c12 : type_urid = forge.Path
    · simp only [if_pos c12] at h
      obtain ⟨p1, hp1, h⟩ := Outcome.bind_eq_ok h
      obtain ⟨s, -, h⟩ := Outcome.bind_eq_ok h
      obtain ⟨p2, hp2, rfl⟩ := Outcome.map_eq_ok h
      simp only [clean_cons, clean_append, clean_nil, and_true]
      exact ⟨begin_object_pieces_clean _ _ hp1, escape_pieces_clean _ _ hp2, by simp⟩
    simp only [if_neg c12] at h
    exact ok_string_pieces_clean _ _ h

theorem format_pieces_clean (forge : Forge) (unmap : Nat → Option (List Nat)) (fuel : Nat)
    (inst : Int) (symbol : List Nat) (type_urid size : Nat) (body : List Nat)
    (ps : List (List Nat))
    (h : format_pieces forge unmap fuel inst symbol type_urid size body = .ok ps) :
    Clean ps := by
  obtain ⟨p2, hp2, h⟩ := Outcome.bind_eq_ok h
  obtain ⟨p3, hp3, rfl⟩ := Outcome.map_eq_ok h
  simp only [clean_cons, clean_append, clean_nil, and_true]
  exact ⟨string_pieces_clean _, begin_object_pieces_clean _ _ hp2,
    atom_pieces_clean _ _ _ _ _ _ _ hp3, by simp, by simp⟩

theorem string_operations_of_clean (P : AtomWriter → AtomWriter → Prop)
    (h : ∀ w ps, Clean ps → P w (sink_all w ps)) : string_operations P := by
  refine ⟨?_, ?_, ?_, ?_⟩
  · intro w str
    exact h w (string_pieces str) (string_pieces_clean str)
  · intro w str w' hw
    rw [sink_escape_eq] at hw
    obtain ⟨ps, hps, rfl⟩ := Outcome.map_eq_ok hw
    exact h w ps (escape_pieces_clean _ _ hps)
  · intro fuel w t size body w' hw
    rw [serialize_atom_eq] at hw
    obtain ⟨ps, hps, rfl⟩ := Outcome.map_eq_ok hw
    exact h w ps (atom_pieces_clean _ _ _ _ _ _ _ hps)
  · intro fuel w inst symbol t size body w' r hw
    rw [atom_writer_format_eq] at hw
    obtain ⟨ps, hps, hps'⟩ := Outcome.map_eq_ok hw
    have : sink_all w ps = w' := congrArg Prod.fst hps'
    rw [← this]
    exact h w ps (format_pieces_clean _ _ _ _ _ _ _ _ _ hps)

/-! ## C3: the buffer bounds invariant -/

theorem sink_inv (w : AtomWriter) (bs : List Nat) (h : Inv w) : Inv (sink w bs) := by
  unfold sink
  split_ifs with h1 h2
  · exact h
  · exact h
  · refine ⟨Nat.lt_of_not_le h2, ?_⟩
    simp [store]

theorem sink_frame (w : AtomWriter) (bs : List Nat) (i : Nat) (hi : w.cap ≤ i) :
    (sink w bs).buf i = w.buf i := by
  unfold sink
  split_ifs with h1 h2
  · rfl
  · rfl
  · have h3 : i ≠ w.len + bs.length := by omega
    have h4 : ¬ (w.len ≤ i ∧ i < w.len + bs.length) := by omega
    simp [store, memcpy, h3, h4]

theorem sink_nul_free (w : AtomWriter) (bs : List Nat) (hb : ∀ b, b ∈ bs → b ≠ 0)
    (h : NulFree w) : NulFree (sink w bs) := by
  by_cases ho : w.overflow = true
  · rw [sink_of_overflow w bs ho]; exact h
  · have ho' : w.overflow = false := by simpa using ho
    by_cases hne : bs = []
    · rw [hne, sink_nil]; exact h
    · by_cases hc : w.len + bs.length < w.cap
      · intro i hi
        rw [sink_fits_len w bs ho' hc] at hi
        by_cases hlow : i < w.len
        · rw [sink_fits_buf_low w bs i hlow]
          exact h i hlow
        · have e : i = w.len + (i - w.len) := by omega
          have hj : i - w.len < bs.length := by omega
          rw [e, sink_fits_buf_new w bs ho' hc _ hj, List.getD_eq_getElem _ _ hj]
          exact hb _ (List.getElem_mem _)
      · rw [sink_full w bs ho' hne (Nat.le_of_not_lt hc)]
        exact h

theorem sink_all_inv (w : AtomWriter) (ps : List (List Nat)) (h : Inv w) :
    Inv (sink_all w ps) := by
  induction ps generalizing w with
  | nil => exact h
  | cons p ps ih => exact ih _ (sink_inv w p h)

theorem sink_all_frame (w : AtomWriter) (ps : List (List Nat)) (i : Nat) (hi : w.cap ≤ i) :
    (sink_all w ps).buf i = w.buf i := by
  induction ps generalizing w with
  | nil => rfl
  | cons p ps ih =>
    rw [sink_all_cons, ih (sink w p) (by simpa using hi), sink_frame w p i hi]

theorem sink_all_nul_free (w : AtomWriter) (ps : List (List Nat)) (hc : Clean ps)
    (h : NulFree w) : NulFree (sink_all w ps) := by
  induction ps generalizing w with
  | nil => exact h
  | cons p ps ih =>
    rw [clean_cons] at hc
    exact ih _ hc.2 (sink_nul_free w p hc.1 h)

theorem cstr_append_zero (a rest : List Nat) (h : ∀ b, b ∈ a → b ≠ 0) :
    cstr (a ++ 0 :: rest) = a := by
  induction a with
  | nil => exact cstr_cons_zero rest
  | cons x xs ih =>
    rw [List.cons_append, cstr_cons x _ (h x (List.mem_cons_self _ _)),
      ih (fun b hb => h b (List.mem_cons_of_mem _ hb))]

theorem buffer_is_c_string (w : AtomWriter) (hi : Inv w) (hn : NulFree w) :
    cstr ((List.range w.cap).map w.buf) = contents w := by
  obtain ⟨k, hk⟩ : ∃ k, w.cap = w.len + (k + 1) := ⟨w.cap - w.len - 1, by have := hi.1; omega⟩
  rw [hk, List.range_add, List.map_append, List.range_succ_eq_map, List.map_cons,
    List.map_cons]
  have h0 : w.buf (w.len + 0) = 0 := hi.2
  rw [h0]
  apply cstr_append_zero
  intro b hb
  obtain ⟨i, hi', rfl⟩ := List.mem_map.mp hb
  exact hn i (List.mem_range.mp hi')

/-- C3. `len < cap ∧ buf[len] = 0` holds after `atom_writer_init` (the array
has at least one byte) and is preserved by `sink`, `sink_string`,
`sink_escape`, `serialize_atom` and `atom_writer_format` on every input; no
operation changes a byte at an index `≥ cap`; and the first `len` bytes stay
free of NUL (for `sink` itself: when its input is), so that the array read as
a C string is exactly the `len` bytes of text. -/
theorem buffer_bounds_invariant :
    (∀ w forge unmap, 0 < w.cap →
      Inv (atom_writer_init w forge unmap) ∧ NulFree (atom_writer_init w forge unmap) ∧
      ∀ i, w.cap ≤ i → (atom_writer_init w forge unmap).buf i = w.buf i) ∧
    all_operations (fun w w' =>
      (Inv w → Inv w') ∧ w'.cap = w.cap ∧ ∀ i, w.cap ≤ i → w'.buf i = w.buf i) ∧
    (∀ w bytes, (∀ b, b ∈ bytes → b ≠ 0) → NulFree w → NulFree (sink w bytes)) ∧
    string_operations (fun w w' => NulFree w → NulFree w') ∧
    (∀ w, Inv w → NulFree w →
      cstr ((List.range w.cap).map w.buf) = contents w ∧
      strlen ((List.range w.cap).map w.buf) = w.len) := by
  refine ⟨?_, ?_, ?_, ?_, ?_⟩
  · intro w forge unmap hcap
    refine ⟨⟨hcap, by simp [atom_writer_init, store]⟩, ?_, ?_⟩
    · intro i hi
      simp [atom_writer_init] at hi
    · intro i hi
      have : i ≠ 0 := by omega
      simp [atom_writer_init, store, this]
  · exact all_operations_of_sink_all _ (fun w ps =>
      ⟨sink_all_inv w ps, sink_all_cap w ps, sink_all_frame w ps⟩)
  · exact fun w bytes hb h => sink_nul_free w bytes hb h
  · exact string_operations_of_clean _ (fun w ps hc h => sink_all_nul_free w ps hc h)
  · intro w hi hn
    have h := buffer_is_c_string w hi hn
    refine ⟨h, ?_⟩
    rw [strlen, h]
    simp [contents]

/-- Witness for C3: a fresh writer of capacity 8 satisfies the invariant, and
so does the writer after an encoding that overflows it; the byte behind the
array is untouched. -/
theorem buffer_bounds_invariant_witness :
    0 < (8 : Nat) ∧
    Inv (sample_writer 8) ∧
    (serialize_atom 1 (sample_writer 8) 5 4 [0, 0, 0, 128]).isOk = true ∧
    (∀ w', serialize_atom 1 (sample_writer 8) 5 4 [0, 0, 0, 128] = .ok w' →
      Inv w' ∧ w'.buf 8 = 255 ∧ NulFree w') :=
  ⟨by decide, (buffer_bounds_invariant.1 _ sample_forge sample_unmap (by decide)).1, by rfl,
    fun w' h =>
      ⟨(buffer_bounds_invariant.2.1.2.2.2.1 1 _ 5 4 _ w' h).1
          (buffer_bounds_invariant.1 _ sample_forge sample_unmap (by decide)).1,
        ((buffer_bounds_invariant.2.1.2.2.2.1 1 _ 5 4 _ w' h).2.2 8 (Nat.le_refl 8)).trans rfl,
        buffer_bounds_invariant.2.2.2.1.2.2.1 1 _ 5 4 _ w' h
          (buffer_bounds_invariant.1 _ sample_forge sample_unmap (by decide)).2.1⟩⟩

/-! ## Appending when there is room -/

theorem sink_all_fits (w : AtomWriter) (ps : List (List Nat)) (ho : w.overflow = false)
    (hc : w.len + ps.flatten.length < w.cap) :
    (sink_all w ps).overflow = false ∧
    (sink_all w ps).len = w.len + ps.flatten.length ∧
    contents (sink_all w ps) = contents w ++ ps.flatten := by
  induction ps generalizing w with
  | nil => simp [ho]
  | cons p ps ih =>
    simp only [List.flatten_cons, List.length_append] at hc
    have hp : w.len + p.length < w.cap := by omega
    have h1 := sink_fits_len w p ho hp
    have h2 := sink_fits_overflow w p ho hp
    have h3 := sink_fits_contents w p ho hp
    obtain ⟨i1, i2, i3⟩ := ih (sink w p) h2 (by rw [h1, sink_cap]; omega)
    refine ⟨i1, ?_, ?_⟩
    · rw [sink_all_cons, i2, h1, List.flatten_cons, List.length_append]; omega
    · rw [sink_all_cons, i3, h3, List.flatten_cons, List.append_assoc]

/-! ## C4: escaping -/

theorem flatMap_escape_byte_of_plain (l : List Nat)
    (h : ∀ b, b ∈ l → b ≠ 34 ∧ b ≠ 92) : l.flatMap escape_byte = l := by
  induction l with
  | nil => rfl
  | cons x xs ih =>
    have hx := h x (List.mem_cons_self _ _)
    rw [List.flatMap_cons, ih (fun b hb => h b (List.mem_cons_of_mem _ hb))]
    simp [escape_byte, hx.1, hx.2]

theorem not_reject_iff (b : Nat) : [34, 92].contains b = false ↔ b ≠ 34 ∧ b ≠ 92 := by
  simp

theorem reject_iff (b : Nat) : [34, 92].contains b = true ↔ b = 34 ∨ b = 92 := by
  simp

theorem escape_loop_pieces_flatten (k : Nat) (pos : List Nat) (h : pos.length < k) :
    ∃ ps, escape_loop_pieces k pos = .ok ps ∧
      ps.flatten = (cstr pos).flatMap escape_byte := by
  induction k generalizing pos with
  | zero => omega
  | succ k ih =>
    unfold escape_loop_pieces
    have hplain : (pos.take (strcspn pos [34, 92])).flatMap escape_byte
        = pos.take (strcspn pos [34, 92]) :=
      flatMap_escape_byte_of_plain _ (fun b hb =>
        (not_reject_iff b).mp (take_strcspn_not_reject pos [34, 92] b hb))
    by_cases h1 : strcspn pos [34, 92] = strlen pos
    · refine ⟨[pos.take (strcspn pos [34, 92])], by simp [h1], ?_⟩
      rw [strcspn_end pos [34, 92] h1, hplain]
      simp
    · obtain ⟨c, hc1, hc2, hc3, hc4⟩ := strcspn_stop pos [34, 92] h1
      have hcb : escape_byte c = [92, c] := by
        simp [escape_byte, (reject_iff c).mp hc3]
      have ht : (pos.drop (strcspn pos [34, 92])).take 1 = [c] := by
        rw [hc1]; rfl
      by_cases h2 : deref (pos.drop (strcspn pos [34, 92] + 1)) = 0
      · refine ⟨[pos.take (strcspn pos [34, 92]), [92],
            (pos.drop (strcspn pos [34, 92])).take 1],
          by simp only [h1, h2, if_false, ne_eq, not_true_eq_false], ?_⟩
        rw [hc4, cstr_of_deref _ h2, List.flatMap_append, hplain, ht]
        simp [hcb]
      · have hl : (pos.drop (strcspn pos [34, 92] + 1)).length < k := by
          have h3 : (pos.drop (strcspn pos [34, 92])).length
              = (pos.drop (strcspn pos [34, 92] + 1)).length + 1 := by
            rw [hc1]; rfl
          simp only [List.length_drop] at h3 ⊢
          omega
        obtain ⟨ps, hps, hfl⟩ := ih _ hl
        refine ⟨pos.take (strcspn pos [34, 92]) :: [92] ::
            (pos.drop (strcspn pos [34, 92])).take 1 :: ps,
          by simp only [h1, h2, if_false, ne_eq, not_false_eq_true, if_true, hps,
            Outcome.map_ok], ?_⟩
        rw [hc4, List.flatMap_append, hplain, ht, List.flatMap_cons, hcb]
        simp [hfl]

theorem escape_pieces_flatten (s : List Nat) :
    ∃ ps, escape_pieces (some s) = .ok ps ∧ ps.flatten = escaped (cstr s) := by
  obtain ⟨ps, hps, hfl⟩ := escape_loop_pieces_flatten (s.length + 1) s (Nat.lt_succ_self _)
  refine ⟨[34] :: (ps ++ [[34]]), by simp only [escape_pieces, hps, Outcome.map_ok], ?_⟩
  simp [escaped, hfl]

/-- C4. For a NUL-free string `s`, `sink_escape` hands the sink exactly
`"` ++ (`s` with a `\` put before every `"` and `\`, all other bytes, control
characters included, copied) ++ `"`; a sink with room for it holds that text
appended afterwards; a string without `"` and `\` comes out verbatim between
two quotes. -/
theorem escaping_correct (w : AtomWriter) (s : List Nat) (hs : ∀ b, b ∈ s → b ≠ 0) :
    escape_text (some s) = .ok (escaped s) ∧
    (w.overflow = false → w.len + (escaped s).length < w.cap →
      ∃ w', sink_escape w (some s) = .ok w' ∧ contents w' = contents w ++ escaped s ∧
        w'.len = w.len + (escaped s).length ∧ w'.overflow = false) ∧
    ((∀ b, b ∈ s → b ≠ 34 ∧ b ≠ 92) → escaped s = 34 :: (s ++ [34])) := by
  obtain ⟨ps, hps, hfl⟩ := escape_pieces_flatten s
  rw [cstr_of_nul_free s hs] at hfl
  refine ⟨by simp only [escape_text, hps, Outcome.map_ok, hfl], ?_, ?_⟩
  · intro ho hc
    rw [← hfl] at hc
    obtain ⟨h1, h2, h3⟩ := sink_all_fits w ps ho hc
    exact ⟨sink_all w ps, by rw [sink_escape_eq, hps, Outcome.map_ok],
      by rw [h3, hfl], by rw [h2, hfl], h1⟩
  · intro hp
    rw [escaped, flatMap_escape_byte_of_plain s hp]

/-- Witness for C4: `he said "hi"\back` yields `"he said \"hi\"\\back"`, a
string with a newline and a tab is copied between two quotes; the empty string
yields `""`. -/
theorem escaping_correct_witness :
    (∀ b, b ∈ lit "he said \"hi\"\\back" → b ≠ 0) ∧
    escape_text (some (lit "he said \"hi\"\\back"))
      = .ok (lit "\"he said \\\"hi\\\"\\\\back\"") ∧
    (∃ w', sink_escape (sample_writer 64) (some (lit "he said \"hi\"\\back")) = .ok w' ∧
      contents w' = lit "\"he said \\\"hi\\\"\\\\back\"" ∧ w'.overflow = false) ∧
    escape_text (some (lit "a\n\tb")) = .ok (lit "\"a\n\tb\"") ∧
    escape_text (some []) = .ok (lit "\"\"") := by
  have e1 := escaping_correct (sample_writer 64) (lit "he said \"hi\"\\back") (by decide)
  have e2 := escaping_correct (sample_writer 64) (lit "a\n\tb") (by decide)
  have e3 := escaping_correct (sample_writer 64) [] (by decide)
  refine ⟨by decide, e1.1.trans (congrArg Outcome.ok (by decide)), ?_,
    e2.1.trans (congrArg Outcome.ok (by decide)), e3.1.trans (congrArg Outcome.ok (by decide))⟩
  obtain ⟨w', h1, h2, -, h4⟩ := e1.2.1 rfl (by decide)
  exact ⟨w', h1, h2.trans (by decide), h4⟩

/-! ## Decimal formatting -/

theorem put_digits_append (f n : Nat) (acc : List Nat) :
    put_digits f n acc = put_digits f n [] ++ acc := by
  induction f generalizing n acc with
  | zero => rfl
  | succ f ih =>
    unfold put_digits
    split_ifs
    · rfl
    · rw [ih (n / 10) ((48 + n % 10) :: acc), ih (n / 10) [48 + n % 10]]
      simp

theorem put_digits_range (f n : Nat) (acc : List Nat)
    (h : ∀ b, b ∈ acc → 48 ≤ b ∧ b ≤ 57) :
    ∀ b, b ∈ put_digits f n acc → 48 ≤ b ∧ b ≤ 57 := by
  induction f generalizing n acc with
  | zero => exact h
  | succ f ih =>
    unfold put_digits
    split_ifs with h1
    · intro b hb
      rcases List.mem_cons.mp hb with rfl | hb
      · omega
      · exact h b hb
    · apply ih
      intro b hb
      rcases List.mem_cons.mp hb with rfl | hb
      · omega
      · exact h b hb

theorem put_digits_length (f n k : Nat) (acc : List Nat) (hk : 1 ≤ k) (hn : n < 10 ^ k) :
    (put_digits f n acc).length ≤ k + acc.length := by
  induction f generalizing n k acc with
  | zero => simp [put_digits]
  | succ f ih =>
    unfold put_digits
    split_ifs with h1
    · simp only [List.length_cons]; omega
    · obtain ⟨j, rfl⟩ : ∃ j, k = j + 1 := ⟨k - 1, by omega⟩
      have hj : 1 ≤ j := by
        by_contra hj0
        have : j = 0 := by omega
        subst this
        simp at hn
        omega
      have hn' : n / 10 < 10 ^ j := by
        rw [Nat.div_lt_iff_lt_mul (by decide)]
        rw [pow_succ] at hn
        exact hn
      have := ih (n / 10) j ((48 + n % 10) :: acc) hj hn'
      simp only [List.length_cons] at this
      omega

theorem put_digits_value (f n : Nat) (acc : List Nat) (hn : n < 10 ^ f) :
    (put_digits f n acc).foldl (fun a d => 10 * a + (d - 48)) 0
      = acc.foldl (fun a d => 10 * a + (d - 48)) n := by
  induction f generalizing n acc with
  | zero =>
    have : n = 0 := by simpa using hn
    subst this; rfl
  | succ f ih =>
    unfold put_digits
    split_ifs with h1
    · simp
    · have hn' : n / 10 < 10 ^ f := by
        rw [Nat.div_lt_iff_lt_mul (by decide)]
        rw [pow_succ] at hn
        exact hn
      rw [ih (n / 10) _ hn']
      simp only [List.foldl_cons]
      congr 1
      omega

theorem put_digits_head (f n : Nat) (acc : List Nat) (h0 : 0 < n) (hn : n < 10 ^ f) :
    ∃ d rest, put_digits f n acc = d :: rest ∧ 49 ≤ d ∧ d ≤ 57 := by
  induction f generalizing n acc with
  | zero =>
    have : n = 0 := by simpa using hn
    omega
  | succ f ih =>
    unfold put_digits
    split_ifs with h1
    · exact ⟨48 + n, acc, rfl, by omega, by omega⟩
    · have hn' : n / 10 < 10 ^ f := by
        rw [Nat.div_lt_iff_lt_mul (by decide)]
        rw [pow_succ] at hn
        exact hn
      exact ih (n / 10) _ (by omega) hn'

theorem lt_ten_pow_succ (n : Nat) : n < 10 ^ (n + 1) :=
  lt_of_lt_of_le (Nat.lt_pow_self (by decide) n) (Nat.pow_le_pow_right (by decide) (Nat.le_succ n))

theorem fmt_u_range (n : Nat) : ∀ b, b ∈ fmt_u n → 48 ≤ b ∧ b ≤ 57 :=
  put_digits_range _ _ [] (fun b hb => by cases hb)

theorem fmt_u_value (n : Nat) : parse_digits (fmt_u n) = n := by
  unfold parse_digits fmt_u
  rw [put_digits_value (n + 1) n [] (lt_ten_pow_succ n)]
  rfl

theorem fmt_u_zero : fmt_u 0 = [48] := rfl

theorem fmt_u_head (n : Nat) (h : 0 < n) :
    ∃ d rest, fmt_u n = d :: rest ∧ 49 ≤ d ∧ d ≤ 57 :=
  put_digits_head (n + 1) n [] h (lt_ten_pow_succ n)

theorem fmt_u_length (n k : Nat) (hk : 1 ≤ k) (hn : n < 10 ^ k) : (fmt_u n).length ≤ k := by
  have := put_digits_length (n + 1) n k [] hk hn
  simpa [fmt_u] using this

theorem fmt_d_nul_free (v : Int) : ∀ b, b ∈ fmt_d v → b ≠ 0 := by
  intro b hb
  unfold fmt_d at hb
  split_ifs at hb
  · rcases List.mem_cons.mp hb with rfl | hb
    · decide
    · have := fmt_u_range _ b hb; omega
  · have := fmt_u_range _ b hb; omega

theorem fmt_d_length (v : Int) (k : Nat) (hk : 1 ≤ k) (hv : v.natAbs < 10 ^ k) :
    (fmt_d v).length ≤ k + 1 := by
  have := fmt_u_length v.natAbs k hk hv
  unfold fmt_d
  split_ifs
  · simp only [List.length_cons]; omega
  · omega

theorem fmt_d_value (v : Int) : parse_int (fmt_d v) = v := by
  unfold fmt_d
  split_ifs with h
  · simp only [parse_int, fmt_u_value]
    omega
  · have hv : 0 ≤ v := by omega
    rcases Nat.eq_zero_or_pos v.natAbs with h0 | h0
    · rw [h0, fmt_u_zero]
      have : v = 0 := Int.natAbs_eq_zero.mp h0
      subst this; rfl
    · obtain ⟨d, rest, hd, hd1, -⟩ := fmt_u_head v.natAbs h0
      have e : parse_int (fmt_u v.natAbs) = (parse_digits (fmt_u v.natAbs) : Int) := by
        rw [hd]
        unfold parse_int
        split
        · rename_i heq
          simp only [List.cons.injEq] at heq
          omega
        · rfl
      rw [e, fmt_u_value]
      omega

/-! ## C5: the record format -/

theorem begin_object_pieces_flatten (s : List Nat) :
    ∃ ps, begin_object_pieces (some s) = .ok ps ∧
      ps.flatten = [123] ++ escaped (cstr s) ++ [58] := by
  obtain ⟨ps, hps, hfl⟩ := escape_pieces_flatten s
  refine ⟨[123] :: (ps ++ [[58]]), by simp only [begin_object_pieces, hps, Outcome.map_ok], ?_⟩
  simp [hfl]

theorem lit_atom_nul_free : ∀ b, b ∈ lit "atom " → b ≠ 0 := by decide

theorem header_of_short (inst : Int) (symbol : List Nat) (hs : ∀ b, b ∈ symbol → b ≠ 0)
    (hl : (lit "atom " ++ fmt_d inst ++ [32] ++ symbol ++ [32]).length ≤ 255) :
    string_pieces (header inst symbol)
      = [lit "atom " ++ fmt_d inst ++ [32] ++ symbol ++ [32]] := by
  have h1 : header inst symbol = lit "atom " ++ fmt_d inst ++ [32] ++ symbol ++ [32] := by
    rw [header, cstr_of_nul_free symbol hs]
    exact List.take_of_length_le hl
  have h2 : ∀ b, b ∈ lit "atom " ++ fmt_d inst ++ [32] ++ symbol ++ [32] → b ≠ 0 := by
    intro b hb
    simp only [List.mem_append, List.mem_singleton] at hb
    rcases hb with (((hb | hb) | hb) | hb) | hb
    · exact lit_atom_nul_free b hb
    · exact fmt_d_nul_free inst b hb
    · omega
    · exact hs b hb
    · omega
  rw [string_pieces, take_strlen, h1, cstr_of_nul_free _ h2]

theorem contents_atom_writer_init (w : AtomWriter) (forge : Forge)
    (unmap : Nat → Option (List Nat)) : contents (atom_writer_init w forge unmap) = [] := rfl

/-- C5 (amended). When the header text `atom <instance> <symbol> ` has at most
255 bytes and the atom has the encoding `enc` (the text `serialize_atom`
appends to a sink with room for it), `atom_writer_format` on a freshly
initialised writer with enough capacity returns 0 and leaves in the buffer
exactly `atom ` ++ decimal(instance) ++ ` ` ++ symbol ++ ` {` ++
escaped(symbol) ++ `:` ++ `enc` ++ `}` ++ newline. -/
theorem record_format (fuel : Nat) (w : AtomWriter) (forge : Forge)
    (unmap : Nat → Option (List Nat)) (inst : Int) (symbol : List Nat)
    (type_urid size : Nat) (body enc : List Nat)
    (hs : ∀ b, b ∈ symbol → b ≠ 0)
    (hl : (lit "atom " ++ fmt_d inst ++ [32] ++ symbol ++ [32]).length ≤ 255)
    (he : atom_text forge unmap fuel type_urid size body = .ok enc)
    (hc : (record inst symbol enc).length < w.cap) :
    (∃ w', atom_writer_format fuel (atom_writer_init w forge unmap) inst symbol
        type_urid size body = .ok (w', 0) ∧
      contents w' = record inst symbol enc ∧ w'.overflow = false) ∧
    (∀ w0 : AtomWriter, w0.forge = forge → w0.unmap = unmap → w0.overflow = false →
      w0.len + enc.length < w0.cap →
      ∃ w1, serialize_atom fuel w0 type_urid size body = .ok w1 ∧
        contents w1 = contents w0 ++ enc) := by
  obtain ⟨p3, hp3, hfl3⟩ := Outcome.map_eq_ok he
  constructor
  · obtain ⟨p2, hp2, hfl2⟩ := begin_object_pieces_flatten symbol
    rw [cstr_of_nul_free symbol hs] at hfl2
    have hfp : format_pieces forge unmap fuel inst symbol type_urid size body
        = .ok ([lit "atom " ++ fmt_d inst ++ [32] ++ symbol ++ [32]]
            ++ (p2 ++ (p3 ++ [[125], [10]]))) := by
      simp only [format_pieces, hp2, hp3, Outcome.bind_ok, Outcome.map_ok,
        header_of_short inst symbol hs hl]
    have hflat : ([lit "atom " ++ fmt_d inst ++ [32] ++ symbol ++ [32]]
        ++ (p2 ++ (p3 ++ [[125], [10]]))).flatten = record inst symbol enc := by
      simp only [List.flatten_append, hfl2, hfl3, record]
      simp
    have hfit := sink_all_fits (atom_writer_init w forge unmap) _ rfl
      (by rw [hflat]; simpa [atom_writer_init] using hc)
    obtain ⟨h1, -, h3⟩ := hfit
    refine ⟨_, ?_, ?_, h1⟩
    · rw [atom_writer_format_eq]
      show Outcome.map _ (format_pieces forge unmap fuel inst symbol type_urid size body) = _
      rw [hfp, Outcome.map_ok, h1]
      rfl
    · rw [h3, hflat, contents_atom_writer_init, List.nil_append]
  · intro w0 hf hu ho hcap
    rw [← hfl3] at hcap
    obtain ⟨-, -, h3⟩ := sink_all_fits w0 p3 ho hcap
    exact ⟨sink_all w0 p3, by rw [serialize_atom_eq, hf, hu, hp3, Outcome.map_ok],
      by rw [h3, hfl3]⟩

/-- Witness for C5: instance 3, symbol `gain` and an Int atom holding 10 give
the line `atom 3 gain {"gain":10}` and a newline. -/
theorem record_format_witness :
    (∀ b, b ∈ lit "gain" → b ≠ 0) ∧
    (lit "atom " ++ fmt_d 3 ++ [32] ++ lit "gain" ++ [32]).length ≤ 255 ∧
    atom_text sample_forge sample_unmap 1 5 4 [10, 0, 0, 0] = .ok (lit "10") ∧
    ∃ w', atom_writer_format 1 (sample_writer 64) 3 (lit "gain") 5 4 [10, 0, 0, 0]
        = .ok (w', 0) ∧
      contents w' = lit "atom 3 gain \x7b\"gain\":10\x7d\n" ∧ w'.overflow = false := by
  refine ⟨by decide, by decide, by decide, ?_⟩
  obtain ⟨w', h1, h2, h3⟩ := (record_format 1
    ⟨sample_unmap, sample_forge, 64, fun _ => 255, 7, true⟩ sample_forge sample_unmap 3
    (lit "gain") 5 4 [10, 0, 0, 0] (lit "10") (by decide) (by decide) (by decide)
    (by decide)).1
  exact ⟨w', h1, h2.trans (by decide), h3⟩

/-- Counterexample for C5: with instance 0 and a symbol of 248 letters `a` the
header text has 256 bytes and is cut to 255; on a fresh writer of capacity 1024
the call returns with 513 bytes in the buffer, which is not the 514-byte text
the claim describes (the blank after the symbol is missing). -/
theorem record_format_counterexample :
    (∀ b, b ∈ List.replicate 248 97 → b ≠ 0) ∧
    atom_text sample_forge sample_unmap 1 0 0 [] = .ok (lit "null") ∧
    (record 0 (List.replicate 248 97) (lit "null")).length < (sample_writer 1024).cap ∧
    (atom_writer_format 1 (sample_writer 1024) 0 (List.replicate 248 97) 0 0 []).map
      (fun p => (p.1.len, p.2)) = .ok (513, 0) ∧
    ¬ ∃ w' r, atom_writer_format 1 (sample_writer 1024) 0 (List.replicate 248 97) 0 0 []
        = .ok (w', r) ∧
      contents w' = record 0 (List.replicate 248 97) (lit "null") := by
  have hlen : (atom_writer_format 1 (sample_writer 1024) 0 (List.replicate 248 97) 0 0 []).map
      (fun p => (p.1.len, p.2)) = .ok (513, 0) := by
    set_option maxRecDepth 1000000 in decide
  have h3 : (record 0 (List.replicate 248 97) (lit "null")).length = 514 := by
    set_option maxRecDepth 1000000 in decide
  refine ⟨fun b hb => by rw [List.eq_of_mem_replicate hb]; decide, by decide,
    by rw [h3]; decide, hlen, ?_⟩
  rintro ⟨w', r, h, hc⟩
  rw [h] at hlen
  simp only [Outcome.map_ok, Outcome.ok.injEq, Prod.mk.injEq] at hlen
  have h1 := congrArg List.length hc
  have h2 : (contents w').length = 513 := by simp [contents, hlen.1]
  omega

/-! ## The arms of the dispatch -/

/-- The pieces of a call with fuel are those of one of the arms of the
dispatch. -/
theorem atom_pieces_arms_of (forge : Forge) (unmap : Nat → Option (List Nat)) (fuel : Nat)
    (type_urid size : Nat) (body : List Nat) (x : Outcome (List (List Nat)))
    (hx : atom_pieces forge unmap (fuel + 1) type_urid size body = x) :
    x = .ok (string_pieces (lit "null")) ∨
    x = ((body_string body).bind fun s => escape_pieces s) ∨
    x = ((Outcome.ofRead (load32 body 0)).bind fun urid => escape_pieces (unmap urid)) ∨
    x = ((Outcome.ofRead (load32 body 0)).bind fun v =>
            .ok (string_pieces (snprintf64 (fmt_d (to_int32 v))))) ∨
    x = ((Outcome.ofRead (load64 body 0)).bind fun v =>
            .ok (string_pieces (snprintf64 (fmt_d (to_int64 v))))) ∨
    x = ((Outcome.ofRead (load32 body 0)).bind fun v =>
            .ok (string_pieces (snprintf64 (fmt_f 8 23 v)))) ∨
    x = ((Outcome.ofRead (load64 body 0)).bind fun v =>
            .ok (string_pieces (snprintf64 (fmt_f 11 52 v)))) ∨
    x = ((Outcome.ofRead (load32 body 0)).bind fun val =>
            .ok (string_pieces (if to_int32 val ≠ 0 then lit "true" else lit "false"))) ∨
    (type_urid = forge.Vector ∧
      x = ((vector_pieces (atom_pieces forge unmap fuel) body size fuel 8 true).map fun r =>
            [91] :: (r ++ [[93]]))) ∨
    (lv2_atom_forge_is_object_type forge type_urid = true ∧
      x = ((Outcome.ofRead (load32 body 4)).bind fun otype =>
          (begin_object_pieces (unmap otype)).bind fun p1 =>
          (lv2_atom_forge_is_blank forge type_urid body).bind fun blank =>
          (if blank then .ok (string_pieces (lit "\"#type\":null"))
           else
            (Outcome.ofRead (load32 body 0)).bind fun id =>
            (escape_pieces (unmap id)).map fun r =>
              string_pieces (lit "\"#type\":") ++ r).bind fun p4 =>
          (object_pieces unmap (atom_pieces forge unmap fuel) body size fuel 8).map fun p5 =>
            p1 ++ ([123] :: (p4 ++ (p5 ++ [[125], [125]]))))) ∨
    x = ((begin_object_pieces (some (lit "#path"))).bind fun p1 =>
          (body_string body).bind fun s =>
          (escape_pieces s).map fun p2 => p1 ++ (p2 ++ [[125]])) := by
  rw [atom_pieces] at hx
  by_cases c1 : type_urid = 0 ∧ size = 0
  · simp only [if_pos c1] at hx; exact Or.inl hx.symm
  simp only [if_neg c1] at hx
  by_cases c2 : type_urid = forge.String
  · simp only [if_pos c2] at hx; exact Or.inr (Or.inl hx.symm)
  simp only [if_neg c2] at hx
  by_cases c3 : type_urid = forge.URID
  · simp only [if_pos c3] at hx; exact Or.inr (Or.inr (Or.inl hx.symm))
  simp only [if_neg c3] at hx
  by_cases c4 : type_urid = forge.URI
  · simp only [if_pos c4] at hx; exact Or.inr (Or.inl hx.symm)
  simp only [if_neg c4] at hx
  by_cases c5 : type_urid = forge.Int
  · simp only [if_pos c5] at hx; exact Or.inr (Or.inr (Or.inr (Or.inl hx.symm)))
  simp only [if_neg c5] at hx
  by_cases c6 : type_urid = forge.Long
  · simp only [if_pos c6] at hx; exact Or.inr (Or.inr (Or.inr (Or.inr (Or.inl hx.symm))))
  simp only [if_neg c6] at hx
  by_cases c7 : type_urid = forge.Float
  · simp only [if_pos c7] at hx
    exact Or.inr (Or.inr (Or.inr (Or.inr (Or.inr (Or.inl hx.symm)))))
  simp only [if_neg c7] at hx
  by_cases c8 : type_urid = forge.Double
  · simp only [if_pos c8] at hx
    exact Or.inr (Or.inr (Or.inr (Or.inr (Or.inr (Or.inr (Or.inl hx.symm))))))
  simp only [if_neg c8] at hx
  by_cases c9 : type_urid = forge.Bool
  · simp only [if_pos c9] at hx
    exact Or.inr (Or.inr (Or.inr (Or.inr (Or.inr (Or.inr (Or.inr (Or.inl hx.symm)))))))
  simp only [if_neg c9] at hx
  by_cases c10 : type_urid = forge.Vector
  · simp only [if_pos c10] at hx
    exact Or.inr (Or.inr (Or.inr (Or.inr (Or.inr (Or.inr (Or.inr (Or.inr
      (Or.inl ⟨c10, hx.symm⟩))))))))
  simp only [if_neg c10] at hx
  by_cases c11 : lv2_atom_forge_is_object_type forge type_urid = true
  · simp only [if_pos c11] at hx
    exact Or.inr (Or.inr (Or.inr (Or.inr (Or.inr (Or.inr (Or.inr (Or.inr (Or.inr
      (Or.inl ⟨c11, hx.symm⟩)))))))))
  simp only [if_neg c11] at hx
  by_cases c12 : type_urid = forge.Path
  · simp only [if_pos c12] at hx
    exact Or.inr (Or.inr (Or.inr (Or.inr (Or.inr (Or.inr (Or.inr (Or.inr (Or.inr
      (Or.inr hx.symm)))))))))
  simp only [if_neg c12] at hx
  exact Or.inl hx.symm

/-! ## C6: the encoder and the assertion of `sink_escape` -/

theorem bind_ne_assert_failed {α β : Type} (o : Outcome α) (f : α → Outcome β)
    (ho : o ≠ .assert_failed) (hf : ∀ a, o = .ok a → f a ≠ .assert_failed) :
    o.bind f ≠ .assert_failed := by
  cases o with
  | ok a => exact hf a rfl
  | assert_failed => exact absurd rfl ho
  | bad_read => simp
  | no_fuel => simp

theorem map_ne_assert_failed {α β : Type} (o : Outcome α) (f : α → β)
    (ho : o ≠ .assert_failed) : o.map f ≠ .assert_failed := by
  cases o <;> simp_all

theorem ofRead_ne_assert_failed {α : Type} (r : Option α) :
    Outcome.ofRead r ≠ .assert_failed := by
  cases r <;> simp [Outcome.ofRead]

theorem escape_pieces_ne_assert_failed (str : Option (List Nat)) (h : str ≠ none) :
    escape_pieces str ≠ .assert_failed := by
  cases str with
  | none => exact absurd rfl h
  | some s =>
    obtain ⟨ps, hps⟩ := escape_pieces_isOk s
    rw [hps]; simp

theorem begin_object_pieces_ne_assert_failed (str : Option (List Nat)) (h : str ≠ none) :
    begin_object_pieces str ≠ .assert_failed :=
  map_ne_assert_failed _ _ (escape_pieces_ne_assert_failed str h)

theorem body_string_escape_ne_assert_failed (body : List Nat) :
    ((body_string body).bind fun s => escape_pieces s) ≠ .assert_failed := by
  unfold body_string
  split_ifs
  · simp only [Outcome.bind_ok]
    exact escape_pieces_ne_assert_failed (some body) (by simp)
  · simp

theorem vector_pieces_ne_assert_failed
    (serp : Nat → Nat → List Nat → Outcome (List (List Nat)))
    (H : ∀ t s b, serp t s b ≠ .assert_failed)
    (body : List Nat) (size k i : Nat) (first : Bool) :
    vector_pieces serp body size k i first ≠ .assert_failed := by
  induction k generalizing i first with
  | zero => simp [vector_pieces]
  | succ k ih =>
    unfold vector_pieces
    by_cases h1 : i < size
    · simp only [if_pos h1]
      refine bind_ne_assert_failed _ _ (ofRead_ne_assert_failed _) (fun ct _ => ?_)
      refine bind_ne_assert_failed _ _ (ofRead_ne_assert_failed _) (fun cs _ => ?_)
      refine bind_ne_assert_failed _ _ (H _ _ _) (fun p _ => ?_)
      exact map_ne_assert_failed _ _ (ih _ _)
    · simp [if_neg h1]

theorem object_pieces_ne_assert_failed (unmap : Nat → Option (List Nat))
    (hu : ∀ id, unmap id ≠ none)
    (serp : Nat → Nat → List Nat → Outcome (List (List Nat)))
    (H : ∀ t s b, serp t s b ≠ .assert_failed)
    (body : List Nat) (size k i : Nat) :
    object_pieces unmap serp body size k i ≠ .assert_failed := by
  induction k generalizing i with
  | zero => simp [object_pieces]
  | succ k ih =>
    unfold object_pieces
    split_ifs
    · simp
    · refine bind_ne_assert_failed _ _ (ofRead_ne_assert_failed _) (fun key _ => ?_)
      refine bind_ne_assert_failed _ _
        (escape_pieces_ne_assert_failed _ (hu key)) (fun pk _ => ?_)
      refine bind_ne_assert_failed _ _ (ofRead_ne_assert_failed _) (fun vt _ => ?_)
      refine bind_ne_assert_failed _ _ (ofRead_ne_assert_failed _) (fun vs _ => ?_)
      refine bind_ne_assert_failed _ _ (H _ _ _) (fun pv _ => ?_)
      exact map_ne_assert_failed _ _ (ih _)

theorem lv2_atom_forge_is_blank_ne_assert_failed (forge : Forge) (t : Nat) (body : List Nat) :
    lv2_atom_forge_is_blank forge t body ≠ .assert_failed := by
  unfold lv2_atom_forge_is_blank
  split_ifs
  · simp
  · exact map_ne_assert_failed _ _ (ofRead_ne_assert_failed _)
  · simp

theorem atom_pieces_ne_assert_failed (forge : Forge) (unmap : Nat → Option (List Nat))
    (hu : ∀ id, unmap id ≠ none) (fuel type_urid size : Nat) (body : List Nat) :
    atom_pieces forge unmap fuel type_urid size body ≠ .assert_failed := by
  induction fuel generalizing type_urid size body with
  | zero => simp [atom_pieces]
  | succ fuel ih =>
    rcases atom_pieces_arms_of forge unmap fuel type_urid size body _ rfl with
      h | h | h | h | h | h | h | h | ⟨-, h⟩ | ⟨-, h⟩ | h <;> rw [h]
    · simp
    · exact body_string_escape_ne_assert_failed body
    · exact bind_ne_assert_failed _ _ (ofRead_ne_assert_failed _)
        (fun urid _ => escape_pieces_ne_assert_failed _ (hu urid))
    · exact bind_ne_assert_failed _ _ (ofRead_ne_assert_failed _) (fun _ _ => by simp)
    · exact bind_ne_assert_failed _ _ (ofRead_ne_assert_failed _) (fun _ _ => by simp)
    · exact bind_ne_assert_failed _ _ (ofRead_ne_assert_failed _) (fun _ _ => by simp)
    · exact bind_ne_assert_failed _ _ (ofRead_ne_assert_failed _) (fun _ _ => by simp)
    · exact bind_ne_assert_failed _ _ (ofRead_ne_assert_failed _) (fun _ _ => by simp)
    · exact map_ne_assert_failed _ _ (vector_pieces_ne_assert_failed _ ih _ _ _ _ _)
    · refine bind_ne_assert_failed _ _ (ofRead_ne_assert_failed _) (fun otype _ => ?_)
      refine bind_ne_assert_failed _ _
        (begin_object_pieces_ne_assert_failed _ (hu otype)) (fun p1 _ => ?_)
      refine bind_ne_assert_failed _ _
        (lv2_atom_forge_is_blank_ne_assert_failed _ _ _) (fun blank _ => ?_)
      refine bind_ne_assert_failed _ _ ?_ (fun p4 _ => ?_)
      · cases blank with
        | true => simp
        | false =>
          simp only [Bool.false_eq_true, if_false]
          exact bind_ne_assert_failed _ _ (ofRead_ne_assert_failed _) (fun id _ =>
            map_ne_assert_failed _ _ (escape_pieces_ne_assert_failed _ (hu id)))
      · exact map_ne_assert_failed _ _ (object_pieces_ne_assert_failed _ hu _ ih _ _ _ _)
    · refine bind_ne_assert_failed _ _
        (begin_object_pieces_ne_assert_failed _ (by simp)) (fun p1 _ => ?_)
      unfold body_string
      split_ifs
      · simp only [Outcome.bind_ok]
        exact map_ne_assert_failed _ _ (escape_pieces_ne_assert_failed (some body) (by simp))
      · simp

theorem serialize_atom_urid (fuel : Nat) (w : AtomWriter) (type_urid size : Nat)
    (body : List Nat) (h0 : ¬ (type_urid = 0 ∧ size = 0)) (h1 : type_urid ≠ w.forge.String)
    (h2 : type_urid = w.forge.URID) :
    serialize_atom (fuel + 1) w type_urid size body
      = (Outcome.ofRead (load32 body 0)).bind fun urid => sink_escape w (w.unmap urid) := by
  rw [serialize_atom, if_neg h0, if_neg h1, if_pos h2]

/-- C6 (amended). When the resolution service never returns a null string,
`serialize_atom` fails no assertion, whatever the writer state, type tag, size
and body are; the resolved string is not validated otherwise: a URID atom with
a readable body is written as the escaped resolved name, and an empty name as
`""`. -/
theorem encoder_no_assertion (fuel : Nat) (w : AtomWriter) (type_urid size : Nat)
    (body : List Nat) (hu : ∀ id, w.unmap id ≠ none) :
    serialize_atom fuel w type_urid size body ≠ .assert_failed ∧
    (¬ (type_urid = 0 ∧ size = 0) → type_urid ≠ w.forge.String →
      type_urid = w.forge.URID → ∀ urid, load32 body 0 = some urid →
      (∃ w', serialize_atom (fuel + 1) w type_urid size body = .ok w') ∧
      (∀ name, w.unmap urid = some name →
        serialize_atom (fuel + 1) w type_urid size body = sink_escape w (some name)) ∧
      (w.unmap urid = some [] →
        serialize_atom (fuel + 1) w type_urid size body = .ok (sink (sink w [34]) [34]))) := by
  constructor
  · rw [serialize_atom_eq]
    exact map_ne_assert_failed _ _ (atom_pieces_ne_assert_failed _ _ hu _ _ _ _)
  · intro h0 h1 h2 urid hr
    have e := serialize_atom_urid fuel w type_urid size body h0 h1 h2
    rw [hr] at e
    simp only [Outcome.ofRead, Outcome.bind_ok] at e
    refine ⟨?_, ?_, ?_⟩
    · cases hn : w.unmap urid with
      | none => exact absurd hn (hu urid)
      | some name =>
        obtain ⟨ps, hps⟩ := escape_pieces_isOk name
        exact ⟨sink_all w ps, by rw [e, hn, sink_escape_eq, hps, Outcome.map_ok]⟩
    · intro name hn
      rw [e, hn]
    · intro hn
      rw [e, hn]
      simp [sink_escape, sink_escape_loop, strcspn, strlen, cstr]

theorem named_unmap_ne_none (id : Nat) : named_unmap id ≠ none := by
  unfold named_unmap
  split_ifs <;> simp

/-- Witness for C6: over a resolution service without NULL results, a URID
atom whose identifier resolves to the empty string is written as `""`. -/
theorem encoder_no_assertion_witness :
    (∀ id, (named_writer 64).unmap id ≠ none) ∧
    serialize_atom 1 (named_writer 64) 12 4 [7, 0, 0, 0] ≠ .assert_failed ∧
    serialize_atom 1 (named_writer 64) 12 4 [7, 0, 0, 0]
      = .ok (sink (sink (named_writer 64) [34]) [34]) ∧
    contents (sink (sink (named_writer 64) [34]) [34]) = lit "\"\"" :=
  ⟨named_unmap_ne_none,
    (encoder_no_assertion 1 (named_writer 64) 12 4 [7, 0, 0, 0] named_unmap_ne_none).1,
    ((encoder_no_assertion 0 (named_writer 64) 12 4 [7, 0, 0, 0] named_unmap_ne_none).2
      (by decide) (by decide) rfl 7 rfl).2.2 rfl,
    by decide⟩

/-- Counterexample for C6: a URID atom whose identifier the resolution service
resolves to NULL makes `sink_escape` fail its `assert(str)`; no writer is
returned and nothing is reported through the overflow flag. -/
theorem encoder_counterexample :
    (sample_writer 64).unmap 0 = none ∧
    serialize_atom 1 (sample_writer 64) 12 4 [0, 0, 0, 0] = .assert_failed ∧
    (∀ fuel, serialize_atom (fuel + 1) (sample_writer 64) 12 4 [0, 0, 0, 0]
      = .assert_failed) ∧
    ∀ w, sink_escape w none = .assert_failed :=
  ⟨rfl, rfl, fun _ => rfl, fun _ => rfl⟩

/-! ## C7: termination -/

theorem load32_lt (mem : List Nat) (off v : Nat) (h : load32 mem off = some v) :
    v < 4294967296 := by
  unfold load32 at h
  split at h
  · simp only [Option.some.injEq] at h
    rw [← h]
    exact Nat.mod_lt _ (by norm_num)
  · cases h

theorem load32_length (mem : List Nat) (off v : Nat) (h : load32 mem off = some v) :
    off + 4 ≤ mem.length := by
  unfold load32 at h
  split at h
  · rename_i b0 b1 b2 b3 rest heq
    have := congrArg List.length heq
    simp only [List.length_drop, List.length_cons] at this
    omega
  · cases h

theorem bind_ne_no_fuel {α β : Type} (o : Outcome α) (f : α → Outcome β)
    (ho : o ≠ .no_fuel) (hf : ∀ a, o = .ok a → f a ≠ .no_fuel) :
    o.bind f ≠ .no_fuel := by
  cases o with
  | ok a => exact hf a rfl
  | assert_failed => simp
  | bad_read => simp
  | no_fuel => exact absurd rfl ho

theorem map_ne_no_fuel {α β : Type} (o : Outcome α) (f : α → β)
    (ho : o ≠ .no_fuel) : o.map f ≠ .no_fuel := by
  cases o <;> simp_all

theorem ofRead_ne_no_fuel {α : Type} (r : Option α) : Outcome.ofRead r ≠ .no_fuel := by
  cases r <;> simp [Outcome.ofRead]

theorem ofRead_eq_ok {α : Type} {r : Option α} {a : α} (h : Outcome.ofRead r = .ok a) :
    r = some a := by
  cases r <;> simp_all [Outcome.ofRead]

theorem escape_pieces_ne_no_fuel (str : Option (List Nat)) :
    escape_pieces str ≠ .no_fuel := by
  cases str with
  | none => simp [escape_pieces]
  | some s =>
    obtain ⟨ps, hps⟩ := escape_pieces_isOk s
    rw [hps]; simp

theorem begin_object_pieces_ne_no_fuel (str : Option (List Nat)) :
    begin_object_pieces str ≠ .no_fuel :=
  map_ne_no_fuel _ _ (escape_pieces_ne_no_fuel str)

theorem body_string_ne_no_fuel (body : List Nat) : body_string body ≠ .no_fuel := by
  unfold body_string
  split_ifs <;> simp

theorem lv2_atom_forge_is_blank_ne_no_fuel (forge : Forge) (t : Nat) (body : List Nat) :
    lv2_atom_forge_is_blank forge t body ≠ .no_fuel := by
  unfold lv2_atom_forge_is_blank
  split_ifs
  · simp
  · exact map_ne_no_fuel _ _ (ofRead_ne_no_fuel _)
  · simp

theorem vector_pieces_ne_no_fuel
    (serp : Nat → Nat → List Nat → Outcome (List (List Nat)))
    (chk : Nat → Nat → List Nat → Bool) (d : Nat) (body : List Nat) (size : Nat)
    (H : ∀ ct cs b, chk ct cs b = true → cs < 4294967296 → b.length < d →
      serp ct cs b ≠ .no_fuel)
    (hb : body.length < d + 1) (k kc i : Nat) (first : Bool) (hi : 8 ≤ i)
    (hk : size - i < k) (hkc : size ≤ i + kc)
    (hs : vector_strides chk body size kc i = true) :
    vector_pieces serp body size k i first ≠ .no_fuel := by
  induction k generalizing kc i first with
  | zero => omega
  | succ k ih =>
    unfold vector_pieces
    by_cases h1 : i < size
    · simp only [if_pos h1]
      refine bind_ne_no_fuel _ _ (ofRead_ne_no_fuel _) (fun ct hct => ?_)
      refine bind_ne_no_fuel _ _ (ofRead_ne_no_fuel _) (fun cs hcs => ?_)
      have hct' := ofRead_eq_ok hct
      have hcs' := ofRead_eq_ok hcs
      obtain ⟨kc', rfl⟩ : ∃ kc', kc = kc' + 1 := ⟨kc - 1, by omega⟩
      unfold vector_strides at hs
      simp only [if_pos h1, hct', hcs', Bool.and_eq_true, decide_eq_true_eq] at hs
      obtain ⟨⟨hs1, hs2⟩, hs3⟩ := hs
      have hlen := load32_length _ _ _ hct'
      have hcs_lt := load32_lt _ _ _ hcs'
      refine bind_ne_no_fuel _ _ (H ct cs _ hs2 hcs_lt ?_) (fun p _ => ?_)
      · simp only [List.length_drop]; omega
      · exact map_ne_no_fuel _ _
          (ih kc' (i + cs) false (by omega) (by omega) (by omega) hs3)
    · simp [if_neg h1]

theorem object_pieces_ne_no_fuel (unmap : Nat → Option (List Nat))
    (serp : Nat → Nat → List Nat → Outcome (List (List Nat)))
    (chk : Nat → Nat → List Nat → Bool) (d : Nat) (body : List Nat) (size : Nat)
    (H : ∀ vt vs b, chk vt vs b = true → vs < 4294967296 → b.length < d →
      serp vt vs b ≠ .no_fuel)
    (hb : body.length < d + 1) (k kc i : Nat) (hi : 8 ≤ i)
    (hk : size - i < k) (hkc : size ≤ i + kc)
    (hs : object_strides chk body size kc i = true) :
    object_pieces unmap serp body size k i ≠ .no_fuel := by
  induction k generalizing kc i with
  | zero => omega
  | succ k ih =>
    unfold object_pieces
    by_cases h1 : i ≥ size
    · simp [if_pos h1]
    · simp only [if_neg h1]
      refine bind_ne_no_fuel _ _ (ofRead_ne_no_fuel _) (fun key _ => ?_)
      refine bind_ne_no_fuel _ _ (escape_pieces_ne_no_fuel _) (fun pk _ => ?_)
      refine bind_ne_no_fuel _ _ (ofRead_ne_no_fuel _) (fun vt hvt => ?_)
      refine bind_ne_no_fuel _ _ (ofRead_ne_no_fuel _) (fun vs hvs => ?_)
      have hvt' := ofRead_eq_ok hvt
      have hvs' := ofRead_eq_ok hvs
      obtain ⟨kc', rfl⟩ : ∃ kc', kc = kc' + 1 := ⟨kc - 1, by omega⟩
      unfold object_strides at hs
      simp only [if_neg h1, hvt', hvs', Bool.and_eq_true, decide_eq_true_eq] at hs
      obtain ⟨⟨hs1, hs2⟩, hs3⟩ := hs
      have hlen := load32_length _ _ _ hvt'
      have hvs_lt := load32_lt _ _ _ hvs'
      refine bind_ne_no_fuel _ _ (H vt vs _ hs2 hvs_lt ?_) (fun p _ => ?_)
      · simp only [List.length_drop]; omega
      · exact map_ne_no_fuel _ _
          (ih kc' _ (by omega) (by omega) (by omega) hs3)

theorem atom_pieces_ne_no_fuel (forge : Forge) (unmap : Nat → Option (List Nat)) (d : Nat) :
    ∀ (type_urid size : Nat) (body : List Nat) (fuel : Nat), body.length < d →
      strides_ok forge d type_urid size body = true →
      d + 4294967296 ≤ fuel → size ≤ fuel →
      atom_pieces forge unmap fuel type_urid size body ≠ .no_fuel := by
  induction d with
  | zero => intro _ _ body _ hb; omega
  | succ d ih =>
    intro type_urid size body fuel hb hs hf1 hf2
    obtain ⟨f, rfl⟩ : ∃ f, fuel = f + 1 := ⟨fuel - 1, by omega⟩
    have H : ∀ ct cs b, strides_ok forge d ct cs b = true → cs < 4294967296 →
        b.length < d → atom_pieces forge unmap f ct cs b ≠ .no_fuel :=
      fun ct cs b hc hcs hbl => ih ct cs b f hbl hc (by omega) (by omega)
    unfold strides_ok at hs
    simp only [Bool.and_eq_true, Bool.or_eq_true, decide_eq_true_eq, Bool.not_eq_true'] at hs
    rcases atom_pieces_arms_of forge unmap f type_urid size body _ rfl with
      h | h | h | h | h | h | h | h | ⟨hv, h⟩ | ⟨ho, h⟩ | h <;> rw [h]
    · simp
    · exact bind_ne_no_fuel _ _ (body_string_ne_no_fuel _)
        (fun _ _ => escape_pieces_ne_no_fuel _)
    · exact bind_ne_no_fuel _ _ (ofRead_ne_no_fuel _)
        (fun _ _ => escape_pieces_ne_no_fuel _)
    · exact bind_ne_no_fuel _ _ (ofRead_ne_no_fuel _) (fun _ _ => by simp)
    · exact bind_ne_no_fuel _ _ (ofRead_ne_no_fuel _) (fun _ _ => by simp)
    · exact bind_ne_no_fuel _ _ (ofRead_ne_no_fuel _) (fun _ _ => by simp)
    · exact bind_ne_no_fuel _ _ (ofRead_ne_no_fuel _) (fun _ _ => by simp)
    · exact bind_ne_no_fuel _ _ (ofRead_ne_no_fuel _) (fun _ _ => by simp)
    · have hvs : vector_strides (strides_ok forge d) body size size 8 = true := by
        rcases hs.1 with h' | h'
        · exact absurd hv h'
        · exact h'
      exact map_ne_no_fuel _ _ (vector_pieces_ne_no_fuel _ _ d body size H hb f size 8 true
        (Nat.le_refl 8) (by omega) (by omega) hvs)
    · have hos : object_strides (strides_ok forge d) body size size 8 = true := by
        rcases hs.2 with h' | h'
        · rw [ho] at h'; cases h'
        · exact h'
      refine bind_ne_no_fuel _ _ (ofRead_ne_no_fuel _) (fun otype _ => ?_)
      refine bind_ne_no_fuel _ _ (begin_object_pieces_ne_no_fuel _) (fun p1 _ => ?_)
      refine bind_ne_no_fuel _ _ (lv2_atom_forge_is_blank_ne_no_fuel _ _ _) (fun blank _ => ?_)
      refine bind_ne_no_fuel _ _ ?_ (fun p4 _ => ?_)
      · cases blank with
        | true => simp
        | false =>
          simp only [Bool.false_eq_true, if_false]
          exact bind_ne_no_fuel _ _ (ofRead_ne_no_fuel _) (fun id _ =>
            map_ne_no_fuel _ _ (escape_pieces_ne_no_fuel _))
      · exact map_ne_no_fuel _ _ (object_pieces_ne_no_fuel _ _ _ d body size H hb f size 8
          (Nat.le_refl 8) (by omega) (by omega) hos)
    · refine bind_ne_no_fuel _ _ (begin_object_pieces_ne_no_fuel _) (fun p1 _ => ?_)
      refine bind_ne_no_fuel _ _ (body_string_ne_no_fuel _) (fun s _ => ?_)
      exact map_ne_no_fuel _ _ (escape_pieces_ne_no_fuel _)

theorem isNoFuel_eq_false {α : Type} (o : Outcome α) (h : o ≠ .no_fuel) :
    o.isNoFuel = false := by
  cases o <;> simp_all [Outcome.isNoFuel]

theorem format_pieces_ne_no_fuel (forge : Forge) (unmap : Nat → Option (List Nat))
    (fuel : Nat) (inst : Int) (symbol : List Nat) (type_urid size : Nat) (body : List Nat)
    (h : atom_pieces forge unmap fuel type_urid size body ≠ .no_fuel) :
    format_pieces forge unmap fuel inst symbol type_urid size body ≠ .no_fuel :=
  bind_ne_no_fuel _ _ (begin_object_pieces_ne_no_fuel _) (fun _ _ => map_ne_no_fuel _ _ h)

/-- C7 (amended). For every writer state and every atom in which every vector
reached has a nonzero child stride and every property reached a nonzero padded
size, `serialize_atom` and `atom_writer_format` terminate: with fuel for the
nesting the body can hold and the iterations the sizes allow, the run ends
(normally, or at the assertion, or at a read outside the body). -/
theorem encoder_terminates (w : AtomWriter) (type_urid size : Nat) (body : List Nat)
    (h : strides_ok w.forge (body.length + 1) type_urid size body = true)
    (fuel : Nat) (hf : body.length + size + 4294967297 ≤ fuel) :
    (serialize_atom fuel w type_urid size body).isNoFuel = false ∧
    (∀ inst symbol,
      (atom_writer_format fuel w inst symbol type_urid size body).isNoFuel = false) := by
  have key := atom_pieces_ne_no_fuel w.forge w.unmap (body.length + 1) type_urid size body
    fuel (Nat.lt_succ_self _) h (by omega) (by omega)
  constructor
  · rw [serialize_atom_eq]
    exact isNoFuel_eq_false _ (map_ne_no_fuel _ _ key)
  · intro inst symbol
    rw [atom_writer_format_eq]
    exact isNoFuel_eq_false _ (map_ne_no_fuel _ _
      (format_pieces_ne_no_fuel _ _ _ _ _ _ _ _ key))

/-- Witness for C7: the vector of the Int children 1, 2, 3 with stride 4 has
nonzero strides, and its encoding ends; with little fuel it already returns. -/
theorem encoder_terminates_witness :
    strides_ok (sample_writer 64).forge (int_vector.length + 1) 13 20 int_vector = true ∧
    int_vector.length + 20 + 4294967297 ≤ 4294967337 ∧
    (serialize_atom 4294967337 (sample_writer 64) 13 20 int_vector).isNoFuel = false ∧
    (serialize_atom 5 (sample_writer 64) 13 20 int_vector).isOk = true :=
  ⟨by decide, by decide,
    (encoder_terminates (sample_writer 64) 13 20 int_vector (by decide) 4294967337
      (by decide)).1,
    by decide⟩

/-- A Vector loop entered with child stride 0 never ends. -/
theorem vector_pieces_spin (serp : Nat → Nat → List Nat → Outcome (List (List Nat)))
    (body : List Nat) (size i ct : Nat) (h4 : load32 body 4 = some ct)
    (h0 : load32 body 0 = some 0)
    (hs : ∀ b, serp ct 0 b = .no_fuel ∨ ∃ p, serp ct 0 b = .ok p) (hi : i < size)
    (k : Nat) (first : Bool) :
    vector_pieces serp body size k i first = .no_fuel := by
  induction k generalizing first with
  | zero => rfl
  | succ k ih =>
    unfold vector_pieces
    simp only [if_pos hi, h4, h0, Outcome.ofRead, Outcome.bind_ok, Nat.add_zero]
    rcases hs (body.drop i) with h | ⟨p, h⟩
    · rw [h]; rfl
    · rw [h, Outcome.bind_ok, ih false]; rfl

/-- An object loop that meets a property whose padded size is 0 never ends. -/
theorem object_pieces_spin (unmap : Nat → Option (List Nat))
    (serp : Nat → Nat → List Nat → Outcome (List (List Nat)))
    (body : List Nat) (size i key vt vs : Nat) (pk : List (List Nat))
    (hkey : load32 body i = some key) (hesc : escape_pieces (unmap key) = .ok pk)
    (hvt : load32 body (i + 12) = some vt) (hvs : load32 body (i + 8) = some vs)
    (hpad : lv2_atom_pad_size ((16 + vs) % 2 ^ 32) = 0)
    (hs : ∀ b, serp vt vs b = .no_fuel ∨ ∃ p, serp vt vs b = .ok p) (hi : i < size)
    (k : Nat) :
    object_pieces unmap serp body size k i = .no_fuel := by
  induction k with
  | zero => rfl
  | succ k ih =>
    unfold object_pieces
    simp only [if_neg (Nat.not_le.mpr hi), hkey, hesc, hvt, hvs, hpad, Outcome.ofRead,
      Outcome.bind_ok, Nat.add_zero]
    rcases hs (body.drop (i + 16)) with h | ⟨p, h⟩
    · rw [h]; rfl
    · rw [h, Outcome.bind_ok, ih]; rfl

theorem sample_null_returns (unmap : Nat → Option (List Nat)) (size f : Nat) (b : List Nat) :
    atom_pieces sample_forge unmap f 0 size b = .no_fuel ∨
      ∃ p, atom_pieces sample_forge unmap f 0 size b = .ok p := by
  cases f with
  | zero => exact Or.inl rfl
  | succ f =>
    right
    refine ⟨string_pieces (lit "null"), ?_⟩
    rw [atom_pieces]
    by_cases c1 : (0 : Nat) = 0 ∧ size = 0
    · rw [if_pos c1]
    · simp [if_neg c1, sample_forge, lv2_atom_forge_is_object_type]

theorem zero_stride_vector_spins (unmap : Nat → Option (List Nat)) (fuel : Nat) :
    atom_pieces sample_forge unmap fuel 13 9 zero_stride_vector = .no_fuel := by
  cases fuel with
  | zero => rfl
  | succ f =>
    have e : atom_pieces sample_forge unmap (f + 1) 13 9 zero_stride_vector
        = ((vector_pieces (atom_pieces sample_forge unmap f) zero_stride_vector 9 f 8
            true).map fun r => [91] :: (r ++ [[93]])) := rfl
    rw [e, vector_pieces_spin _ zero_stride_vector 9 8 0 (by decide) (by decide)
      (sample_null_returns unmap 0 f) (by decide) f true]
    rfl

theorem zero_step_object_spins (fuel : Nat) :
    atom_pieces sample_forge named_unmap fuel 7 9 zero_step_object = .no_fuel := by
  cases fuel with
  | zero => rfl
  | succ f =>
    have e : atom_pieces sample_forge named_unmap (f + 1) 7 9 zero_step_object
        = ((object_pieces named_unmap (atom_pieces sample_forge named_unmap f)
            zero_step_object 9 f 8).map fun p5 =>
              [[123], [34], lit "Foo", [34], [58]]
                ++ ([123] :: (string_pieces (lit "\"#type\":null")
                  ++ (p5 ++ [[125], [125]])))) := rfl
    rw [e, object_pieces_spin named_unmap _ zero_step_object 9 8 101 0 4294967280
      [[34], lit "bar", [34]] (by decide) (by decide) (by decide) (by decide) (by decide)
      (sample_null_returns named_unmap 4294967280 f) (by decide) f]
    rfl

/-- Counterexample for C7: a vector atom of size 9 whose header declares child
stride 0 keeps the loop of `serialize_atom` at the same element for ever, and
so does an object atom of size 9 whose property declares the value size
`0xFFFFFFF0` (the padded size wraps to 0): whatever the fuel, the run has not
ended; likewise for `atom_writer_format`. -/
theorem termination_counterexample :
    (∀ fuel, serialize_atom fuel (sample_writer 64) 13 9 zero_stride_vector = .no_fuel) ∧
    (∀ fuel, atom_writer_format fuel (sample_writer 64) 3 (lit "gain") 13 9
      zero_stride_vector = .no_fuel) ∧
    (∀ fuel, serialize_atom fuel (named_writer 64) 7 9 zero_step_object = .no_fuel) := by
  refine ⟨?_, ?_, ?_⟩
  · intro fuel
    rw [serialize_atom_eq]
    show Outcome.map _ (atom_pieces sample_forge sample_unmap fuel 13 9 zero_stride_vector) = _
    rw [zero_stride_vector_spins]; rfl
  · intro fuel
    rw [atom_writer_format_eq]
    show Outcome.map _ (format_pieces sample_forge sample_unmap fuel 3 (lit "gain") 13 9
      zero_stride_vector) = _
    unfold format_pieces
    obtain ⟨p2, hp2, -⟩ := begin_object_pieces_flatten (lit "gain")
    rw [zero_stride_vector_spins, hp2]
    rfl
  · intro fuel
    rw [serialize_atom_eq]
    show Outcome.map _ (atom_pieces sample_forge named_unmap fuel 7 9 zero_step_object) = _
    rw [zero_step_object_spins]; rfl

/-! ## C8: the status result -/

theorem sink_all_take_overflow (w : AtomWriter) (ps : List (List Nat)) (k : Nat)
    (h : (sink_all w (ps.take k)).overflow = true) : (sink_all w ps).overflow = true := by
  rw [← List.take_append_drop k ps, sink_all_append, sink_all_of_overflow _ _ h]
  exact h

/-- C8. A call of `atom_writer_format` that returns gives -1 or 0; it gives -1
exactly when the overflow flag is set on return, which is exactly when the flag
was set after some number of the sink calls made (none of them: set on entry),
and 0 otherwise. -/
theorem format_status (fuel : Nat) (w : AtomWriter) (inst : Int) (symbol : List Nat)
    (type_urid size : Nat) (body : List Nat) (w' : AtomWriter) (r : Int)
    (h : atom_writer_format fuel w inst symbol type_urid size body = .ok (w', r)) :
    (r = -1 ↔ w'.overflow = true) ∧ (r = 0 ↔ w'.overflow = false) ∧
    (w.overflow = true → r = -1) ∧
    ∃ ps, format_pieces w.forge w.unmap fuel inst symbol type_urid size body = .ok ps ∧
      w' = sink_all w ps ∧
      (r = -1 ↔ ∃ k, (sink_all w (ps.take k)).overflow = true) := by
  rw [atom_writer_format_eq] at h
  obtain ⟨ps, hps, hp⟩ := Outcome.map_eq_ok h
  simp only [Prod.mk.injEq] at hp
  obtain ⟨hw, hr⟩ := hp
  subst hw
  have h1 : r = -1 ↔ (sink_all w ps).overflow = true := by
    rw [← hr]
    split_ifs with ho
    · simp [ho]
    · simp [ho]
  have h2 : r = 0 ↔ (sink_all w ps).overflow = false := by
    rw [← hr]
    split_ifs with ho
    · simp [ho]
    · simpa using ho
  refine ⟨h1, h2, ?_, ps, hps, rfl, ?_⟩
  · intro ho
    rw [h1, sink_all_of_overflow w ps ho]
    exact ho
  · rw [h1]
    constructor
    · intro ho
      exact ⟨ps.length, by rw [List.take_length]; exact ho⟩
    · rintro ⟨k, hk⟩
      exact sink_all_take_overflow w ps k hk

/-- Witness for C8: with room the record is written and the call returns 0
with the flag clear; with capacity 16 the same call returns -1 with the flag
set. -/
theorem format_status_witness :
    (atom_writer_format 1 (sample_writer 64) 3 (lit "gain") 5 4 [10, 0, 0, 0]).map
      (fun p => (p.1.overflow, p.2)) = .ok (false, 0) ∧
    (atom_writer_format 1 (sample_writer 16) 3 (lit "gain") 5 4 [10, 0, 0, 0]).map
      (fun p => (p.1.overflow, p.2)) = .ok (true, -1) ∧
    (∀ w' r, atom_writer_format 1 (sample_writer 16) 3 (lit "gain") 5 4 [10, 0, 0, 0]
      = .ok (w', r) → (r = -1 ↔ w'.overflow = true)) :=
  ⟨by decide, by decide,
    fun w' r h => (format_status 1 (sample_writer 16) 3 (lit "gain") 5 4 [10, 0, 0, 0]
      w' r h).1⟩

/-! ## C9: the null fallback -/

theorem sink_string_lit_null (w : AtomWriter) : sink_string w (lit "null") = sink w (lit "null") :=
  rfl

/-- C9. With type tag 0 and size 0, `serialize_atom` appends exactly `null`
for every forge and every body, before any other arm is considered; and for a
type tag that equals none of the forge's String, URID, URI, Int, Long, Float,
Double, Bool, Vector and Path tags and is not an object type it appends
exactly `null` whatever size and body are.  Appending: one `sink` of the four
bytes, which a sink with room holds afterwards. -/
theorem null_fallback (fuel : Nat) (w : AtomWriter) :
    (∀ body, serialize_atom (fuel + 1) w 0 0 body = .ok (sink w (lit "null"))) ∧
    (∀ type_urid size body, type_urid ≠ w.forge.String → type_urid ≠ w.forge.URID →
      type_urid ≠ w.forge.URI → type_urid ≠ w.forge.Int → type_urid ≠ w.forge.Long →
      type_urid ≠ w.forge.Float → type_urid ≠ w.forge.Double → type_urid ≠ w.forge.Bool →
      type_urid ≠ w.forge.Vector → type_urid ≠ w.forge.Path →
      lv2_atom_forge_is_object_type w.forge type_urid = false →
      serialize_atom (fuel + 1) w type_urid size body = .ok (sink w (lit "null"))) ∧
    (w.overflow = false → w.len + 4 < w.cap →
      contents (sink w (lit "null")) = contents w ++ lit "null" ∧
      (sink w (lit "null")).len = w.len + 4 ∧ (sink w (lit "null")).overflow = false) := by
  refine ⟨?_, ?_, ?_⟩
  · intro body
    rw [serialize_atom, if_pos ⟨rfl, rfl⟩, sink_string_lit_null]
  · intro t size body h1 h2 h3 h4 h5 h6 h7 h8 h9 h10 h11
    rw [serialize_atom]
    by_cases c1 : t = 0 ∧ size = 0
    · rw [if_pos c1, sink_string_lit_null]
    · have h11' : ¬ (lv2_atom_forge_is_object_type w.forge t = true) := by simp [h11]
      rw [if_neg c1, if_neg h1, if_neg h2, if_neg h3, if_neg h4, if_neg h5, if_neg h6,
        if_neg h7, if_neg h8, if_neg h9, if_neg h11', if_neg h10, sink_string_lit_null]
  · intro ho hc
    exact ⟨sink_fits_contents w _ ho hc, sink_fits_len w _ ho hc, sink_fits_overflow w _ ho hc⟩

/-- Witness for C9: tag 77 is none of the tags of the sample forge, and an
atom of that type with size 5 is written as `null`. -/
theorem null_fallback_witness :
    lv2_atom_forge_is_object_type (sample_writer 64).forge 77 = false ∧
    serialize_atom 1 (sample_writer 64) 77 5 [1, 2, 3]
      = .ok (sink (sample_writer 64) (lit "null")) ∧
    contents (sink (sample_writer 64) (lit "null")) = lit "null" ∧
    serialize_atom 1 (sample_writer 64) 0 0 [] = .ok (sink (sample_writer 64) (lit "null")) :=
  ⟨by decide,
    (null_fallback 0 (sample_writer 64)).2.1 77 5 [1, 2, 3] (by decide) (by decide) (by decide)
      (by decide) (by decide) (by decide) (by decide) (by decide) (by decide) (by decide)
      (by decide),
    ((null_fallback 0 (sample_writer 64)).2.2 rfl (by decide)).1.trans (by decide),
    (null_fallback 0 (sample_writer 64)).1 []⟩

/-! ## C10: integers -/

theorem sink_string_of_nul_free (w : AtomWriter) (t : List Nat) (h : ∀ b, b ∈ t → b ≠ 0) :
    sink_string w t = sink w t := by
  rw [sink_string, take_strlen, cstr_of_nul_free t h]

theorem snprintf64_of_short (t : List Nat) (h : t.length ≤ 63) : snprintf64 t = t :=
  List.take_of_length_le h

theorem load32_int32_bytes (v : Int) (rest : List Nat) :
    load32 (int32_bytes v ++ rest) 0 = some ((v % 4294967296).toNat) := by
  have hu : (v % 4294967296).toNat < 4294967296 := by omega
  simp only [load32, int32_bytes, List.drop_zero, List.cons_append, Option.some.injEq]
  generalize (v % 4294967296).toNat = u at hu ⊢
  omega

theorem to_int32_of_int (v : Int) (h1 : -2147483648 ≤ v) (h2 : v ≤ 2147483647) :
    to_int32 ((v % 4294967296).toNat) = v := by
  unfold to_int32
  split_ifs <;> omega

theorem load64_int64_bytes (v : Int) (rest : List Nat) :
    load64 (int64_bytes v ++ rest) 0 = some ((v % 18446744073709551616).toNat) := by
  have hu : (v % 18446744073709551616).toNat < 18446744073709551616 := by omega
  simp only [load64, load32, int64_bytes, List.drop_zero, List.cons_append, Nat.zero_add,
    List.drop_succ_cons, Option.some.injEq]
  generalize (v % 18446744073709551616).toNat = u at hu ⊢
  omega

theorem to_int64_of_int (v : Int) (h1 : -9223372036854775808 ≤ v)
    (h2 : v ≤ 9223372036854775807) :
    to_int64 ((v % 18446744073709551616).toNat) = v := by
  unfold to_int64
  split_ifs <;> omega

theorem sink_fmt_d (w : AtomWriter) (v : Int) (h : v.natAbs < 10 ^ 19) :
    sink_string w (snprintf64 (fmt_d v)) = sink w (fmt_d v) := by
  have hl := fmt_d_length v 19 (by decide) h
  rw [snprintf64_of_short _ (by omega), sink_string_of_nul_free w _ (fmt_d_nul_free v)]

/-- C10. For every signed 32-bit `v`, an Int atom whose four body bytes hold
`v` is written by one `sink` of the decimal text of `v`, and likewise a Long
atom with eight body bytes for every signed 64-bit `v` (the tags of the forge
being distinct).  The text is `-` (only for `v < 0`) followed by the digits of
`|v|` without a leading zero (`0` for zero), and it parses back to `v`. -/
theorem integer_fidelity (fuel : Nat) (w : AtomWriter) (rest : List Nat) :
    (∀ v : Int, -2147483648 ≤ v → v ≤ 2147483647 →
      w.forge.Int ≠ w.forge.String → w.forge.Int ≠ w.forge.URID →
      w.forge.Int ≠ w.forge.URI →
      serialize_atom (fuel + 1) w w.forge.Int 4 (int32_bytes v ++ rest)
        = .ok (sink w (fmt_d v))) ∧
    (∀ v : Int, -9223372036854775808 ≤ v → v ≤ 9223372036854775807 →
      w.forge.Long ≠ w.forge.String → w.forge.Long ≠ w.forge.URID →
      w.forge.Long ≠ w.forge.URI → w.forge.Long ≠ w.forge.Int →
      serialize_atom (fuel + 1) w w.forge.Long 8 (int64_bytes v ++ rest)
        = .ok (sink w (fmt_d v))) ∧
    (∀ v : Int,
      parse_int (fmt_d v) = v ∧
      fmt_d v = (if v < 0 then [45] else []) ++ fmt_u v.natAbs ∧
      (∀ b, b ∈ fmt_u v.natAbs → 48 ≤ b ∧ b ≤ 57) ∧
      (v = 0 → fmt_d v = [48]) ∧
      (v ≠ 0 → ∃ d ds, fmt_u v.natAbs = d :: ds ∧ 49 ≤ d ∧ d ≤ 57) ∧
      (w.overflow = false → w.len + (fmt_d v).length < w.cap →
        contents (sink w (fmt_d v)) = contents w ++ fmt_d v)) := by
  refine ⟨?_, ?_, ?_⟩
  · intro v h1 h2 hS hU hI
    rw [serialize_atom, if_neg (by omega), if_neg hS, if_neg hU, if_neg hI, if_pos rfl,
      load32_int32_bytes]
    simp only [Outcome.ofRead, Outcome.bind_ok]
    rw [to_int32_of_int v h1 h2, sink_fmt_d w v (by omega)]
  · intro v h1 h2 hS hU hI hN
    rw [serialize_atom, if_neg (by omega), if_neg hS, if_neg hU, if_neg hI, if_neg hN,
      if_pos rfl, load64_int64_bytes]
    simp only [Outcome.ofRead, Outcome.bind_ok]
    rw [to_int64_of_int v h1 h2, sink_fmt_d w v (by omega)]
  · intro v
    refine ⟨fmt_d_value v, ?_, fmt_u_range _, ?_, ?_, ?_⟩
    · unfold fmt_d
      split_ifs <;> rfl
    · intro h0
      subst h0
      rfl
    · intro h0
      exact fmt_u_head v.natAbs (Int.natAbs_pos.mpr h0)
    · intro ho hc
      exact sink_fits_contents w _ ho hc

/-- Witness for C10: the Int atoms holding -42, the minimum and 0 are written
as `-42`, `-2147483648` and `0`; the Long minimum as `-9223372036854775808`. -/
theorem integer_fidelity_witness :
    (-2147483648 : Int) ≤ -42 ∧ (-42 : Int) ≤ 2147483647 ∧
    (sample_writer 64).forge.Int ≠ (sample_writer 64).forge.String ∧
    (sample_writer 64).forge.Int = 5 ∧ (sample_writer 64).forge.Long = 6 ∧
    int32_bytes (-42) = [214, 255, 255, 255] ∧
    serialize_atom (0 + 1) (sample_writer 64) (sample_writer 64).forge.Int 4
        (int32_bytes (-42) ++ []) = .ok (sink (sample_writer 64) (fmt_d (-42))) ∧
    fmt_d (-42) = lit "-42" ∧
    contents (sink (sample_writer 64) (lit "-42")) = lit "-42" ∧
    serialize_atom (0 + 1) (sample_writer 64) (sample_writer 64).forge.Int 4
        (int32_bytes (-2147483648) ++ []) = .ok (sink (sample_writer 64) (fmt_d (-2147483648))) ∧
    fmt_d (-2147483648) = lit "-2147483648" ∧
    fmt_d 0 = lit "0" ∧
    serialize_atom (0 + 1) (sample_writer 64) (sample_writer 64).forge.Long 8
        (int64_bytes (-9223372036854775808) ++ [])
      = .ok (sink (sample_writer 64) (fmt_d (-9223372036854775808))) ∧
    fmt_d (-9223372036854775808) = lit "-9223372036854775808" ∧
    parse_int (fmt_d (-2147483648)) = -2147483648 :=
  ⟨by decide, by decide, by decide, rfl, rfl, by decide,
    (integer_fidelity 0 (sample_writer 64) []).1 (-42) (by decide) (by decide) (by decide)
      (by decide) (by decide),
    by decide, by decide,
    (integer_fidelity 0 (sample_writer 64) []).1 (-2147483648) (by decide) (by decide)
      (by decide) (by decide) (by decide),
    by decide, by decide,
    (integer_fidelity 0 (sample_writer 64) []).2.1 (-9223372036854775808) (by decide)
      (by decide) (by decide) (by decide) (by decide) (by decide),
    by decide,
    ((integer_fidelity 0 (sample_writer 64) []).2.2 (-2147483648)).1⟩

/-! ## Text and sink -/

/-- The text of an atom is what a sink with room for it gets appended. -/
theorem serialize_atom_appends (fuel : Nat) (w : AtomWriter) (type_urid size : Nat)
    (body txt : List Nat)
    (h : atom_text w.forge w.unmap fuel type_urid size body = .ok txt)
    (ho : w.overflow = false) (hc : w.len + txt.length < w.cap) :
    ∃ w', serialize_atom fuel w type_urid size body = .ok w' ∧
      contents w' = contents w ++ txt ∧ w'.len = w.len + txt.length ∧
      w'.overflow = false := by
  obtain ⟨ps, hps, hfl⟩ := Outcome.map_eq_ok h
  rw [← hfl] at hc
  obtain ⟨h1, h2, h3⟩ := sink_all_fits w ps ho hc
  exact ⟨sink_all w ps, by rw [serialize_atom_eq, hps, Outcome.map_ok],
    by rw [h3, hfl], by rw [h2, hfl], h1⟩

theorem forge_tags_length (forge : Forge) : (forge_tags forge).length = 13 := rfl

theorem tags_ne (forge : Forge) (h : distinct_tags forge) (i j : Nat)
    (hi : i < 13) (hj : j < 13) (hij : i ≠ j) :
    (forge_tags forge).getD i 0 ≠ (forge_tags forge).getD j 0 := by
  have hi' : i < (forge_tags forge).length := by rw [forge_tags_length]; exact hi
  have hj' : j < (forge_tags forge).length := by rw [forge_tags_length]; exact hj
  rw [List.getD_eq_getElem _ _ hi', List.getD_eq_getElem _ _ hj']
  intro e
  exact hij ((h.1.getElem_inj_iff).mp e)

theorem tags_ne_zero (forge : Forge) (h : distinct_tags forge) (t : Nat)
    (ht : t ∈ forge_tags forge) : t ≠ 0 := by
  intro e
  exact h.2 (e ▸ ht)

theorem atom_pieces_vector (forge : Forge) (unmap : Nat → Option (List Nat)) (fuel size : Nat)
    (body : List Nat) (hd : distinct_tags forge) :
    atom_pieces forge unmap (fuel + 1) forge.Vector size body
      = ((vector_pieces (atom_pieces forge unmap fuel) body size fuel 8 true).map fun r =>
          [91] :: (r ++ [[93]])) := by
  have n0 : forge.Vector ≠ 0 := tags_ne_zero forge hd _ (by simp [forge_tags])
  have n1 : forge.Vector ≠ forge.String :=
    tags_ne forge hd 8 0 (by decide) (by decide) (by decide)
  have n2 : forge.Vector ≠ forge.URID :=
    tags_ne forge hd 8 1 (by decide) (by decide) (by decide)
  have n3 : forge.Vector ≠ forge.URI :=
    tags_ne forge hd 8 2 (by decide) (by decide) (by decide)
  have n4 : forge.Vector ≠ forge.Int :=
    tags_ne forge hd 8 3 (by decide) (by decide) (by decide)
  have n5 : forge.Vector ≠ forge.Long :=
    tags_ne forge hd 8 4 (by decide) (by decide) (by decide)
  have n6 : forge.Vector ≠ forge.Float :=
    tags_ne forge hd 8 5 (by decide) (by decide) (by decide)
  have n7 : forge.Vector ≠ forge.Double :=
    tags_ne forge hd 8 6 (by decide) (by decide) (by decide)
  have n8 : forge.Vector ≠ forge.Bool :=
    tags_ne forge hd 8 7 (by decide) (by decide) (by decide)
  rw [atom_pieces, if_neg (fun e => n0 e.1), if_neg n1, if_neg n2, if_neg n3, if_neg n4,
    if_neg n5, if_neg n6, if_neg n7, if_neg n8, if_pos rfl]

/-! ## C11: vectors -/

theorem join_commas_cons (e : List Nat) (es : List (List Nat)) :
    join_commas (e :: es) = e ++ es.flatMap (fun x => 44 :: x) := by
  induction es generalizing e with
  | nil => simp [join_commas]
  | cons x xs ih =>
    have h : join_commas (e :: x :: xs) = e ++ 44 :: join_commas (x :: xs) := rfl
    rw [h, ih x]
    simp

theorem vector_pieces_flatten (serp : Nat → Nat → List Nat → Outcome (List (List Nat)))
    (body : List Nat) (s c t : Nat) (hc : load32 body 0 = some c)
    (ht : load32 body 4 = some t) (rem : List (List Nat)) :
    ∀ (k i : Nat) (first : Bool), rem.length < k →
      (∀ j, j < rem.length → i + j * c < s) → s ≤ i + rem.length * c →
      (∀ j (h : j < rem.length), ∃ p, serp t c (body.drop (i + j * c)) = .ok p ∧
        p.flatten = rem.get ⟨j, h⟩) →
      ∃ ps, vector_pieces serp body s k i first = .ok ps ∧
        ps.flatten = (if first then join_commas rem else rem.flatMap (fun e => 44 :: e)) := by
  induction rem with
  | nil =>
    intro k i first hk _ hs _
    obtain ⟨k', rfl⟩ : ∃ k', k = k' + 1 := ⟨k - 1, by simp at hk; omega⟩
    refine ⟨[], ?_, ?_⟩
    · unfold vector_pieces
      rw [if_neg (by simp at hs; omega)]
    · cases first <;> simp [join_commas]
  | cons e rest ih =>
    intro k i first hk hlt hs he
    obtain ⟨k', rfl⟩ : ∃ k', k = k' + 1 := ⟨k - 1, by simp at hk; omega⟩
    have h0 : i < s := by
      have := hlt 0 (by simp)
      simpa using this
    obtain ⟨p, hp, hpf⟩ := he 0 (by simp)
    simp only [Nat.zero_mul, Nat.add_zero] at hp
    simp only [List.length_cons] at hk hs
    obtain ⟨r, hr, hrf⟩ := ih k' (i + c) false (by omega)
      (fun j hj => by
        have := hlt (j + 1) (by simp; omega)
        rw [Nat.succ_mul] at this
        omega)
      (by rw [Nat.succ_mul] at hs; omega)
      (fun j hj => by
        obtain ⟨q, hq, hqf⟩ := he (j + 1) (by simp; omega)
        refine ⟨q, ?_, hqf⟩
        rw [← hq, Nat.succ_mul]
        congr 2
        omega)
    refine ⟨(if first then [] else [[44]]) ++ (p ++ r), ?_, ?_⟩
    · unfold vector_pieces
      simp only [if_pos h0, hc, ht, Outcome.ofRead, Outcome.bind_ok, hp, hr, Outcome.map_ok]
    · simp only [Bool.false_eq_true, if_false] at hrf
      have hpe : p.flatten = e := hpf
      cases first
      · simp [hpe, hrf]
      · simp [hpe, hrf, join_commas_cons]

theorem ceil_div_offsets (s c : Nat) (hc : 0 < c) :
    (∀ j, j < (s - 8 + c - 1) / c → 8 + j * c < s) ∧ s ≤ 8 + (s - 8 + c - 1) / c * c := by
  constructor
  · intro j hj
    have h1 : (j + 1) * c ≤ s - 8 + c - 1 := (Nat.le_div_iff_mul_le hc).mp hj
    rw [Nat.succ_mul] at h1
    omega
  · have h1 : ¬ ((s - 8 + c - 1) / c + 1) * c ≤ s - 8 + c - 1 := by
      rw [← Nat.le_div_iff_mul_le hc]
      omega
    rw [Nat.succ_mul] at h1
    omega

/-- C11. For a vector atom of outer size `s` (the tags of the forge being
distinct): when `s ≤ 8` the text is `[]`; when the header declares child type
`t` and child stride `c > 0`, and the elements at the offsets `8 + k * c` below
`s`, `⌈(s - 8) / c⌉` of them, have as atoms of type `t` and size `c` the texts
`es`, the text is `[` ++ `es` joined by single commas ++ `]`, which a sink with
room gets appended. -/
theorem vector_encoding (f : Nat) (w : AtomWriter) (s : Nat) (body : List Nat)
    (hd : distinct_tags w.forge) :
    (s ≤ 8 → 0 < f →
      atom_text w.forge w.unmap (f + 1) w.forge.Vector s body = .ok (array_text [])) ∧
    (∀ c t es, load32 body 0 = some c → load32 body 4 = some t → 0 < c →
      es.length = (s - 8 + c - 1) / c → es.length < f →
      (∀ k, k < es.length →
        atom_text w.forge w.unmap f t c (body.drop (8 + k * c)) = .ok (es.getD k [])) →
      atom_text w.forge w.unmap (f + 1) w.forge.Vector s body = .ok (array_text es) ∧
      (w.overflow = false → w.len + (array_text es).length < w.cap →
        ∃ w', serialize_atom (f + 1) w w.forge.Vector s body = .ok w' ∧
          contents w' = contents w ++ array_text es ∧ w'.overflow = false)) := by
  constructor
  · intro hs hf
    obtain ⟨f', rfl⟩ : ∃ f', f = f' + 1 := ⟨f - 1, by omega⟩
    rw [atom_text, atom_pieces_vector _ _ _ _ _ hd]
    unfold vector_pieces
    rw [if_neg (by omega)]
    rfl
  · intro c t es hc ht hpos hn hf he
    have harith := ceil_div_offsets s c hpos
    rw [← hn] at harith
    obtain ⟨ps, hps, hfl⟩ := vector_pieces_flatten (atom_pieces w.forge w.unmap f) body s c t
      hc ht es f 8 true hf harith.1 harith.2
      (fun j h => by
        obtain ⟨p, hp, hpf⟩ := Outcome.map_eq_ok (he j h)
        rw [List.getD_eq_getElem _ _ h] at hpf
        exact ⟨p, hp, hpf⟩)
    have htext : atom_text w.forge w.unmap (f + 1) w.forge.Vector s body
        = .ok (array_text es) := by
      rw [atom_text, atom_pieces_vector _ _ _ _ _ hd, hps]
      simp only [Outcome.map_ok, if_true] at hfl ⊢
      simp [array_text, hfl]
    refine ⟨htext, fun ho hcap => ?_⟩
    obtain ⟨w', h1, h2, -, h4⟩ := serialize_atom_appends _ w _ _ _ _ htext ho hcap
    exact ⟨w', h1, h2, h4⟩

theorem sample_forge_distinct : distinct_tags sample_forge := by
  unfold distinct_tags
  decide

/-- Witness for C11: the vector of the three Int children 1, 2, 3 with stride 4
is written as `[1,2,3]`, and a vector of size 8 as `[]`. -/
theorem vector_encoding_witness :
    distinct_tags (sample_writer 64).forge ∧
    load32 int_vector 0 = some 4 ∧ load32 int_vector 4 = some 5 ∧
    [lit "1", lit "2", lit "3"].length = (20 - 8 + 4 - 1) / 4 ∧
    atom_text (sample_writer 64).forge (sample_writer 64).unmap (4 + 1)
      (sample_writer 64).forge.Vector 20 int_vector
        = .ok (array_text [lit "1", lit "2", lit "3"]) ∧
    array_text [lit "1", lit "2", lit "3"] = lit "[1,2,3]" ∧
    (∃ w', serialize_atom (4 + 1) (sample_writer 64) (sample_writer 64).forge.Vector 20
        int_vector = .ok w' ∧
      contents w' = contents (sample_writer 64) ++ array_text [lit "1", lit "2", lit "3"] ∧
      w'.overflow = false) ∧
    atom_text (sample_writer 64).forge (sample_writer 64).unmap (1 + 1)
      (sample_writer 64).forge.Vector 8 int_vector = .ok (array_text []) ∧
    array_text [] = lit "[]" := by
  have h := (vector_encoding 4 (sample_writer 64) 20 int_vector sample_forge_distinct).2
    4 5 [lit "1", lit "2", lit "3"] (by decide) (by decide) (by decide) (by decide)
    (by decide)
    (fun k hk => by
      match k, hk with
      | 0, _ => decide
      | 1, _ => decide
      | 2, _ => decide)
  exact ⟨sample_forge_distinct, by decide, by decide, by decide, h.1, by decide,
    h.2 rfl (by decide),
    (vector_encoding 1 (sample_writer 64) 8 int_vector sample_forge_distinct).1
      (by decide) (by decide),
    by decide⟩

/-! ## C12: objects -/

theorem object_type_facts (forge : Forge) (hd : distinct_tags forge) (t : Nat)
    (ho : lv2_atom_forge_is_object_type forge t = true) :
    t ≠ 0 ∧ t ≠ forge.String ∧ t ≠ forge.URID ∧ t ≠ forge.URI ∧ t ≠ forge.Int ∧
    t ≠ forge.Long ∧ t ≠ forge.Float ∧ t ≠ forge.Double ∧ t ≠ forge.Bool ∧
    t ≠ forge.Vector := by
  simp only [lv2_atom_forge_is_object_type, Bool.or_eq_true, beq_iff_eq] at ho
  rcases ho with (rfl | rfl) | rfl
  · exact ⟨tags_ne_zero forge hd _ (by simp [forge_tags]),
      tags_ne forge hd 9 0 (by decide) (by decide) (by decide),
      tags_ne forge hd 9 1 (by decide) (by decide) (by decide),
      tags_ne forge hd 9 2 (by decide) (by decide) (by decide),
      tags_ne forge hd 9 3 (by decide) (by decide) (by decide),
      tags_ne forge hd 9 4 (by decide) (by decide) (by decide),
      tags_ne forge hd 9 5 (by decide) (by decide) (by decide),
      tags_ne forge hd 9 6 (by decide) (by decide) (by decide),
      tags_ne forge hd 9 7 (by decide) (by decide) (by decide),
      tags_ne forge hd 9 8 (by decide) (by decide) (by decide)⟩
  · exact ⟨tags_ne_zero forge hd _ (by simp [forge_tags]),
      tags_ne forge hd 10 0 (by decide) (by decide) (by decide),
      tags_ne forge hd 10 1 (by decide) (by decide) (by decide),
      tags_ne forge hd 10 2 (by decide) (by decide) (by decide),
      tags_ne forge hd 10 3 (by decide) (by decide) (by decide),
      tags_ne forge hd 10 4 (by decide) (by decide) (by decide),
      tags_ne forge hd 10 5 (by decide) (by decide) (by decide),
      tags_ne forge hd 10 6 (by decide) (by decide) (by decide),
      tags_ne forge hd 10 7 (by decide) (by decide) (by decide),
      tags_ne forge hd 10 8 (by decide) (by decide) (by decide)⟩
  · exact ⟨tags_ne_zero forge hd _ (by simp [forge_tags]),
      tags_ne forge hd 11 0 (by decide) (by decide) (by decide),
      tags_ne forge hd 11 1 (by decide) (by decide) (by decide),
      tags_ne forge hd 11 2 (by decide) (by decide) (by decide),
      tags_ne forge hd 11 3 (by decide) (by decide) (by decide),
      tags_ne forge hd 11 4 (by decide) (by decide) (by decide),
      tags_ne forge hd 11 5 (by decide) (by decide) (by decide),
      tags_ne forge hd 11 6 (by decide) (by decide) (by decide),
      tags_ne forge hd 11 7 (by decide) (by decide) (by decide),
      tags_ne forge hd 11 8 (by decide) (by decide) (by decide)⟩

theorem atom_pieces_object (forge : Forge) (unmap : Nat → Option (List Nat))
    (fuel t size : Nat) (body : List Nat) (hd : distinct_tags forge)
    (ho : lv2_atom_forge_is_object_type forge t = true) :
    atom_pieces forge unmap (fuel + 1) t size body
      = ((Outcome.ofRead (load32 body 4)).bind fun otype =>
          (begin_object_pieces (unmap otype)).bind fun p1 =>
          (lv2_atom_forge_is_blank forge t body).bind fun blank =>
          (if blank then .ok (string_pieces (lit "\"#type\":null"))
           else
            (Outcome.ofRead (load32 body 0)).bind fun id =>
            (escape_pieces (unmap id)).map fun r =>
              string_pieces (lit "\"#type\":") ++ r).bind fun p4 =>
          (object_pieces unmap (atom_pieces forge unmap fuel) body size fuel 8).map fun p5 =>
            p1 ++ ([123] :: (p4 ++ (p5 ++ [[125], [125]])))) := by
  obtain ⟨n0, n1, n2, n3, n4, n5, n6, n7, n8, n9⟩ := object_type_facts forge hd t ho
  rw [atom_pieces, if_neg (fun e => n0 e.1), if_neg n1, if_neg n2, if_neg n3, if_neg n4,
    if_neg n5, if_neg n6, if_neg n7, if_neg n8, if_neg n9, if_pos ho]

theorem object_pieces_flatten (forge : Forge) (unmap : Nat → Option (List Nat)) (f : Nat)
    (body : List Nat) (size : Nat) (ms : List Member) :
    ∀ (k i : Nat), ms.length < k → members_at forge unmap f body size i ms →
      ∃ ps, object_pieces unmap (atom_pieces forge unmap f) body size k i = .ok ps ∧
        ps.flatten = ms.flatMap member_text := by
  induction ms with
  | nil =>
    intro k i hk hm
    obtain ⟨k', rfl⟩ : ∃ k', k = k' + 1 := ⟨k - 1, by simp at hk; omega⟩
    have hm' : i ≥ size := hm
    refine ⟨[], ?_, rfl⟩
    unfold object_pieces
    rw [if_pos hm']
  | cons m rest ih =>
    intro k i hk hm
    obtain ⟨k', rfl⟩ : ∃ k', k = k' + 1 := ⟨k - 1, by simp at hk; omega⟩
    obtain ⟨h1, h2, h3, h4, h5, h6, h7⟩ := hm
    simp only [List.length_cons] at hk
    obtain ⟨pk, hpk, hpkf⟩ := escape_pieces_flatten m.name
    obtain ⟨pv, hpv, hpvf⟩ := Outcome.map_eq_ok h6
    obtain ⟨r, hr, hrf⟩ := ih k' _ (by omega) h7
    refine ⟨[44] :: (pk ++ ([58] :: (pv ++ r))), ?_, ?_⟩
    · unfold object_pieces
      simp only [if_neg (Nat.not_le.mpr h1), h2, h3, h4, h5, hpk, hpv, hr, Outcome.ofRead,
        Outcome.bind_ok, Outcome.map_ok]
    · simp [member_text, hpkf, hpvf, hrf]

/-- C12. For an object atom (the tags of the forge being distinct) whose type
identifier resolves to `tname`, whose `#type` entry is `x` (`null` for an
anonymous instance, else the escaped name the instance identifier resolves to)
and whose properties are, in on-disk order, `ms`, the text is
`{` ++ escaped(`tname`) ++ `:{` ++ `"#type":` ++ `x` ++ for each property in
order (`,` ++ escaped(name) ++ `:` ++ value text) ++ `}}`: the properties are
neither reordered nor deduplicated; a sink with room gets that text appended. -/
theorem object_encoding (f : Nat) (w : AtomWriter) (t size : Nat) (body : List Nat)
    (otype : Nat) (tname x : List Nat) (blank : Bool) (ms : List Member)
    (hd : distinct_tags w.forge)
    (ho : lv2_atom_forge_is_object_type w.forge t = true)
    (hot : load32 body 4 = some otype) (htn : w.unmap otype = some tname)
    (hb : lv2_atom_forge_is_blank w.forge t body = .ok blank)
    (hx : if blank = true then x = lit "null"
      else ∃ id idname, load32 body 0 = some id ∧ w.unmap id = some idname ∧
        x = escaped (cstr idname))
    (hms : members_at w.forge w.unmap f body size 8 ms) (hf : ms.length < f) :
    atom_text w.forge w.unmap (f + 1) t size body = .ok (object_text tname x ms) ∧
    (w.overflow = false → w.len + (object_text tname x ms).length < w.cap →
      ∃ w', serialize_atom (f + 1) w t size body = .ok w' ∧
        contents w' = contents w ++ object_text tname x ms ∧ w'.overflow = false) := by
  obtain ⟨p1, hp1, hp1f⟩ := begin_object_pieces_flatten tname
  obtain ⟨p5, hp5, hp5f⟩ := object_pieces_flatten w.forge w.unmap f body size ms f 8 hf hms
  have htext : atom_text w.forge w.unmap (f + 1) t size body
      = .ok (object_text tname x ms) := by
    rw [atom_text, atom_pieces_object _ _ _ _ _ _ hd ho, hot]
    simp only [Outcome.ofRead, Outcome.bind_ok, htn, hp1, hb]
    cases blank with
    | true =>
      simp only [if_true] at hx ⊢
      simp only [Outcome.bind_ok, hp5, Outcome.map_ok, Outcome.ok.injEq]
      have e : (string_pieces (lit "\"#type\":null")).flatten = lit "\"#type\":" ++ x := by
        rw [hx]; decide
      simp only [List.flatten_append, List.flatten_cons, hp1f, hp5f, e, object_text]
      simp
    | false =>
      simp only [Bool.false_eq_true, if_false] at hx ⊢
      obtain ⟨id, idname, hid, hidn, hxe⟩ := hx
      obtain ⟨pi, hpi, hpif⟩ := escape_pieces_flatten idname
      simp only [hid, Outcome.ofRead, Outcome.bind_ok, hidn, hpi, Outcome.map_ok, hp5,
        Outcome.ok.injEq]
      have e : (string_pieces (lit "\"#type\":")).flatten = lit "\"#type\":" := by decide
      simp only [List.flatten_append, List.flatten_cons, hp1f, hp5f, e, hpif, object_text, hxe]
      simp
  refine ⟨htext, fun hov hcap => ?_⟩
  obtain ⟨w', h1, h2, -, h4⟩ := serialize_atom_appends _ w _ _ _ _ htext hov hcap
  exact ⟨w', h1, h2, h4⟩

/-- Witness for C12: object type `Foo`, anonymous instance and one property
`bar` with the Int value 7 are written as `{"Foo":{"#type":null,"bar":7}}`. -/
theorem object_encoding_witness :
    distinct_tags (sample_writer 64).forge ∧
    lv2_atom_forge_is_object_type (sample_writer 64).forge 7 = true ∧
    members_at (sample_writer 64).forge (sample_writer 64).unmap 2 foo_object 28 8
      [⟨101, 5, 4, lit "bar", lit "7"⟩] ∧
    atom_text (sample_writer 64).forge (sample_writer 64).unmap (2 + 1) 7 28 foo_object
      = .ok (object_text (lit "Foo") (lit "null") [⟨101, 5, 4, lit "bar", lit "7"⟩]) ∧
    object_text (lit "Foo") (lit "null") [⟨101, 5, 4, lit "bar", lit "7"⟩]
      = lit "\x7b\"Foo\":\x7b\"#type\":null,\"bar\":7\x7d\x7d" ∧
    ∃ w', serialize_atom (2 + 1) (sample_writer 64) 7 28 foo_object = .ok w' ∧
      contents w' = contents (sample_writer 64)
        ++ object_text (lit "Foo") (lit "null") [⟨101, 5, 4, lit "bar", lit "7"⟩] ∧
      w'.overflow = false := by
  have hm : members_at (sample_writer 64).forge (sample_writer 64).unmap 2 foo_object 28 8
      [⟨101, 5, 4, lit "bar", lit "7"⟩] := by
    simp only [members_at]
    decide
  have h := object_encoding 2 (sample_writer 64) 7 28 foo_object 100 (lit "Foo") (lit "null")
    true [⟨101, 5, 4, lit "bar", lit "7"⟩] sample_forge_distinct (by decide) (by decide)
    (by decide) (by decide) (by simp) hm (by decide)
  exact ⟨sample_forge_distinct, by decide, hm, h.1, by decide, h.2 rfl (by decide)⟩

/-! ## C13: booleans -/

theorem serialize_atom_bool (fuel : Nat) (w : AtomWriter) (size : Nat) (body : List Nat)
    (hd : distinct_tags w.forge) :
    serialize_atom (fuel + 1) w w.forge.Bool size body
      = (Outcome.ofRead (load32 body 0)).bind fun val =>
          .ok (sink_string w (if to_int32 val ≠ 0 then lit "true" else lit "false")) := by
  have n0 : w.forge.Bool ≠ 0 := tags_ne_zero w.forge hd _ (by simp [forge_tags])
  have n1 : w.forge.Bool ≠ w.forge.String :=
    tags_ne w.forge hd 7 0 (by decide) (by decide) (by decide)
  have n2 : w.forge.Bool ≠ w.forge.URID :=
    tags_ne w.forge hd 7 1 (by decide) (by decide) (by decide)
  have n3 : w.forge.Bool ≠ w.forge.URI :=
    tags_ne w.forge hd 7 2 (by decide) (by decide) (by decide)
  have n4 : w.forge.Bool ≠ w.forge.Int :=
    tags_ne w.forge hd 7 3 (by decide) (by decide) (by decide)
  have n5 : w.forge.Bool ≠ w.forge.Long :=
    tags_ne w.forge hd 7 4 (by decide) (by decide) (by decide)
  have n6 : w.forge.Bool ≠ w.forge.Float :=
    tags_ne w.forge hd 7 5 (by decide) (by decide) (by decide)
  have n7 : w.forge.Bool ≠ w.forge.Double :=
    tags_ne w.forge hd 7 6 (by decide) (by decide) (by decide)
  rw [serialize_atom, if_neg (fun e => n0 e.1), if_neg n1, if_neg n2, if_neg n3, if_neg n4,
    if_neg n5, if_neg n6, if_neg n7, if_pos rfl]

theorem to_int32_eq_zero (v : Nat) (h : v < 4294967296) : to_int32 v = 0 ↔ v = 0 := by
  unfold to_int32
  split_ifs <;> omega

/-- C13. For a Bool atom (the tags of the forge being distinct) the first four
body bytes are read as a signed 32-bit integer; `false` is appended when it is
0 and `true` for every other value, negative ones included, by one `sink` of
that text; nothing else is written. -/
theorem boolean_mapping (fuel : Nat) (w : AtomWriter) (size : Nat) (hd : distinct_tags w.forge) :
    (∀ body v, load32 body 0 = some v →
      serialize_atom (fuel + 1) w w.forge.Bool size body
        = .ok (sink w (if v = 0 then lit "false" else lit "true"))) ∧
    (∀ (x : Int) (rest : List Nat), -2147483648 ≤ x → x ≤ 2147483647 →
      serialize_atom (fuel + 1) w w.forge.Bool size (int32_bytes x ++ rest)
        = .ok (sink w (if x = 0 then lit "false" else lit "true"))) ∧
    (∀ txt, txt = lit "false" ∨ txt = lit "true" → w.overflow = false →
      w.len + txt.length < w.cap → contents (sink w txt) = contents w ++ txt) := by
  have key : ∀ body v, load32 body 0 = some v →
      serialize_atom (fuel + 1) w w.forge.Bool size body
        = .ok (sink w (if v = 0 then lit "false" else lit "true")) := by
    intro body v hv
    rw [serialize_atom_bool fuel w size body hd, hv]
    simp only [Outcome.ofRead, Outcome.bind_ok]
    have hz := to_int32_eq_zero v (load32_lt _ _ _ hv)
    by_cases h0 : v = 0
    · rw [if_neg (by rw [ne_eq, not_not, hz]; exact h0), if_pos h0]
      rfl
    · rw [if_pos (by rw [ne_eq, hz]; exact h0), if_neg h0]
      rfl
  refine ⟨key, ?_, ?_⟩
  · intro x rest h1 h2
    rw [key _ _ (load32_int32_bytes x rest)]
    have hx : (x % 4294967296).toNat = 0 ↔ x = 0 := by omega
    by_cases h0 : x = 0
    · rw [if_pos (hx.mpr h0), if_pos h0]
    · rw [if_neg (fun e => h0 (hx.mp e)), if_neg h0]
  · intro txt _ ho hc
    exact sink_fits_contents w txt ho hc

/-- Witness for C13: the bodies 0, 1 and -1 of a Bool atom are written as
`false`, `true` and `true`. -/
theorem boolean_mapping_witness :
    distinct_tags (sample_writer 64).forge ∧
    load32 [0, 0, 0, 0] 0 = some 0 ∧
    serialize_atom (0 + 1) (sample_writer 64) (sample_writer 64).forge.Bool 4 [0, 0, 0, 0]
      = .ok (sink (sample_writer 64) (if (0 : Nat) = 0 then lit "false" else lit "true")) ∧
    serialize_atom (0 + 1) (sample_writer 64) (sample_writer 64).forge.Bool 4 [1, 0, 0, 0]
      = .ok (sink (sample_writer 64) (if (1 : Nat) = 0 then lit "false" else lit "true")) ∧
    serialize_atom (0 + 1) (sample_writer 64) (sample_writer 64).forge.Bool 4
        (int32_bytes (-1) ++ [])
      = .ok (sink (sample_writer 64) (if (-1 : Int) = 0 then lit "false" else lit "true")) ∧
    contents (sink (sample_writer 64) (lit "true")) = lit "true" :=
  ⟨sample_forge_distinct, by decide,
    (boolean_mapping 0 (sample_writer 64) 4 sample_forge_distinct).1 [0, 0, 0, 0] 0
      (by decide),
    (boolean_mapping 0 (sample_writer 64) 4 sample_forge_distinct).1 [1, 0, 0, 0] 1
      (by decide),
    (boolean_mapping 0 (sample_writer 64) 4 sample_forge_distinct).2.1 (-1) [] (by decide)
      (by decide),
    by decide⟩

/-! ## C14: floating point -/

/-- C14, evaluated. The float 1.5 is written as `1.500000`.  The double
`2 ^ 200` (body bytes `00 00 00 00 00 00 70 4C`) has the `%f` text
`1606938044258990275541962092341162602522202993782792835301376.000000` of 68
characters; `snprintf` into `char buf[64]` keeps 63 of them, and the text
appended ends in `.0`, with one digit after the decimal point. -/
theorem float_formatting_cut :
    atom_text sample_forge sample_unmap 1 sample_forge.Float 4 [0, 0, 192, 63]
      = .ok (lit "1.500000") ∧
    load64 [0, 0, 0, 0, 0, 0, 112, 76] 0 = some 5507902344274116608 ∧
    fmt_f 11 52 5507902344274116608
      = lit "1606938044258990275541962092341162602522202993782792835301376.000000" ∧
    (fmt_f 11 52 5507902344274116608).length = 68 ∧
    atom_text sample_forge sample_unmap 1 sample_forge.Double 8 [0, 0, 0, 0, 0, 0, 112, 76]
      = .ok (lit "1606938044258990275541962092341162602522202993782792835301376.0") ∧
    (serialize_atom 1 (sample_writer 128) sample_forge.Double 8
        [0, 0, 0, 0, 0, 0, 112, 76]).map contents
      = .ok (lit "1606938044258990275541962092341162602522202993782792835301376.0") := by
  refine ⟨?_, ?_, ?_, ?_, ?_, ?_⟩
  · set_option maxRecDepth 100000 in decide
  · decide
  · set_option maxRecDepth 100000 in decide
  · set_option maxRecDepth 100000 in decide
  · set_option maxRecDepth 100000 in decide
  · set_option maxRecDepth 100000 in decide

/-! ## C15: paths -/

theorem body_string_of_terminated (p rest : List Nat) :
    body_string (p ++ 0 :: rest) = .ok (some (p ++ 0 :: rest)) := by
  unfold body_string
  rw [if_pos (by simp)]

/-- C15. For an atom whose type tag is the forge's Path tag, reaches the Path
arm (it equals none of the tags tested before and is not an object type) and
whose body is the NUL-terminated string `p`, the text is `{"#path":` followed
by the escaped, quoted `p` and `}`; `p` is not checked or rewritten; a sink
with room gets that text appended. -/
theorem path_encoding (fuel : Nat) (w : AtomWriter) (size : Nat) (p rest : List Nat)
    (hp : ∀ b, b ∈ p → b ≠ 0)
    (h0 : ¬ (w.forge.Path = 0 ∧ size = 0))
    (h1 : w.forge.Path ≠ w.forge.String) (h2 : w.forge.Path ≠ w.forge.URID)
    (h3 : w.forge.Path ≠ w.forge.URI) (h4 : w.forge.Path ≠ w.forge.Int)
    (h5 : w.forge.Path ≠ w.forge.Long) (h6 : w.forge.Path ≠ w.forge.Float)
    (h7 : w.forge.Path ≠ w.forge.Double) (h8 : w.forge.Path ≠ w.forge.Bool)
    (h9 : w.forge.Path ≠ w.forge.Vector)
    (h10 : lv2_atom_forge_is_object_type w.forge w.forge.Path = false) :
    atom_text w.forge w.unmap (fuel + 1) w.forge.Path size (p ++ 0 :: rest)
      = .ok (lit "\x7b\"#path\":" ++ escaped p ++ [125]) ∧
    (w.overflow = false → w.len + (lit "\x7b\"#path\":" ++ escaped p ++ [125]).length < w.cap →
      ∃ w', serialize_atom (fuel + 1) w w.forge.Path size (p ++ 0 :: rest) = .ok w' ∧
        contents w' = contents w ++ (lit "\x7b\"#path\":" ++ escaped p ++ [125]) ∧
        w'.overflow = false) := by
  have h10' : ¬ (lv2_atom_forge_is_object_type w.forge w.forge.Path = true) := by simp [h10]
  obtain ⟨p1, hp1, hp1f⟩ := begin_object_pieces_flatten (lit "#path")
  obtain ⟨p2, hp2, hp2f⟩ := escape_pieces_flatten (p ++ 0 :: rest)
  rw [cstr_append_zero p rest hp] at hp2f
  have hkey : [123] ++ escaped (cstr (lit "#path")) ++ [58] = lit "\x7b\"#path\":" := by decide
  have htext : atom_text w.forge w.unmap (fuel + 1) w.forge.Path size (p ++ 0 :: rest)
      = .ok (lit "\x7b\"#path\":" ++ escaped p ++ [125]) := by
    rw [atom_text, atom_pieces, if_neg h0, if_neg h1, if_neg h2, if_neg h3, if_neg h4,
      if_neg h5, if_neg h6, if_neg h7, if_neg h8, if_neg h9, if_neg h10', if_pos rfl, hp1,
      body_string_of_terminated]
    simp only [Outcome.bind_ok, hp2, Outcome.map_ok, Outcome.ok.injEq, List.flatten_append,
      hp1f, hp2f, hkey]
    simp
  refine ⟨htext, fun ho hc => ?_⟩
  obtain ⟨w', e1, e2, -, e4⟩ := serialize_atom_appends _ w _ _ _ _ htext ho hc
  exact ⟨w', e1, e2, e4⟩

/-- Witness for C15: the path `/A` is written as `{"#path":"/A"}`. -/
theorem path_encoding_witness :
    (∀ b, b ∈ lit "/A" → b ≠ 0) ∧
    lv2_atom_forge_is_object_type (sample_writer 64).forge (sample_writer 64).forge.Path
      = false ∧
    atom_text (sample_writer 64).forge (sample_writer 64).unmap (0 + 1)
        (sample_writer 64).forge.Path 3 (lit "/A" ++ 0 :: [])
      = .ok (lit "\x7b\"#path\":" ++ escaped (lit "/A") ++ [125]) ∧
    lit "\x7b\"#path\":" ++ escaped (lit "/A") ++ [125] = lit "\x7b\"#path\":\"/A\"\x7d" :=
  ⟨by decide, by decide,
    (path_encoding 0 (sample_writer 64) 3 (lit "/A") [] (by decide) (by decide) (by decide)
      (by decide) (by decide) (by decide) (by decide) (by decide) (by decide) (by decide)
      (by decide) (by decide)).1,
    by decide⟩

/-! ## C16: the header is cut to 255 bytes -/

/-- The text of a record is what a sink with room for it gets appended, and
the call returns 0. -/
theorem atom_writer_format_appends (fuel : Nat) (w : AtomWriter) (inst : Int)
    (symbol : List Nat) (type_urid size : Nat) (body txt : List Nat)
    (h : format_text w.forge w.unmap fuel inst symbol type_urid size body = .ok txt)
    (ho : w.overflow = false) (hc : w.len + txt.length < w.cap) :
    ∃ w', atom_writer_format fuel w inst symbol type_urid size body = .ok (w', 0) ∧
      contents w' = contents w ++ txt ∧ w'.len = w.len + txt.length ∧
      w'.overflow = false := by
  obtain ⟨ps, hps, hfl⟩ := Outcome.map_eq_ok h
  rw [← hfl] at hc
  obtain ⟨h1, h2, h3⟩ := sink_all_fits w ps ho hc
  refine ⟨sink_all w ps, ?_, by rw [h3, hfl], by rw [h2, hfl], h1⟩
  rw [atom_writer_format_eq, hps, Outcome.map_ok, h1]
  rfl

theorem full_header_nul_free (inst : Int) (symbol : List Nat)
    (hs : ∀ b, b ∈ symbol → b ≠ 0) : ∀ b, b ∈ full_header inst symbol → b ≠ 0 := by
  intro b hb
  simp only [full_header, List.mem_append, List.mem_singleton] at hb
  rcases hb with (((hb | hb) | hb) | hb) | hb
  · exact lit_atom_nul_free b hb
  · exact fmt_d_nul_free inst b hb
  · omega
  · exact hs b hb
  · omega

theorem header_eq_take (inst : Int) (symbol : List Nat) (hs : ∀ b, b ∈ symbol → b ≠ 0) :
    header inst symbol = (full_header inst symbol).take 255 := by
  rw [header, cstr_of_nul_free symbol hs, full_header]

theorem string_pieces_header (inst : Int) (symbol : List Nat)
    (hs : ∀ b, b ∈ symbol → b ≠ 0) :
    string_pieces (header inst symbol) = [(full_header inst symbol).take 255] := by
  rw [string_pieces, take_strlen, header_eq_take inst symbol hs]
  rw [cstr_of_nul_free _ (fun b hb => full_header_nul_free inst symbol hs b
    (List.mem_of_mem_take hb))]

/-- C16. The header `atom_writer_format` appends is the text
`atom <instance> <symbol> ` when that has at most 255 bytes, and its first 255
bytes otherwise; the wrapper object that follows is keyed by the complete
escaped symbol.  The cut raises no error and no overflow: a sink with room for
the record so formed gets it appended, and the call returns 0. -/
theorem header_truncation (inst : Int) (symbol : List Nat)
    (hs : ∀ b, b ∈ symbol → b ≠ 0) :
    header inst symbol = (full_header inst symbol).take 255 ∧
    ((full_header inst symbol).length ≤ 255 → header inst symbol = full_header inst symbol) ∧
    (∀ (fuel : Nat) (w : AtomWriter) (type_urid size : Nat) (body enc : List Nat),
      atom_text w.forge w.unmap fuel type_urid size body = .ok enc →
      format_text w.forge w.unmap fuel inst symbol type_urid size body
        = .ok ((full_header inst symbol).take 255 ++ [123] ++ escaped symbol ++ [58] ++ enc
            ++ [125, 10]) ∧
      (w.overflow = false →
        w.len + ((full_header inst symbol).take 255 ++ [123] ++ escaped symbol ++ [58] ++ enc
            ++ [125, 10]).length < w.cap →
        ∃ w', atom_writer_format fuel w inst symbol type_urid size body = .ok (w', 0) ∧
          contents w' = contents w ++ ((full_header inst symbol).take 255 ++ [123]
            ++ escaped symbol ++ [58] ++ enc ++ [125, 10]) ∧
          w'.overflow = false)) := by
  refine ⟨header_eq_take inst symbol hs, ?_, ?_⟩
  · intro hl
    rw [header_eq_take inst symbol hs, List.take_of_length_le hl]
  · intro fuel w t size body enc he
    obtain ⟨p3, hp3, hfl3⟩ := Outcome.map_eq_ok he
    obtain ⟨p2, hp2, hfl2⟩ := begin_object_pieces_flatten symbol
    rw [cstr_of_nul_free symbol hs] at hfl2
    have htext : format_text w.forge w.unmap fuel inst symbol t size body
        = .ok ((full_header inst symbol).take 255 ++ [123] ++ escaped symbol ++ [58] ++ enc
            ++ [125, 10]) := by
      simp only [format_text, format_pieces, hp2, hp3, Outcome.bind_ok, Outcome.map_ok,
        string_pieces_header inst symbol hs, Outcome.ok.injEq, List.flatten_append, hfl2,
        hfl3]
      simp
    refine ⟨htext, fun ho hc => ?_⟩
    obtain ⟨w', e1, e2, -, e4⟩ := atom_writer_format_appends _ w _ _ _ _ _ _ htext ho hc
    exact ⟨w', e1, e2, e4⟩

/-- Witness for C16: with instance 0 and a symbol of 248 letters the header
text has 256 bytes and the header appended 255; the short header of `gain` is
appended whole. -/
theorem header_truncation_witness :
    (∀ b, b ∈ List.replicate 248 97 → b ≠ 0) ∧
    (full_header 0 (List.replicate 248 97)).length = 256 ∧
    (header 0 (List.replicate 248 97)).length = 255 ∧
    header 0 (List.replicate 248 97) = (full_header 0 (List.replicate 248 97)).take 255 ∧
    (full_header 3 (lit "gain")).length ≤ 255 ∧
    header 3 (lit "gain") = full_header 3 (lit "gain") ∧
    full_header 3 (lit "gain") = lit "atom 3 gain " := by
  have hs : ∀ b, b ∈ List.replicate 248 97 → b ≠ 0 :=
    fun b hb => by rw [List.eq_of_mem_replicate hb]; decide
  have h1 : (full_header 0 (List.replicate 248 97)).length = 256 := by
    rw [full_header]
    simp only [List.length_append, List.length_replicate]
    decide
  have h := header_truncation 0 (List.replicate 248 97) hs
  refine ⟨hs, h1, ?_, h.1, by decide,
    (header_truncation 3 (lit "gain") (by decide)).2.1 (by decide), by decide⟩
  rw [h.1, List.length_take, h1]
  rfl

/-! ## C17: append only -/

theorem sink_all_appends_part (w : AtomWriter) (ps : List (List Nat)) :
    appends_part w (sink_all w ps) ps.flatten := by
  induction ps generalizing w with
  | nil => exact ⟨[], List.prefix_refl _, by simp, by simp, fun _ _ => rfl, fun _ => rfl⟩
  | cons p ps ih =>
    by_cases ho : w.overflow = true
    · rw [sink_all_of_overflow w _ ho]
      exact ⟨[], List.nil_prefix, by simp, by simp, fun _ _ => rfl,
        fun h => by rw [ho] at h; cases h⟩
    · have ho' : w.overflow = false := by simpa using ho
      by_cases hne : p = []
      · subst hne
        simpa using ih w
      · by_cases hc : w.len + p.length < w.cap
        · obtain ⟨t, ht1, ht2, ht3, ht4, ht5⟩ := ih (sink w p)
          have e1 := sink_fits_len w p ho' hc
          have e2 := sink_fits_contents w p ho' hc
          refine ⟨p ++ t, ?_, ?_, ?_, ?_, ?_⟩
          · rw [List.flatten_cons]
            exact (List.prefix_append_right_inj p).mpr ht1
          · rw [sink_all_cons, ht2, e2, List.append_assoc]
          · rw [sink_all_cons, ht3, e1, List.length_append]; omega
          · intro i hi
            rw [sink_all_cons, ht4 i (by rw [e1]; omega), sink_fits_buf_low w p i hi]
          · intro h
            rw [List.flatten_cons, ht5 h]
        · have e := sink_full w p ho' hne (Nat.le_of_not_lt hc)
          rw [sink_all_cons, e, sink_all_of_overflow _ _ rfl]
          exact ⟨[], List.nil_prefix, by simp [contents], by simp, fun _ _ => rfl,
            fun h => by cases h⟩

/-- C17. For every starting writer state, after `sink`, `sink_string`,
`sink_escape`, `serialize_atom` and `atom_writer_format` the buffer holds what
it held before followed by an initial part of the text the operation hands to
an unbounded sink: the old bytes are not modified, the length does not
decrease, and the whole text has been appended when the overflow flag is clear
afterwards; a sink with room for the text gets all of it. -/
theorem append_only :
    (∀ w bytes, appends_part w (sink w bytes) bytes) ∧
    (∀ w str, appends_part w (sink_string w str) (cstr str)) ∧
    (∀ w str w', sink_escape w str = .ok w' →
      ∃ txt, escape_text str = .ok txt ∧ appends_part w w' txt) ∧
    (∀ fuel w type_urid size body w', serialize_atom fuel w type_urid size body = .ok w' →
      ∃ txt, atom_text w.forge w.unmap fuel type_urid size body = .ok txt ∧
        appends_part w w' txt) ∧
    (∀ fuel w inst symbol type_urid size body w' r,
      atom_writer_format fuel w inst symbol type_urid size body = .ok (w', r) →
      ∃ txt, format_text w.forge w.unmap fuel inst symbol type_urid size body = .ok txt ∧
        appends_part w w' txt) ∧
    (∀ w w' txt, appends_part w w' txt → w.len ≤ w'.len) ∧
    (∀ fuel w type_urid size body txt,
      atom_text w.forge w.unmap fuel type_urid size body = .ok txt → w.overflow = false →
      w.len + txt.length < w.cap →
      ∃ w', serialize_atom fuel w type_urid size body = .ok w' ∧
        contents w' = contents w ++ txt) ∧
    (∀ fuel w inst symbol type_urid size body txt,
      format_text w.forge w.unmap fuel inst symbol type_urid size body = .ok txt →
      w.overflow = false → w.len + txt.length < w.cap →
      ∃ w', atom_writer_format fuel w inst symbol type_urid size body = .ok (w', 0) ∧
        contents w' = contents w ++ txt) := by
  refine ⟨?_, ?_, ?_, ?_, ?_, ?_, ?_, ?_⟩
  · intro w bytes
    have h := sink_all_appends_part w [bytes]
    simpa using h
  · intro w str
    have h := sink_all_appends_part w (string_pieces str)
    simpa [string_pieces, take_strlen, sink_string] using h
  · intro w str w' hw
    rw [sink_escape_eq] at hw
    obtain ⟨ps, hps, rfl⟩ := Outcome.map_eq_ok hw
    exact ⟨ps.flatten, by rw [escape_text, hps, Outcome.map_ok], sink_all_appends_part w ps⟩
  · intro fuel w t size body w' hw
    rw [serialize_atom_eq] at hw
    obtain ⟨ps, hps, rfl⟩ := Outcome.map_eq_ok hw
    exact ⟨ps.flatten, by rw [atom_text, hps, Outcome.map_ok], sink_all_appends_part w ps⟩
  · intro fuel w inst symbol t size body w' r hw
    rw [atom_writer_format_eq] at hw
    obtain ⟨ps, hps, hp⟩ := Outcome.map_eq_ok hw
    have e : sink_all w ps = w' := congrArg Prod.fst hp
    rw [← e]
    exact ⟨ps.flatten, by rw [format_text, hps, Outcome.map_ok], sink_all_appends_part w ps⟩
  · rintro w w' txt ⟨t, -, -, h3, -, -⟩
    omega
  · intro fuel w t size body txt h ho hc
    obtain ⟨w', e1, e2, -, -⟩ := serialize_atom_appends fuel w t size body txt h ho hc
    exact ⟨w', e1, e2⟩
  · intro fuel w inst symbol t size body txt h ho hc
    obtain ⟨w', e1, e2, -, -⟩ :=
      atom_writer_format_appends fuel w inst symbol t size body txt h ho hc
    exact ⟨w', e1, e2⟩

/-- Witness for C17: on a writer of capacity 16 the record of `gain` overflows;
the call returns, and the buffer holds an initial part of the record text. -/
theorem append_only_witness :
    (atom_writer_format 1 (sample_writer 16) 3 (lit "gain") 5 4 [10, 0, 0, 0]).map
      (fun p => (contents p.1, p.1.overflow)) = .ok (lit "atom 3 gain \x7b\"", true) ∧
    format_text (sample_writer 16).forge (sample_writer 16).unmap 1 3 (lit "gain") 5 4
      [10, 0, 0, 0] = .ok (lit "atom 3 gain \x7b\"gain\":10\x7d\n") ∧
    (∀ w' r, atom_writer_format 1 (sample_writer 16) 3 (lit "gain") 5 4 [10, 0, 0, 0]
        = .ok (w', r) →
      ∃ txt, format_text (sample_writer 16).forge (sample_writer 16).unmap 1 3 (lit "gain")
          5 4 [10, 0, 0, 0] = .ok txt ∧ appends_part (sample_writer 16) w' txt) :=
  ⟨by decide, by decide,
    fun w' r h => append_only.2.2.2.2.1 1 (sample_writer 16) 3 (lit "gain") 5 4 [10, 0, 0, 0]
      w' r h⟩

/-! ## C18: no reset between records -/

theorem format_keeps_services (fuel : Nat) (w : AtomWriter) (inst : Int) (symbol : List Nat)
    (type_urid size : Nat) (body : List Nat) (w' : AtomWriter) (r : Int)
    (h : atom_writer_format fuel w inst symbol type_urid size body = .ok (w', r)) :
    w'.forge = w.forge ∧ w'.unmap = w.unmap ∧ w'.cap = w.cap :=
  (all_operations_of_sink_all
    (fun w w' => w'.forge = w.forge ∧ w'.unmap = w.unmap ∧ w'.cap = w.cap)
    (fun w ps => ⟨sink_all_forge w ps, sink_all_unmap w ps, sink_all_cap w ps⟩)).2.2.2.2
      fuel w inst symbol type_urid size body w' r h

theorem format_result_pieces (fuel : Nat) (w : AtomWriter) (inst : Int) (symbol : List Nat)
    (type_urid size : Nat) (body : List Nat) (w' : AtomWriter) (r : Int)
    (h : atom_writer_format fuel w inst symbol type_urid size body = .ok (w', r)) :
    ∃ ps, format_pieces w.forge w.unmap fuel inst symbol type_urid size body = .ok ps ∧
      w' = sink_all w ps ∧ (r = -1 ↔ w'.overflow = true) ∧ (r = 0 ↔ w'.overflow = false) := by
  rw [atom_writer_format_eq] at h
  obtain ⟨ps, hps, hp⟩ := Outcome.map_eq_ok h
  simp only [Prod.mk.injEq] at hp
  obtain ⟨hw, hr⟩ := hp
  subst hw
  refine ⟨ps, hps, rfl, ?_, ?_⟩
  · rw [← hr]
    split_ifs with ho
    · simp [ho]
    · simp [ho]
  · rw [← hr]
    split_ifs with ho
    · simp [ho]
    · simpa using ho

theorem format_appends_part (fuel : Nat) (w : AtomWriter) (inst : Int) (symbol : List Nat)
    (type_urid size : Nat) (body : List Nat) (w' : AtomWriter) (r : Int)
    (h : atom_writer_format fuel w inst symbol type_urid size body = .ok (w', r)) :
    ∃ txt, format_text w.forge w.unmap fuel inst symbol type_urid size body = .ok txt ∧
      appends_part w w' txt := by
  obtain ⟨ps, hps, rfl, -, -⟩ := format_result_pieces _ _ _ _ _ _ _ _ _ h
  exact ⟨ps.flatten, by rw [format_text, hps, Outcome.map_ok], sink_all_appends_part w ps⟩

theorem format_text_newline (forge : Forge) (unmap : Nat → Option (List Nat)) (fuel : Nat)
    (inst : Int) (symbol : List Nat) (type_urid size : Nat) (body txt : List Nat)
    (h : format_text forge unmap fuel inst symbol type_urid size body = .ok txt) :
    ∃ init, txt = init ++ [10] := by
  obtain ⟨ps, hps, rfl⟩ := Outcome.map_eq_ok h
  obtain ⟨p2, -, hps⟩ := Outcome.bind_eq_ok hps
  obtain ⟨p3, -, rfl⟩ := Outcome.map_eq_ok hps
  exact ⟨(string_pieces (header inst symbol)).flatten ++ p2.flatten ++ p3.flatten ++ [125],
    by simp⟩

/-- C18. `atom_writer_format` resets neither the length nor the overflow
flag.  Of two calls in sequence on a freshly initialised writer that return:
when both give 0 the buffer holds the first record followed by the second,
each ending in a newline; when the first gives -1 the second gives -1 and
leaves the writer as it was. -/
theorem no_reset (f1 f2 : Nat) (w0 : AtomWriter) (forge : Forge)
    (unmap : Nat → Option (List Nat)) (i1 i2 : Int) (sym1 sym2 : List Nat)
    (t1 s1 t2 s2 : Nat) (b1 b2 : List Nat) (w1 w2 : AtomWriter) (r1 r2 : Int)
    (h1 : atom_writer_format f1 (atom_writer_init w0 forge unmap) i1 sym1 t1 s1 b1
      = .ok (w1, r1))
    (h2 : atom_writer_format f2 w1 i2 sym2 t2 s2 b2 = .ok (w2, r2)) :
    (r1 = 0 → r2 = 0 → ∃ rec1 rec2,
      format_text forge unmap f1 i1 sym1 t1 s1 b1 = .ok (rec1 ++ [10]) ∧
      format_text forge unmap f2 i2 sym2 t2 s2 b2 = .ok (rec2 ++ [10]) ∧
      contents w1 = rec1 ++ [10] ∧
      contents w2 = (rec1 ++ [10]) ++ (rec2 ++ [10])) ∧
    (r1 = -1 → r2 = -1 ∧ w2 = w1) ∧
    w1.len ≤ w2.len ∧ (w1.overflow = true → w2.overflow = true) := by
  obtain ⟨ps1, -, -, a1, a2⟩ := format_result_pieces _ _ _ _ _ _ _ _ _ h1
  obtain ⟨ps2, -, e2, c1, c2⟩ := format_result_pieces _ _ _ _ _ _ _ _ _ h2
  have c4 : w1.overflow = true → w2 = w1 := fun ho => by
    rw [e2, sink_all_of_overflow w1 ps2 ho]
  have c3 : w1.overflow = true → r2 = -1 := fun ho => by
    rw [c1, c4 ho]; exact ho
  obtain ⟨txt1, ht1, t, -, p2, -, -, p5⟩ := format_appends_part _ _ _ _ _ _ _ _ _ h1
  obtain ⟨txt2, ht2, u, -, q2, q3, -, q5⟩ := format_appends_part _ _ _ _ _ _ _ _ _ h2
  obtain ⟨k1, k2, -⟩ := format_keeps_services _ _ _ _ _ _ _ _ _ h1
  have k1' : w1.forge = forge := k1
  have k2' : w1.unmap = unmap := k2
  rw [k1', k2'] at ht2
  have ht1' : format_text forge unmap f1 i1 sym1 t1 s1 b1 = .ok txt1 := ht1
  refine ⟨?_, ?_, by omega, ?_⟩
  · intro hr1 hr2
    obtain ⟨rec1, e1⟩ := format_text_newline _ _ _ _ _ _ _ _ _ ht1'
    obtain ⟨rec2, e2⟩ := format_text_newline _ _ _ _ _ _ _ _ _ ht2
    have ho1 := a2.mp hr1
    have ho2 := c2.mp hr2
    have et := p5 ho1
    have eu := q5 ho2
    subst et eu
    rw [contents_atom_writer_init, List.nil_append] at p2
    refine ⟨rec1, rec2, by rw [ht1', e1], by rw [ht2, e2], by rw [p2, e1], ?_⟩
    rw [q2, p2, e1, e2]
  · intro hr1
    have ho1 := a1.mp hr1
    exact ⟨c3 ho1, c4 ho1⟩
  · intro ho1
    exact c1.mp (c3 ho1)

/-- Witness for C18: two records written in sequence on a writer of capacity
64 leave both lines in the buffer; on a writer of capacity 16 the first call
overflows and the second appends nothing. -/
theorem no_reset_witness :
    ((atom_writer_format 1 (sample_writer 64) 3 (lit "gain") 5 4 [10, 0, 0, 0]).bind
      (fun p => (atom_writer_format 1 p.1 4 (lit "x") 0 0 []).map
        (fun q => (p.2, q.2, contents q.1))))
      = .ok (0, 0, lit "atom 3 gain \x7b\"gain\":10\x7d\natom 4 x \x7b\"x\":null\x7d\n") ∧
    ((atom_writer_format 1 (sample_writer 16) 3 (lit "gain") 5 4 [10, 0, 0, 0]).bind
      (fun p => (atom_writer_format 1 p.1 4 (lit "x") 0 0 []).map
        (fun q => (p.2, q.2, contents p.1, contents q.1))))
      = .ok (-1, -1, lit "atom 3 gain \x7b\"", lit "atom 3 gain \x7b\"") ∧
    (∀ w1 r1 w2 r2,
      atom_writer_format 1 (sample_writer 16) 3 (lit "gain") 5 4 [10, 0, 0, 0] = .ok (w1, r1) →
      atom_writer_format 1 w1 4 (lit "x") 0 0 [] = .ok (w2, r2) →
      (r1 = -1 → r2 = -1 ∧ w2 = w1)) :=
  ⟨by decide, by decide,
    fun w1 r1 w2 r2 h1 h2 =>
      (no_reset 1 1 ⟨sample_unmap, sample_forge, 16, fun _ => 255, 7, true⟩ sample_forge
        sample_unmap 3 4 (lit "gain") (lit "x") 5 4 0 0 [10, 0, 0, 0] [] w1 w2 r1 r2 h1 h2).2.1⟩

/-! ## C19: success exactly when the record fits -/

theorem sink_all_overflow_iff (w : AtomWriter) (ps : List (List Nat))
    (ho : w.overflow = false) :
    (sink_all w ps).overflow = false ↔
      (ps.flatten = [] ∨ w.len + ps.flatten.length < w.cap) := by
  induction ps generalizing w with
  | nil => simp [ho]
  | cons p ps ih =>
    by_cases hne : p = []
    · subst hne
      simpa using ih w ho
    · have hpos : 0 < p.length := List.length_pos.mpr hne
      by_cases hc : w.len + p.length < w.cap
      · have e1 := sink_fits_len w p ho hc
        have e2 := sink_fits_overflow w p ho hc
        rw [sink_all_cons, ih (sink w p) e2, e1, sink_cap]
        simp only [List.flatten_cons, List.append_eq_nil, hne, false_and, false_or,
          List.length_append]
        constructor
        · rintro (h | h)
          · rw [h]; simpa using hc
          · omega
        · intro h
          right; omega
      · rw [sink_all_cons, sink_full w p ho hne (Nat.le_of_not_lt hc),
          sink_all_of_overflow _ _ rfl]
        simp only [List.flatten_cons, List.append_eq_nil, hne, false_and, false_or,
          List.length_append]
        constructor
        · intro h; cases h
        · intro h; omega

theorem sink_all_overflowed (w : AtomWriter) (ps : List (List Nat))
    (ho : w.overflow = false) (h : (sink_all w ps).overflow = true) :
    ∃ t, t <+: ps.flatten ∧ t.length < ps.flatten.length ∧
      contents (sink_all w ps) = contents w ++ t := by
  induction ps generalizing w with
  | nil => rw [sink_all_nil, ho] at h; cases h
  | cons p ps ih =>
    by_cases hne : p = []
    · subst hne
      simpa using ih w ho (by simpa using h)
    · have hpos : 0 < p.length := List.length_pos.mpr hne
      by_cases hc : w.len + p.length < w.cap
      · have e2 := sink_fits_overflow w p ho hc
        have e3 := sink_fits_contents w p ho hc
        obtain ⟨t, ht1, ht2, ht3⟩ := ih (sink w p) e2 h
        refine ⟨p ++ t, ?_, ?_, ?_⟩
        · rw [List.flatten_cons]
          exact (List.prefix_append_right_inj p).mpr ht1
        · simp only [List.flatten_cons, List.length_append]; omega
        · rw [sink_all_cons, ht3, e3, List.append_assoc]
      · refine ⟨[], List.nil_prefix, ?_, ?_⟩
        · simp only [List.flatten_cons, List.length_append, List.length_nil]; omega
        · rw [sink_all_cons, sink_full w p ho hne (Nat.le_of_not_lt hc),
            sink_all_of_overflow _ _ rfl]
          simp [contents]

/-- C19 (amended). For a writer with the overflow flag clear, length `L` and
capacity `C`, a call of `atom_writer_format` that returns, the complete record
text having length `R`, gives 0 exactly when `L + R < C`; then the buffer holds
the old contents followed by the complete record, which ends in its newline.
When it gives -1 the buffer holds the old contents followed by a strict
initial part of the record that stops before the record's final newline; that
part does not end in a newline when the record holds no other newline byte. -/
theorem format_fits (fuel : Nat) (w : AtomWriter) (inst : Int) (symbol : List Nat)
    (type_urid size : Nat) (body : List Nat) (w' : AtomWriter) (r : Int)
    (ho : w.overflow = false)
    (h : atom_writer_format fuel w inst symbol type_urid size body = .ok (w', r)) :
    ∃ line, format_text w.forge w.unmap fuel inst symbol type_urid size body
        = .ok (line ++ [10]) ∧
      (r = 0 ↔ w.len + (line ++ [10]).length < w.cap) ∧
      (r = 0 → contents w' = contents w ++ (line ++ [10])) ∧
      (r = -1 → ∃ t, t <+: line ∧ contents w' = contents w ++ t ∧
        ((∀ b, b ∈ line → b ≠ 10) → ∀ t', t ≠ t' ++ [10])) := by
  obtain ⟨ps, hps, hw, a1, a2⟩ := format_result_pieces _ _ _ _ _ _ _ _ _ h
  have htxt : format_text w.forge w.unmap fuel inst symbol type_urid size body
      = .ok ps.flatten := by rw [format_text, hps, Outcome.map_ok]
  obtain ⟨line, hline⟩ := format_text_newline _ _ _ _ _ _ _ _ _ htxt
  have hiff := sink_all_overflow_iff w ps ho
  rw [hline] at hiff
  simp only [List.append_eq_nil, List.cons_ne_nil, and_false, false_or] at hiff
  refine ⟨line, by rw [htxt, hline], ?_, ?_, ?_⟩
  · rw [a2, hw, hiff]
  · intro hr
    have hov := a2.mp hr
    rw [hw] at hov ⊢
    have hfit := (sink_all_fits w ps ho (by rw [hline]; exact hiff.mp hov)).2.2
    rw [hfit, hline]
  · intro hr
    have hov := a1.mp hr
    rw [hw] at hov ⊢
    obtain ⟨t, ht1, ht2, ht3⟩ := sink_all_overflowed w ps ho hov
    rw [hline] at ht1 ht2
    have htl : t <+: line := by
      rcases List.prefix_concat_iff.mp ht1 with e | e
      · rw [e] at ht2; omega
      · exact e
    refine ⟨t, htl, ht3, ?_⟩
    intro hb t' e
    have hm : (10 : Nat) ∈ t := by rw [e]; simp
    exact hb 10 (htl.subset hm) rfl

/-- Witness for C19: the record of `gain` with the Int 10 has 24 bytes; on a
fresh writer of capacity 25 the call returns 0, on one of capacity 24 it
returns -1 and the buffer holds the record without its newline. -/
theorem format_fits_witness :
    (sample_writer 24).overflow = false ∧
    (atom_writer_format 1 (sample_writer 25) 3 (lit "gain") 5 4 [10, 0, 0, 0]).map
      (fun p => (p.2, contents p.1)) = .ok (0, lit "atom 3 gain \x7b\"gain\":10\x7d\n") ∧
    (atom_writer_format 1 (sample_writer 24) 3 (lit "gain") 5 4 [10, 0, 0, 0]).map
      (fun p => (p.2, contents p.1)) = .ok (-1, lit "atom 3 gain \x7b\"gain\":10\x7d") ∧
    (∀ w' r, atom_writer_format 1 (sample_writer 24) 3 (lit "gain") 5 4 [10, 0, 0, 0]
        = .ok (w', r) →
      ∃ line, format_text (sample_writer 24).forge (sample_writer 24).unmap 1 3 (lit "gain")
          5 4 [10, 0, 0, 0] = .ok (line ++ [10]) ∧
        (r = 0 ↔ (sample_writer 24).len + (line ++ [10]).length < (sample_writer 24).cap)) := by
  refine ⟨rfl, by decide, by decide, fun w' r h => ?_⟩
  obtain ⟨line, h1, h2, -, -⟩ :=
    format_fits 1 (sample_writer 24) 3 (lit "gain") 5 4 [10, 0, 0, 0] w' r rfl h
  exact ⟨line, h1, h2⟩

/-- Counterexample for C19: the record of `gain` with the String `hi` followed
by a newline byte, on a fresh writer of capacity 25: the closing quote of the
string does not fit, the call returns -1, and the buffer, a strict initial
part of the record, ends in the newline byte of the string. -/
theorem format_fits_counterexample :
    (sample_writer 25).overflow = false ∧
    format_text (sample_writer 25).forge (sample_writer 25).unmap 1 3 (lit "gain") 10 4
      [104, 105, 10, 0] = .ok (lit "atom 3 gain \x7b\"gain\":\"hi\n\"\x7d\n") ∧
    (atom_writer_format 1 (sample_writer 25) 3 (lit "gain") 10 4 [104, 105, 10, 0]).map
      (fun p => (p.2, contents p.1))
      = .ok (-1, lit "atom 3 gain \x7b\"gain\":\"hi" ++ [10]) := by
  refine ⟨rfl, by decide, by decide⟩

/-! ## C20: the escaping can be undone -/

theorem unescape_cons_plain (c : Nat) (l : List Nat) (hc : c ≠ 92) :
    unescape (c :: l) = c :: unescape l := by
  cases l with
  | nil => rfl
  | cons d r => rw [unescape, if_neg hc]

theorem unescape_flatMap (s : List Nat) : unescape (s.flatMap escape_byte) = s := by
  induction s with
  | nil => rfl
  | cons c s ih =>
    rw [List.flatMap_cons]
    by_cases hc : c = 34 ∨ c = 92
    · have e : escape_byte c = [92, c] := by simp [escape_byte, hc]
      rw [e]
      show unescape (92 :: c :: s.flatMap escape_byte) = c :: s
      rw [unescape, if_pos rfl, ih]
    · have e : escape_byte c = [c] := by simp [escape_byte, hc]
      rw [e]
      show unescape (c :: s.flatMap escape_byte) = c :: s
      rw [unescape_cons_plain c _ (fun h => hc (Or.inr h)), ih]

theorem read_string_quote (rest : List Nat) : read_string (34 :: rest) = some ([], rest) := by
  cases rest with
  | nil => rfl
  | cons d r => rw [read_string, if_pos rfl]

theorem read_string_escape (d : Nat) (l : List Nat) :
    read_string (92 :: d :: l) = (read_string l).map (fun p => (d :: p.1, p.2)) := by
  rw [read_string, if_neg (by decide), if_pos rfl]

theorem read_string_plain (c d : Nat) (l : List Nat) (h1 : c ≠ 34) (h2 : c ≠ 92) :
    read_string (c :: d :: l) = (read_string (d :: l)).map (fun p => (c :: p.1, p.2)) := by
  rw [read_string, if_neg h1, if_neg h2]

theorem read_string_flatMap (s rest : List Nat) :
    read_string (s.flatMap escape_byte ++ 34 :: rest) = some (s, rest) := by
  induction s with
  | nil => exact read_string_quote rest
  | cons c s ih =>
    rw [List.flatMap_cons]
    by_cases hc : c = 34 ∨ c = 92
    · have e : escape_byte c = [92, c] := by simp [escape_byte, hc]
      rw [e]
      show read_string (92 :: c :: (s.flatMap escape_byte ++ 34 :: rest)) = _
      rw [read_string_escape, ih]
      rfl
    · have e : escape_byte c = [c] := by simp [escape_byte, hc]
      rw [e]
      show read_string (c :: (s.flatMap escape_byte ++ 34 :: rest)) = _
      obtain ⟨d, l, hdl⟩ : ∃ d l, s.flatMap escape_byte ++ 34 :: rest = d :: l := by
        cases h : s.flatMap escape_byte ++ 34 :: rest with
        | nil => simp at h
        | cons d l => exact ⟨d, l, rfl⟩
      rw [hdl, read_string_plain c d l (fun h => hc (Or.inl h)) (fun h => hc (Or.inr h)),
        ← hdl, ih]
      rfl

theorem quote_after_backslash (s : List Nat) :
    ∀ a b, s.flatMap escape_byte = a ++ 34 :: b → ∃ a', a = a' ++ [92] := by
  induction s with
  | nil =>
    intro a b h
    simp at h
  | cons c s ih =>
    intro a b h
    rw [List.flatMap_cons] at h
    by_cases hc : c = 34 ∨ c = 92
    · have e : escape_byte c = [92, c] := by simp [escape_byte, hc]
      rw [e] at h
      cases a with
      | nil => simp at h
      | cons x a1 =>
        cases a1 with
        | nil =>
          simp only [List.cons_append, List.nil_append, List.cons.injEq] at h
          exact ⟨[], by simp [h.1]⟩
        | cons y a2 =>
          simp only [List.cons_append, List.nil_append, List.cons.injEq] at h
          obtain ⟨a', ha'⟩ := ih a2 b h.2.2
          exact ⟨x :: y :: a', by simp [ha']⟩
    · have e : escape_byte c = [c] := by simp [escape_byte, hc]
      rw [e] at h
      cases a with
      | nil =>
        simp only [List.cons_append, List.nil_append, List.cons.injEq] at h
        exact absurd (Or.inl h.1) hc
      | cons x a1 =>
        simp only [List.cons_append, List.nil_append, List.cons.injEq] at h
        obtain ⟨a', ha'⟩ := ih a1 b h.2
        exact ⟨x :: a', by simp [ha']⟩

theorem escaped_inner (s : List Nat) :
    ((escaped s).drop 1).dropLast = s.flatMap escape_byte := by
  simp [escaped]

theorem escape_text_of_nul_free (s : List Nat) (hs : ∀ b, b ∈ s → b ≠ 0) :
    escape_text (some s) = .ok (escaped s) := by
  obtain ⟨ps, hps, hfl⟩ := escape_pieces_flatten s
  rw [cstr_of_nul_free s hs] at hfl
  simp only [escape_text, hps, Outcome.map_ok, hfl]

/-- C20. For a NUL-free string `s`, the text `sink_escape` hands to an
unbounded sink, without its first and last byte and with every `\` `c`
replaced by `c` from the left, is `s` again; so different strings get
different texts; every `"` inside the text comes right after a `\`; and a
reader of JSON strings that starts after the opening quote ends at the closing
quote, with `s` read. -/
theorem escaping_reversible (s : List Nat) (hs : ∀ b, b ∈ s → b ≠ 0) :
    escape_text (some s) = .ok (escaped s) ∧
    unescape (((escaped s).drop 1).dropLast) = s ∧
    (∀ s', (∀ b, b ∈ s' → b ≠ 0) → escape_text (some s') = escape_text (some s) → s' = s) ∧
    (∀ a b, ((escaped s).drop 1).dropLast = a ++ 34 :: b → ∃ a', a = a' ++ [92]) ∧
    (∀ rest, read_string ((escaped s).drop 1 ++ rest) = some (s, rest)) := by
  have h1 := escape_text_of_nul_free s hs
  refine ⟨h1, ?_, ?_, ?_, ?_⟩
  · rw [escaped_inner, unescape_flatMap]
  · intro s' hs' he
    have h2 := escape_text_of_nul_free s' hs'
    rw [h1, h2] at he
    have he' : escaped s' = escaped s := by
      simpa using he
    have h3 : unescape (((escaped s').drop 1).dropLast)
        = unescape (((escaped s).drop 1).dropLast) := by rw [he']
    rw [escaped_inner, escaped_inner, unescape_flatMap, unescape_flatMap] at h3
    exact h3
  · intro a b h
    rw [escaped_inner] at h
    exact quote_after_backslash s a b h
  · intro rest
    have e : (escaped s).drop 1 ++ rest = s.flatMap escape_byte ++ 34 :: rest := by
      simp [escaped]
    rw [e, read_string_flatMap]

/-- Witness for C20: the text of `he said "hi"\back` is read back to it. -/
theorem escaping_reversible_witness :
    (∀ b, b ∈ lit "he said \"hi\"\\back" → b ≠ 0) ∧
    escaped (lit "he said \"hi\"\\back") = lit "\"he said \\\"hi\\\"\\\\back\"" ∧
    unescape (((escaped (lit "he said \"hi\"\\back")).drop 1).dropLast)
      = lit "he said \"hi\"\\back" ∧
    read_string ((escaped (lit "he said \"hi\"\\back")).drop 1 ++ lit ":1")
      = some (lit "he said \"hi\"\\back", lit ":1") :=
  ⟨by decide, by decide,
    (escaping_reversible (lit "he said \"hi\"\\back") (by decide)).2.1,
    (escaping_reversible (lit "he said \"hi\"\\back") (by decide)).2.2.2.2 (lit ":1")⟩

end ModHost
